import Mathlib

/-!
# A Game Boy (DMG) emulator core: CPU step, interrupt dispatch, ALU and PPU state machine

Shallow embedding of `src/cpu.cc`, of the state machine and the line rendering
of `src/ppu.cc`, of the power-on and the tick loop of `src/motherboard.cc` and of
the event poll and the pixel writes of `src/emulator-form.cc`.  Machine integers are
natural numbers: a `uint8_t` is a `Nat` reduced modulo 256, a `uint16_t` a `Nat`
reduced modulo 65536, and every C++ expression is evaluated in `int` first
(integer promotion) and reduced when it is stored into a narrower variable.
The inner clock of the PPU, an `int` that `ppu_main` adds to on every call, is an
`Int` kept in the 32-bit range by `to_int32`.
Function arguments of type `uint8_t` or `uint16_t` are taken to be in range; the
theorems say so explicitly.
-/

namespace gameboy

/-! ## Register file -/

/-- Names of the CPU registers: eight byte cells and the two word cells. -/
inductive RegisterName where
  | r_a | r_f | r_b | r_c | r_d | r_e | r_h | r_l | r_pc | r_sp
  deriving DecidableEq

/-- Names of the four flags held in the F register. -/
inductive FlagName where
  | f_z | f_n | f_h | f_c
  deriving DecidableEq

/-- Modelled from the spec: the `Register` class (its header and source file are
not part of `src/`).  The byte cells live in `register_byte` and the word cells
SP and PC in `register_word`; both arrays are named by `Motherboard::save`. -/
structure Register where
  register_byte : RegisterName → Nat
  register_word : RegisterName → Nat

/-- Modelled from the spec: position of a flag inside F, "Z(bit 7), N(6), H(5),
C(4)". -/
def FlagName.bit : FlagName → Nat
  | .f_z => 7
  | .f_n => 6
  | .f_h => 5
  | .f_c => 4

/-- Modelled from the spec: `Register::get_register_byte`, the read of an 8-bit
cell (the result type `uint8_t` reduces modulo 256). -/
def Register.get_register_byte (reg : Register) (name : RegisterName) : Nat :=
  reg.register_byte name % 256

/-- Modelled from the spec: `Register::set_register_byte`, the write of an 8-bit
cell. -/
def Register.set_register_byte (reg : Register) (name : RegisterName) (value : Nat) :
    Register :=
  { reg with register_byte := fun x => if x = name then value % 256 else reg.register_byte x }

/-- Modelled from the spec: `Register::get_register_word`, the read of SP or PC
(the result type `uint16_t` reduces modulo 65536). -/
def Register.get_register_word (reg : Register) (name : RegisterName) : Nat :=
  reg.register_word name % 65536

/-- Modelled from the spec: `Register::set_register_word`, the write of SP or
PC. -/
def Register.set_register_word (reg : Register) (name : RegisterName) (value : Nat) :
    Register :=
  { reg with register_word := fun x => if x = name then value % 65536 else reg.register_word x }

/-- Modelled from the spec: `Register::get_flag`, the flag bit of F. -/
def Register.get_flag (reg : Register) (flag : FlagName) : Bool :=
  (reg.get_register_byte .r_f).testBit flag.bit

/-- Modelled from the spec: `Register::set_flag`, which sets or clears one flag
bit of F; "any F-write discards the low nibble". -/
def Register.set_flag (reg : Register) (flag : FlagName) (value : Bool) : Register :=
  let f := reg.get_register_byte .r_f
  let f := if value then f ||| (1 <<< flag.bit) else f &&& (0xFF ^^^ (1 <<< flag.bit))
  reg.set_register_byte .r_f (f &&& 0xF0)

/-- Conversion of a `bool` to an integer, as in `uint16_t c = reg.get_flag(..)`. -/
def bool_to_int (b : Bool) : Nat := if b then 1 else 0

/-! ## Memory -/

/-- Modelled from the spec: the `Memory` class (its header and source file are
not part of `src/`): the raw 64 KiB image `memory_byte[0x10000]` that
`Motherboard::save` writes out ("the source exposes raw 64 KiB").  Cartridge
banking and write side effects of I/O registers are not part of this model. -/
structure Memory where
  memory_byte : Nat → Nat

/-- Modelled from the spec: `Memory::get_memory_byte`, `read8(addr) → u8` on the
raw image; the `uint16_t` address reduces modulo 65536. -/
def Memory.get_memory_byte (mem : Memory) (address : Nat) : Nat :=
  mem.memory_byte (address % 65536) % 256

/-- Modelled from the spec: `Memory::set_memory_byte`, `write8(addr, u8)` on the
raw image. -/
def Memory.set_memory_byte (mem : Memory) (address : Nat) (value : Nat) : Memory :=
  { memory_byte := fun x => if x = address % 65536 then value % 256 else mem.memory_byte x }

/-- Modelled from the spec: `Memory::get_memory_word`, `read16`, little-endian. -/
def Memory.get_memory_word (mem : Memory) (address : Nat) : Nat :=
  mem.get_memory_byte address + 256 * mem.get_memory_byte (address + 1)

/-- Modelled from the spec: `Memory::set_memory_word`, `write16`, little-endian:
the low byte goes to `address`, the high byte to `address + 1`. -/
def Memory.set_memory_word (mem : Memory) (address : Nat) (value : Nat) : Memory :=
  (mem.set_memory_byte address (value % 256)).set_memory_byte (address + 1)
    (value / 256 % 256)

/-! ## 8-bit ALU (`Cpu::alu_*`) -/

/-- Embeds `Cpu::alu_add`: add `n` to A. -/
def alu_add (reg : Register) (n : Nat) : Register :=
  let temp_n_word := n
  let temp_r_a_word := reg.get_register_byte .r_a
  let temp_reg_word := (temp_r_a_word + temp_n_word) % 65536
  let f_carry := decide (temp_reg_word > 0x00ff)
  let reg := reg.set_flag .f_c f_carry
  let f_half_carry := decide ((temp_r_a_word &&& 0x000f) + (temp_n_word &&& 0x000f) > 0x000f)
  let reg := reg.set_flag .f_h f_half_carry
  let reg := reg.set_flag .f_n false
  let reg := reg.set_flag .f_z (decide (temp_reg_word = 0))
  let temp_reg_byte := temp_reg_word &&& 0xff
  reg.set_register_byte .r_a temp_reg_byte

/-- Embeds `Cpu::alu_adc`: add `n` and the carry flag to A. -/
def alu_adc (reg : Register) (n : Nat) : Register :=
  let temp_n_word := n
  let temp_r_a_word := reg.get_register_byte .r_a
  let temp_carry_word := bool_to_int (reg.get_flag .f_c)
  let temp_reg_word := (temp_r_a_word + temp_carry_word + temp_n_word) % 65536
  let f_carry := decide (temp_reg_word > 0x00ff)
  let reg := reg.set_flag .f_c f_carry
  let f_half_carry :=
    decide ((temp_r_a_word &&& 0x000f) + (temp_carry_word &&& 0x000f) + (temp_n_word &&& 0x000f)
      > 0x000f)
  let reg := reg.set_flag .f_h f_half_carry
  let reg := reg.set_flag .f_n false
  let reg := reg.set_flag .f_z (decide (temp_reg_word = 0))
  let temp_reg_byte := temp_reg_word &&& 0xff
  reg.set_register_byte .r_a temp_reg_byte

/-- Embeds `Cpu::alu_sub`: subtract `n` from A.  The difference is computed in `int`
and stored into a `uint16_t`, hence the `+ 65536` before the reduction. -/
def alu_sub (reg : Register) (n : Nat) : Register :=
  let temp_n_word := n
  let temp_r_a_word := reg.get_register_byte .r_a
  let temp_reg_word := (temp_r_a_word + 65536 - temp_n_word) % 65536
  let f_carry := decide (temp_r_a_word < temp_n_word)
  let reg := reg.set_flag .f_c f_carry
  let f_half_carry := decide ((temp_r_a_word &&& 0x000f) < (temp_n_word &&& 0x000f))
  let reg := reg.set_flag .f_h f_half_carry
  let reg := reg.set_flag .f_n true
  let reg := reg.set_flag .f_z (decide (temp_reg_word = 0))
  let temp_reg_byte := temp_reg_word &&& 0xff
  reg.set_register_byte .r_a temp_reg_byte

/-- Embeds `Cpu::alu_sbc`: subtract `n` and the carry flag from A. -/
def alu_sbc (reg : Register) (n : Nat) : Register :=
  let temp_n_word := n
  let temp_r_a_word := reg.get_register_byte .r_a
  let temp_carry_word := bool_to_int (reg.get_flag .f_c)
  let temp_reg_word := (temp_r_a_word + 65536 - temp_carry_word - temp_n_word) % 65536
  let f_carry := decide (temp_r_a_word < temp_carry_word + temp_n_word)
  let reg := reg.set_flag .f_c f_carry
  let f_half_carry :=
    decide ((temp_r_a_word &&& 0x000f) < temp_carry_word + (temp_n_word &&& 0x000f))
  let reg := reg.set_flag .f_h f_half_carry
  let reg := reg.set_flag .f_n true
  let reg := reg.set_flag .f_z (decide (temp_reg_word = 0))
  let temp_reg_byte := temp_reg_word &&& 0xff
  reg.set_register_byte .r_a temp_reg_byte

/-- Embeds `Cpu::alu_and`: A := A AND n. -/
def alu_and (reg : Register) (n : Nat) : Register :=
  let temp_r_a_byte := reg.get_register_byte .r_a
  let temp_r_a_byte := (temp_r_a_byte &&& n) % 256
  let reg := reg.set_flag .f_c false
  let reg := reg.set_flag .f_h true
  let reg := reg.set_flag .f_n false
  let reg := reg.set_flag .f_z (decide (temp_r_a_byte = 0))
  reg.set_register_byte .r_a temp_r_a_byte

/-- Embeds `Cpu::alu_or`: A := A OR n. -/
def alu_or (reg : Register) (n : Nat) : Register :=
  let temp_r_a_byte := reg.get_register_byte .r_a
  let temp_r_a_byte := (temp_r_a_byte ||| n) % 256
  let reg := reg.set_flag .f_c false
  let reg := reg.set_flag .f_h false
  let reg := reg.set_flag .f_n false
  let reg := reg.set_flag .f_z (decide (temp_r_a_byte = 0))
  reg.set_register_byte .r_a temp_r_a_byte

/-- Embeds `Cpu::alu_xor`: A := A XOR n. -/
def alu_xor (reg : Register) (n : Nat) : Register :=
  let temp_r_a_byte := reg.get_register_byte .r_a
  let temp_r_a_byte := (temp_r_a_byte ^^^ n) % 256
  let reg := reg.set_flag .f_c false
  let reg := reg.set_flag .f_h false
  let reg := reg.set_flag .f_n false
  let reg := reg.set_flag .f_z (decide (temp_r_a_byte = 0))
  reg.set_register_byte .r_a temp_r_a_byte

/-- Embeds `Cpu::alu_cp`: compare A with `n`: an `alu_sub` after which A is put back. -/
def alu_cp (reg : Register) (n : Nat) : Register :=
  let temp_r_a_byte := reg.get_register_byte .r_a
  let reg := alu_sub reg n
  reg.set_register_byte .r_a temp_r_a_byte

/-- Embeds `Cpu::alu_inc`: returns `n + 1` as a byte, with the flags updated. -/
def alu_inc (reg : Register) (n : Nat) : Nat × Register :=
  let temp_reg_byte := (n + 1) % 256
  let f_half_carry := decide ((n &&& 0x0f) + 0x01 > 0x0f)
  let reg := reg.set_flag .f_h f_half_carry
  let reg := reg.set_flag .f_n false
  let reg := reg.set_flag .f_z (decide (temp_reg_byte = 0))
  (temp_reg_byte, reg)

/-- Embeds `Cpu::alu_dec`: returns `n - 1` as a byte, with the flags updated. -/
def alu_dec (reg : Register) (n : Nat) : Nat × Register :=
  let temp_reg_byte := (n + 256 - 0x01) % 256
  let f_half_carry := decide ((n &&& 0x0f) = 0)
  let reg := reg.set_flag .f_h f_half_carry
  let reg := reg.set_flag .f_n true
  let reg := reg.set_flag .f_z (decide (temp_reg_byte = 0))
  (temp_reg_byte, reg)

/-! ## CPU state, stack and fetch (`cpu.cc`, lines 8-59) -/

/-- State of the `Cpu` object: the register file and the two status
booleans. -/
structure Cpu where
  reg : Register
  f_halted : Bool
  f_enable_interrupts : Bool

/-- Embeds `Cpu::stack_add`: SP is lowered by 2 (as a `uint16_t`), then the word is
stored at the new SP. -/
def stack_add (cpu : Cpu) (mem : Memory) (word : Nat) : Cpu × Memory :=
  let sp := (cpu.reg.get_register_word .r_sp + 65536 - 2) % 65536
  let reg := cpu.reg.set_register_word .r_sp sp
  let mem := mem.set_memory_word (reg.get_register_word .r_sp) word
  ({ cpu with reg := reg }, mem)

/-- Embeds `Cpu::stack_pop`: the word at SP is read, then SP is raised by 2. -/
def stack_pop (cpu : Cpu) (mem : Memory) : Nat × Cpu :=
  let temp_pop_word := mem.get_memory_word (cpu.reg.get_register_word .r_sp)
  let sp := (cpu.reg.get_register_word .r_sp + 2) % 65536
  (temp_pop_word, { cpu with reg := cpu.reg.set_register_word .r_sp sp })

/-- Embeds `Cpu::read_opcode_byte`: the byte at PC is read, then PC moves by 1. -/
def read_opcode_byte (cpu : Cpu) (mem : Memory) : Nat × Cpu :=
  let temp_opcode_byte := mem.get_memory_byte (cpu.reg.get_register_word .r_pc)
  let pc := (cpu.reg.get_register_word .r_pc + 1) % 65536
  (temp_opcode_byte, { cpu with reg := cpu.reg.set_register_word .r_pc pc })

/-! ## Interrupt dispatch (`Cpu::handle_interrupts`, lines 62-128) -/

/-- Loop behind `builtin_ctz`: the number of low zero bits of `x`, looking at
no more than `fuel` bits. -/
def ctz_loop : Nat → Nat → Nat
  | 0, _ => 0
  | fuel + 1, x => if x % 2 = 1 then 0 else 1 + ctz_loop fuel (x / 2)

/-- The GCC builtin `__builtin_ctz` on a 32-bit `unsigned int`: the number of
trailing zero bits (the builtin leaves the value at 0 undefined). -/
def builtin_ctz (x : Nat) : Nat := ctz_loop 32 x

/-- Bitwise complement `~x` of a 32-bit `int`, read as an unsigned bit
pattern. -/
def bit_not (x : Nat) : Nat := 0xFFFFFFFF ^^^ x

/-- Embeds `Cpu::handle_interrupts`: returns the cost (0 when nothing was dispatched)
with the new CPU state and memory. -/
def handle_interrupts (cpu : Cpu) (mem : Memory) : Nat × Cpu × Memory :=
  if !cpu.f_enable_interrupts && !cpu.f_halted then
    (0, cpu, mem)
  else
    let ior_interrupt_flag := mem.get_memory_byte 0xff0f
    let ior_interrupt_enable := mem.get_memory_byte 0xffff
    let temp_flag := (ior_interrupt_enable &&& ior_interrupt_flag) % 256
    if temp_flag = 0x00 then
      (0, cpu, mem)
    else
      let cpu := { cpu with f_halted := false }
      if !cpu.f_enable_interrupts then
        (0, cpu, mem)
      else
        let cpu := { cpu with f_enable_interrupts := false }
        let temp_trailing_zero_byte := builtin_ctz temp_flag % 256
        let ior_interrupt_flag :=
          (ior_interrupt_flag &&& bit_not (0x01 <<< temp_trailing_zero_byte)) % 256
        let mem := mem.set_memory_byte 0xff0f ior_interrupt_flag
        let (cpu, mem) := stack_add cpu mem (cpu.reg.get_register_word .r_pc)
        let temp_trailing_zero_word := (temp_trailing_zero_byte &&& 0xffff) % 65536
        let pc := (0x0040 ||| (temp_trailing_zero_word <<< 3)) % 65536
        let cpu := { cpu with reg := cpu.reg.set_register_word .r_pc pc }
        (4, cpu, mem)

/-! ## Fetch and execute (`Cpu::execute`, `Cpu::next`, lines 130-170) -/

/-- The opcode tables of `Cpu` that `execute` indexes; they are declared outside
`src/` and are taken as a parameter.  `handle_opcode_main[op]` is the handler of
main-page opcode `op` (it receives the memory and the opcode),
`opcode_cycle_main` and `opcode_cycle_prefix_cb` are the two 256-entry cycle
tables. -/
structure OpcodeTables where
  handle_opcode_main : Nat → Cpu → Memory → Nat → Cpu × Memory
  opcode_cycle_main : Nat → Nat
  opcode_cycle_prefix_cb : Nat → Nat

/-- A table used as the condition of an `if`, as in
`if (opcode_cycle_prefix_cb)`: the array converts to the address of its first
entry, which is never null, so the condition holds whatever the entries are. -/
def table_as_condition (_table : Nat → Nat) : Bool := true

/-- Embeds `Cpu::execute`: fetches one opcode byte, runs its handler and returns the
cycle count read from the tables.  The local `opcode_prefix_cb` is set to 0x00
and never assigned again. -/
def execute (tables : OpcodeTables) (cpu : Cpu) (mem : Memory) : Nat × Cpu × Memory :=
  let (opcode_main, cpu) := read_opcode_byte cpu mem
  let opcode_prefix_cb := 0x00
  let (cpu, mem) := tables.handle_opcode_main opcode_main cpu mem opcode_main
  if table_as_condition tables.opcode_cycle_prefix_cb then
    (tables.opcode_cycle_prefix_cb opcode_prefix_cb % 256, cpu, mem)
  else
    (tables.opcode_cycle_main opcode_main % 256, cpu, mem)

/-- Embeds `Cpu::next`: one CPU step: an interrupt dispatch, an idle step while
halted, or the execution of one opcode. -/
def next (tables : OpcodeTables) (cpu : Cpu) (mem : Memory) : Nat × Cpu × Memory :=
  let (temp_counter, cpu, mem) := handle_interrupts cpu mem
  if temp_counter ≠ 0 then
    (temp_counter, cpu, mem)
  else if cpu.f_halted then
    (1, cpu, mem)
  else
    execute tables cpu mem

/-- Embeds `Motherboard::loop`, lines 97-99: the T-cycle count handed to
`ppu_main` and to the timer for a CPU step that reported `cpu_cycle`:
`4 * cpu_cycle`, received by `ppu_main` as a `uint8_t`. -/
def loop_clocks (cpu_cycle : Nat) : Nat := (4 * cpu_cycle) % 256

/-! ## 16-bit ALU, rotates, DAA and JR (`cpu.cc`, lines 408-766) -/

/-- Modelled from the spec: `Register::get_register_byte_pair`, the 16-bit view
of two byte cells, "big-endian (high register = high byte)": `(first << 8) |
second`. -/
def Register.get_register_byte_pair (reg : Register) (first second : RegisterName) : Nat :=
  (reg.get_register_byte first <<< 8) ||| reg.get_register_byte second

/-- Modelled from the spec: `Register::set_register_byte_pair`, "writing BC
writes both halves": the high byte goes to `first`, the low byte to `second`. -/
def Register.set_register_byte_pair (reg : Register) (first second : RegisterName)
    (value : Nat) : Register :=
  (reg.set_register_byte first (value / 256 % 256)).set_register_byte second (value % 256)

/-- Embeds `Cpu::alu_add_hl`: add the word `n` to HL.  Z is not written. -/
def alu_add_hl (reg : Register) (n : Nat) : Register :=
  let temp_r_hl_word := reg.get_register_byte_pair .r_h .r_l
  let temp_reg_word := (temp_r_hl_word + n) % 65536
  let f_carry := decide (temp_r_hl_word > 0xffff - n)
  let reg := reg.set_flag .f_c f_carry
  let f_half_carry := decide ((temp_r_hl_word &&& 0x07ff) + (n &&& 0x07ff) > 0x07ff)
  let reg := reg.set_flag .f_h f_half_carry
  let reg := reg.set_flag .f_n false
  reg.set_register_byte_pair .r_h .r_l temp_reg_word

/-- Embeds `Cpu::alu_add_sp`: the immediate byte at PC is read into a
`uint16_t` (zero-extended) and added to SP. -/
def alu_add_sp (cpu : Cpu) (mem : Memory) : Cpu :=
  let temp_r_sp_word := cpu.reg.get_register_word .r_sp
  let (temp_imm_word, cpu) := read_opcode_byte cpu mem
  let f_carry := decide ((temp_r_sp_word &&& 0x00ff) + (temp_imm_word &&& 0x00ff) > 0x00ff)
  let reg := cpu.reg.set_flag .f_c f_carry
  let f_half_carry := decide ((temp_r_sp_word &&& 0x000f) + (temp_imm_word &&& 0x000f) > 0x000f)
  let reg := reg.set_flag .f_h f_half_carry
  let reg := reg.set_flag .f_n false
  let reg := reg.set_flag .f_z false
  let temp_reg_word := (temp_r_sp_word + temp_imm_word) % 65536
  { cpu with reg := reg.set_register_word .r_sp temp_reg_word }

/-- Embeds `Cpu::alu_swap`: Z is the test of the argument, the result has the
two nibbles exchanged. -/
def alu_swap (reg : Register) (n : Nat) : Nat × Register :=
  let reg := reg.set_flag .f_c false
  let reg := reg.set_flag .f_h false
  let reg := reg.set_flag .f_n false
  let reg := reg.set_flag .f_z (decide (n = 0))
  let temp_reg_byte := ((n >>> 4) ||| (n <<< 4)) % 256
  (temp_reg_byte, reg)

/-- Embeds `Cpu::alu_daa`: decimal adjust of A. -/
def alu_daa (reg : Register) : Register :=
  let temp_r_a_byte := reg.get_register_byte .r_a
  let f_carry := reg.get_flag .f_c
  let temp_adjust_byte := if f_carry then 0x60 else 0x00
  let f_half_carry := reg.get_flag .f_h
  let temp_adjust_byte := if f_half_carry then temp_adjust_byte ||| 0x06 else temp_adjust_byte
  let f_subtract := reg.get_flag .f_n
  let (temp_adjust_byte, temp_r_a_byte) :=
    if !f_subtract then
      let temp_adjust_byte :=
        if (temp_r_a_byte &&& 0x0f) > 0x09 then temp_adjust_byte ||| 0x06 else temp_adjust_byte
      let temp_adjust_byte :=
        if temp_r_a_byte > 0x99 then temp_adjust_byte ||| 0x60 else temp_adjust_byte
      (temp_adjust_byte, (temp_r_a_byte + temp_adjust_byte) % 256)
    else
      (temp_adjust_byte, (temp_r_a_byte + 256 - temp_adjust_byte) % 256)
  let reg := reg.set_flag .f_c (decide (temp_adjust_byte ≥ 0x60))
  let reg := reg.set_flag .f_h false
  let reg := reg.set_flag .f_z (decide (temp_r_a_byte = 0))
  reg.set_register_byte .r_a temp_r_a_byte

/-- Embeds `Cpu::alu_rlc`: rotate left, old bit 7 to carry and to bit 0. -/
def alu_rlc (reg : Register) (n : Nat) : Nat × Register :=
  let f_carry := decide (((n &&& 0x80) >>> 7) = 0x01)
  let reg := reg.set_flag .f_c f_carry
  let reg := reg.set_flag .f_h false
  let reg := reg.set_flag .f_n false
  let temp_carry_byte := bool_to_int f_carry
  let temp_reg_byte := ((n <<< 1) ||| temp_carry_byte) % 256
  let reg := reg.set_flag .f_z (decide (temp_reg_byte = 0))
  (temp_reg_byte, reg)

/-- Embeds `Cpu::alu_rl`: rotate left through the carry flag. -/
def alu_rl (reg : Register) (n : Nat) : Nat × Register :=
  let temp_carry_byte := bool_to_int (reg.get_flag .f_c)
  let temp_reg_byte := ((n <<< 1) + temp_carry_byte) % 256
  let f_carry := decide (((n &&& 0x80) >>> 7) = 0x01)
  let reg := reg.set_flag .f_c f_carry
  let reg := reg.set_flag .f_h false
  let reg := reg.set_flag .f_n false
  let reg := reg.set_flag .f_z (decide (temp_reg_byte = 0))
  (temp_reg_byte, reg)

/-- Embeds `Cpu::alu_rrc`: rotate right, old bit 0 to carry and to bit 7. -/
def alu_rrc (reg : Register) (n : Nat) : Nat × Register :=
  let f_carry := decide ((n &&& 0x01) = 0x01)
  let temp_reg_byte := (if f_carry then (n >>> 1) ||| 0x80 else n >>> 1) % 256
  let reg := reg.set_flag .f_c f_carry
  let reg := reg.set_flag .f_h false
  let reg := reg.set_flag .f_n false
  let reg := reg.set_flag .f_z (decide (temp_reg_byte = 0))
  (temp_reg_byte, reg)

/-- Embeds `Cpu::alu_rr`: its body is the same as that of `alu_rrc`; the carry
flag is not read. -/
def alu_rr (reg : Register) (n : Nat) : Nat × Register :=
  let f_carry := decide ((n &&& 0x01) = 0x01)
  let temp_reg_byte := (if f_carry then (n >>> 1) ||| 0x80 else n >>> 1) % 256
  let reg := reg.set_flag .f_c f_carry
  let reg := reg.set_flag .f_h false
  let reg := reg.set_flag .f_n false
  let reg := reg.set_flag .f_z (decide (temp_reg_byte = 0))
  (temp_reg_byte, reg)

/-- Embeds `Cpu::alu_sla`: shift left into carry, bit 0 becomes 0. -/
def alu_sla (reg : Register) (n : Nat) : Nat × Register :=
  let f_carry := decide (((n &&& 0x80) >>> 7) = 0x01)
  let temp_reg_byte := (n <<< 1) % 256
  let reg := reg.set_flag .f_c f_carry
  let reg := reg.set_flag .f_h false
  let reg := reg.set_flag .f_n false
  let reg := reg.set_flag .f_z (decide (temp_reg_byte = 0))
  (temp_reg_byte, reg)

/-- Embeds `Cpu::alu_sra`: shift right into carry, bit 7 is kept. -/
def alu_sra (reg : Register) (n : Nat) : Nat × Register :=
  let f_carry := decide ((n &&& 0x01) = 0x01)
  let temp_reg_byte := ((n >>> 1) ||| (n &&& 0x80)) % 256
  let reg := reg.set_flag .f_c f_carry
  let reg := reg.set_flag .f_h false
  let reg := reg.set_flag .f_n false
  let reg := reg.set_flag .f_z (decide (temp_reg_byte = 0))
  (temp_reg_byte, reg)

/-- Embeds `Cpu::alu_srl`: shift right into carry, bit 7 becomes 0. -/
def alu_srl (reg : Register) (n : Nat) : Nat × Register :=
  let f_carry := decide ((n &&& 0x01) = 0x01)
  let temp_reg_byte := (n >>> 1) % 256
  let reg := reg.set_flag .f_c f_carry
  let reg := reg.set_flag .f_h false
  let reg := reg.set_flag .f_n false
  let reg := reg.set_flag .f_z (decide (temp_reg_byte = 0))
  (temp_reg_byte, reg)

/-- Conversion of a byte to `int8_t`: values from 0x80 on are negative. -/
def to_int8 (byte : Nat) : Int :=
  if byte % 256 < 128 then (byte % 256 : Nat) else (byte % 256 : Nat) - 256

/-- Embeds `Cpu::alu_jr`: the byte at PC is read as an `int8_t`, PC becomes
PC + (byte + 1), computed in an `int32_t` and masked with 0xffff. -/
def alu_jr (cpu : Cpu) (mem : Memory) : Cpu :=
  let temp_r_pc_word := cpu.reg.get_register_word .r_pc
  let temp_imm_byte := to_int8 (mem.get_memory_byte temp_r_pc_word)
  let temp_r_pc_dword : Int := temp_r_pc_word
  let temp_r_pc_dword := temp_r_pc_dword + (temp_imm_byte + 1)
  let temp_reg_word := (temp_r_pc_dword % 65536).toNat
  { cpu with reg := cpu.reg.set_register_word .r_pc temp_reg_word }

/-! ## PPU state machine (`ppu.cc`, lines 8-171 and 434-476) -/

/-- The four PPU modes named by `ppu_main`. -/
inductive PpuMode where
  | mode_hblank | mode_vblank | mode_oam_search | mode_pixel_transfer
  deriving DecidableEq

/-- Modelled from the spec: the numeric values of the `PpuMode` enumerators
(declared outside `src/`), "OAM_Search(2), Pixel_Transfer(3), HBlank(0),
VBlank(1)". -/
def PpuMode.value : PpuMode → Nat
  | .mode_hblank => 0
  | .mode_vblank => 1
  | .mode_oam_search => 2
  | .mode_pixel_transfer => 3

/-- Modelled from the spec: address of IF, "IF at 0xFF0F". -/
def IF_ADDRESS : Nat := 0xFF0F

/-- Modelled from the spec: address of LCDC, "LCDC (0xFF40)". -/
def LCDC_ADDRESS : Nat := 0xFF40

/-- Modelled from the spec: address of STAT, "STAT (0xFF41)". -/
def STAT_ADDRESS : Nat := 0xFF41

/-- Modelled from the spec: address of LY, "LY (0xFF44)". -/
def LY_ADDRESS : Nat := 0xFF44

/-- Modelled from the spec: address of LYC, "LYC (0xFF45)". -/
def LYC_ADDRESS : Nat := 0xFF45

/-- Modelled from the spec: address of the DMA register, "DMA (0xFF46)". -/
def DMA_ADDRESS : Nat := 0xFF46

/-- Modelled from the spec: first address of OAM, "0xFE00–0xFE9F OAM". -/
def OAM_TABLE_INITIAL_ADDDRESS : Nat := 0xFE00

/-- Modelled from the spec: number of visible lines, "160×144"; the comment in
`ppu_main` reads "after SCREEN_HEIGHT (144) lines". -/
def SCREEN_HEIGHT : Nat := 144

/-- The value stored in a 32-bit `int` for the mathematical result `x`: `x`
itself when it fits, and the two's complement value otherwise (signed overflow
is undefined in C++; this is what the usual targets compute). -/
def to_int32 (x : Int) : Int := (x + 2147483648) % 4294967296 - 2147483648

/-- State of the `Ppu` object.  The inner clock is the `int` that
`add_time(int)` adds to (the member is declared outside `src/`).  The frame
buffer (`form`) is written by `draw_line` and never read by the state machine;
it is not part of this state. -/
structure Ppu where
  current_mode : PpuMode
  ppu_inner_clock : Int
  ready_to_refresh : Bool

/-- Embeds `Ppu::add_time`: `ppu_inner_clock += add_clocks` on the `int`. -/
def Ppu.add_time (ppu : Ppu) (add_clocks : Int) : Ppu :=
  { ppu with ppu_inner_clock := to_int32 (ppu.ppu_inner_clock + add_clocks) }

/-- Embeds `Ppu::reset_interrupt_registers`: IF bits 0 and 1 are cleared. -/
def reset_interrupt_registers (mem : Memory) : Memory :=
  let interrupt_flag_byte := mem.get_memory_byte IF_ADDRESS
  let interrupt_flag_byte := interrupt_flag_byte &&& 0xFC
  mem.set_memory_byte IF_ADDRESS interrupt_flag_byte

/-- Embeds `Ppu::set_mode`: nothing happens when the mode is already `mode`;
otherwise STAT bits 0-1 and the interrupt requests are updated. -/
def set_mode (ppu : Ppu) (mode : PpuMode) (mem : Memory) : Ppu × Memory :=
  if ppu.current_mode = mode then
    (ppu, mem)
  else
    let ppu := { ppu with current_mode := mode }
    let stat_byte := mem.get_memory_byte STAT_ADDRESS
    let interrupt_flag_byte := mem.get_memory_byte IF_ADDRESS
    let stat_byte := stat_byte &&& 0xFC
    let stat_byte := stat_byte ||| (mode.value &&& 0x03)
    let interrupt_flag_byte :=
      if mode = .mode_vblank then interrupt_flag_byte ||| 0x01 else interrupt_flag_byte
    let interrupt_flag_byte :=
      if (mode = .mode_hblank ∧ stat_byte &&& 0x0F ≠ 0)
          ∨ (mode = .mode_vblank ∧ stat_byte &&& 0x10 ≠ 0)
          ∨ (mode = .mode_oam_search ∧ stat_byte &&& 0x20 ≠ 0) then
        interrupt_flag_byte ||| 0x02
      else
        interrupt_flag_byte
    let mem := mem.set_memory_byte IF_ADDRESS interrupt_flag_byte
    let mem := mem.set_memory_byte STAT_ADDRESS stat_byte
    (ppu, mem)

/-- The `for` loop of `Ppu::pixel_transfer`, `for (uint8_t bytes = 0; bytes <=
0xA0; bytes++)`, from the counter value `bytes` on; `fuel` bounds the number of
iterations. -/
def pixel_transfer_loop (dma_byte : Nat) : Nat → Nat → Memory → Memory
  | 0, _, mem => mem
  | fuel + 1, bytes, mem =>
    if bytes ≤ 0xA0 then
      let dma_address_source := (dma_byte * 0x0100 + bytes) % 65536
      let dma_address_destin := (OAM_TABLE_INITIAL_ADDDRESS + bytes) % 65536
      let mem := mem.set_memory_byte dma_address_destin (mem.get_memory_byte dma_address_source)
      pixel_transfer_loop dma_byte fuel ((bytes + 1) % 256) mem
    else
      mem

/-- Embeds `Ppu::pixel_transfer`: the OAM DMA copy.  A `uint8_t` counter takes at
most 256 values, which is the fuel given to the loop. -/
def pixel_transfer (mem : Memory) : Memory :=
  let dma_byte := mem.get_memory_byte DMA_ADDRESS
  pixel_transfer_loop dma_byte 256 0 mem

/-- Embeds `Ppu::h_blank` on the memory: LY is incremented.  The call of
`draw_line` made when LCDC bit 0 is set only reads memory and writes pixels to
the frame buffer, so it leaves this state as it is. -/
def h_blank (mem : Memory) : Memory :=
  let ly_byte := mem.get_memory_byte LY_ADDRESS
  let ly_byte := (ly_byte + 1) % 256
  mem.set_memory_byte LY_ADDRESS ly_byte

/-- Embeds `Ppu::v_blank`: LY is set from the inner clock; the `int` quotient
(rounded towards zero) plus 144 is stored in a `uint8_t`. -/
def v_blank (ppu : Ppu) (mem : Memory) : Memory :=
  let ly_byte := ((Int.tdiv ppu.ppu_inner_clock 456 + SCREEN_HEIGHT) % 256).toNat
  mem.set_memory_byte LY_ADDRESS ly_byte

/-- Embeds `Ppu::update_lyc`: the coincidence flag (STAT bit 2) and its
interrupt request. -/
def update_lyc (mem : Memory) : Memory :=
  let stat_byte := mem.get_memory_byte STAT_ADDRESS
  let ly_byte := mem.get_memory_byte LY_ADDRESS
  let lyc_byte := mem.get_memory_byte LYC_ADDRESS
  if ly_byte = lyc_byte then
    let stat_byte := stat_byte ||| 0x04
    let mem :=
      if stat_byte &&& 0x40 ≠ 0 then
        let interrupt_flag_byte := mem.get_memory_byte IF_ADDRESS
        let interrupt_flag_byte := interrupt_flag_byte ||| 0x02
        mem.set_memory_byte IF_ADDRESS interrupt_flag_byte
      else
        mem
    mem.set_memory_byte STAT_ADDRESS stat_byte
  else
    let stat_byte := stat_byte &&& 0xFB
    mem.set_memory_byte STAT_ADDRESS stat_byte

/-- Embeds `Ppu::ppu_main`: one PPU step for `clocks * speed_hack` cycles. -/
def ppu_main (ppu : Ppu) (clocks speed_hack : Nat) (mem : Memory) : Ppu × Memory :=
  let mem := reset_interrupt_registers mem
  let ppu := ppu.add_time ((clocks * speed_hack : Nat) : Int)
  let (ppu, mem) :=
    if ppu.current_mode = .mode_oam_search then
      if ppu.ppu_inner_clock ≥ 79 then
        let ppu := { ppu with ppu_inner_clock := ppu.ppu_inner_clock - 79 }
        set_mode ppu .mode_pixel_transfer mem
      else
        (ppu, mem)
    else if ppu.current_mode = .mode_pixel_transfer then
      if ppu.ppu_inner_clock ≥ 172 then
        let ppu := { ppu with ppu_inner_clock := ppu.ppu_inner_clock - 172 }
        let (ppu, mem) := set_mode ppu .mode_hblank mem
        (ppu, pixel_transfer mem)
      else
        (ppu, mem)
    else if ppu.current_mode = .mode_hblank then
      if ppu.ppu_inner_clock ≥ 205 then
        let ppu := { ppu with ppu_inner_clock := ppu.ppu_inner_clock - 205 }
        let mem := h_blank mem
        let ly_byte := mem.get_memory_byte LY_ADDRESS
        if ly_byte ≥ SCREEN_HEIGHT then
          let (ppu, mem) := set_mode ppu .mode_vblank mem
          ({ ppu with ready_to_refresh := true }, mem)
        else
          set_mode ppu .mode_oam_search mem
      else
        (ppu, mem)
    else if ppu.current_mode = .mode_vblank then
      let mem := if ppu.ppu_inner_clock < 4560 then v_blank ppu mem else mem
      if ppu.ppu_inner_clock ≥ 4560 then
        let (ppu, mem) := set_mode ppu .mode_oam_search mem
        let ppu := { ppu with ppu_inner_clock := ppu.ppu_inner_clock - 4560 }
        let mem := mem.set_memory_byte LY_ADDRESS 0
        (ppu, mem)
      else
        (ppu, mem)
    else
      (ppu, mem)
  (ppu, update_lyc mem)

/-- State after a sequence of `ppu_main` calls, each given as
`(clocks, speed_hack)`. -/
def ppu_run : List (Nat × Nat) → Ppu × Memory → Ppu × Memory
  | [], s => s
  | c :: cs, s => ppu_run cs (ppu_main s.1 c.1 c.2 s.2)

/-- The states after each call of a sequence of `ppu_main` calls. -/
def ppu_trace : List (Nat × Nat) → Ppu × Memory → List (Ppu × Memory)
  | [], _ => []
  | c :: cs, s => ppu_main s.1 c.1 c.2 s.2 :: ppu_trace cs (ppu_main s.1 c.1 c.2 s.2)

/-- What `ppu_main` decides from: the current mode, the inner clock and LY. -/
def ppu_view (s : Ppu × Memory) : PpuMode × Int × Nat :=
  (s.1.current_mode, s.1.ppu_inner_clock, s.2.get_memory_byte LY_ADDRESS)

/-- The mode, inner clock and LY that `ppu_main` leaves, written on those three
values alone (`add` is `clocks * speed_hack`); `ppu_main_view` proves that this
is what `ppu_main` does. -/
def scanline_step (v : PpuMode × Int × Nat) (add : Nat) : PpuMode × Int × Nat :=
  let clock := to_int32 (v.2.1 + (add : Int))
  let ly := v.2.2
  match v.1 with
  | .mode_oam_search =>
    if clock ≥ 79 then (.mode_pixel_transfer, clock - 79, ly) else (.mode_oam_search, clock, ly)
  | .mode_pixel_transfer =>
    if clock ≥ 172 then (.mode_hblank, clock - 172, ly) else (.mode_pixel_transfer, clock, ly)
  | .mode_hblank =>
    if clock ≥ 205 then
      (if (ly + 1) % 256 ≥ 144 then .mode_vblank else .mode_oam_search, clock - 205,
        (ly + 1) % 256)
    else
      (.mode_hblank, clock, ly)
  | .mode_vblank =>
    if clock ≥ 4560 then (.mode_oam_search, clock - 4560, 0)
    else (.mode_vblank, clock, ((Int.tdiv clock 456 + 144) % 256).toNat)

/-- The views after each step of a sequence of `scanline_step`s. -/
def scanline_trace : List (Nat × Nat) → PpuMode × Int × Nat → List (PpuMode × Int × Nat)
  | [], _ => []
  | c :: cs, v => scanline_step v (c.1 * c.2) :: scanline_trace cs (scanline_step v (c.1 * c.2))

/-- The view after a sequence of `scanline_step`s. -/
def scanline_run : List (Nat × Nat) → PpuMode × Int × Nat → PpuMode × Int × Nat
  | [], v => v
  | c :: cs, v => scanline_run cs (scanline_step v (c.1 * c.2))

/-- The scanline as the timing table gives it, on the mode, the cycles
accumulated in the mode and LY: OAM_Search is left once 80 T-cycles have
accumulated, Pixel_Transfer once 172 and HBlank once 204, each threshold being
subtracted on the transition; VBlank lasts 4560 cycles and sets LY from the
cycles accumulated.  This definition follows the description
"OAM_Search (80 T-cycles) → Pixel_Transfer (172) → HBlank (204)", not the tests
of `ppu_main`; `ppu_main` is compared with it. -/
def scanline_step_80_172_204 (v : PpuMode × Int × Nat) (add : Nat) : PpuMode × Int × Nat :=
  let elapsed := v.2.1 + (add : Int)
  let ly := v.2.2
  match v.1 with
  | .mode_oam_search =>
    if elapsed ≥ 80 then (.mode_pixel_transfer, elapsed - 80, ly)
    else (.mode_oam_search, elapsed, ly)
  | .mode_pixel_transfer =>
    if elapsed ≥ 172 then (.mode_hblank, elapsed - 172, ly)
    else (.mode_pixel_transfer, elapsed, ly)
  | .mode_hblank =>
    if elapsed ≥ 204 then
      (if (ly + 1) % 256 ≥ 144 then .mode_vblank else .mode_oam_search, elapsed - 204,
        (ly + 1) % 256)
    else
      (.mode_hblank, elapsed, ly)
  | .mode_vblank =>
    if elapsed ≥ 4560 then (.mode_oam_search, elapsed - 4560, 0)
    else (.mode_vblank, elapsed, ((Int.tdiv elapsed 456 + 144) % 256).toNat)

/-- The view after a sequence of steps of `scanline_step_80_172_204`. -/
def scanline_run_80_172_204 : List (Nat × Nat) → PpuMode × Int × Nat → PpuMode × Int × Nat
  | [], v => v
  | c :: cs, v => scanline_run_80_172_204 cs (scanline_step_80_172_204 v (c.1 * c.2))

/-- The cycle that the inner clock of `ppu_main` holds beyond the cycles
accumulated in the mode: 1 in Pixel_Transfer and HBlank (79 is subtracted on
leaving OAM_Search), 0 in OAM_Search and VBlank. -/
def carried_cycle : PpuMode → Int
  | .mode_pixel_transfer => 1
  | .mode_hblank => 1
  | _ => 0

/-- No addition to the inner clock made by the calls `calls` from the state `s`
leaves the range of the `int`: before each call the clock plus
`clocks * speed_hack` is at most 2147483647. -/
def clock_fits_int : List (Nat × Nat) → Ppu × Memory → Prop
  | [], _ => True
  | c :: cs, s =>
    s.1.ppu_inner_clock + ((c.1 * c.2 : Nat) : Int) ≤ 2147483647
      ∧ clock_fits_int cs (ppu_main s.1 c.1 c.2 s.2)

/-- The test of `clock_fits_int` on the mode, inner clock and LY alone. -/
def scanline_fits : List (Nat × Nat) → PpuMode × Int × Nat → Bool
  | [], _ => true
  | c :: cs, v =>
    decide (v.2.1 + ((c.1 * c.2 : Nat) : Int) ≤ 2147483647)
      && scanline_fits cs (scanline_step v (c.1 * c.2))

/-! ## Line rendering (`Ppu::draw_line`, `Ppu::mix_tile_colors`, lines 173-432 and 478-481) -/

/-- Modelled from the spec: address of SCY, "SCY/SCX (0xFF42–43)". -/
def SCY_ADDRESS : Nat := 0xFF42

/-- Modelled from the spec: address of SCX, "SCY/SCX (0xFF42–43)". -/
def SCX_ADDRESS : Nat := 0xFF43

/-- Modelled from the spec: address of WY, "WY/WX (0xFF4A–4B)". -/
def WY_ADDRESS : Nat := 0xFF4A

/-- Modelled from the spec: address of WX, "WY/WX (0xFF4A–4B)". -/
def WX_ADDRESS : Nat := 0xFF4B

/-- Modelled from the spec: number of pixels of a line, "160×144". -/
def SCREEN_WIDTH : Nat := 160

/-- Modelled from the spec: width of a tile row, "Tile — 8×8 image". -/
def PIXELS_PER_TILELINE : Nat := 8

/-- Embeds `Ppu::mix_tile_colors`: bit `bit` of the first byte becomes bit 1 of
the colour, bit `bit` of the second byte becomes bit 0. -/
def mix_tile_colors (bit : Nat) (tile_data_bytes_line_one tile_data_bytes_line_two : Nat) :
    Nat :=
  ((((tile_data_bytes_line_one >>> bit) &&& 1) <<< 1)
    ||| ((tile_data_bytes_line_two >>> bit) &&& 1)) % 256

/-- A call `form.set_pixel_color(pos_x, pos_y, color, scale)` made by
`draw_line`, as the triple `(pos_x, pos_y, color)`; `scale` is passed through
unchanged. -/
abbrev PixelCall := Nat × Nat × Nat

/-- The tile fetch shared by the background and the window pass (lines 247-260
and 316-329): the tile id is read from the map, taken as an `int8_t` when LCDC
bit 4 is clear, and the two bytes of row `pixel_y` of that tile are read.  The
addresses are computed in `int` and passed as `uint16_t`. -/
def fetch_tile_row (mem : Memory) (tile_map_start_address tile_data_start_address : Nat)
    (tile_data_address_flag : Bool) (tile_x tile_y pixel_y : Nat) : Nat × Nat :=
  let tmp_tile_index := mem.get_memory_byte (tile_map_start_address + (tile_y * 32) + tile_x)
  let tile_index : Int := if !tile_data_address_flag then to_int8 tmp_tile_index else tmp_tile_index
  let address : Int := (tile_data_start_address : Int) + (tile_index * 16) + (pixel_y * 2 : Nat)
  (mem.get_memory_byte (address % 65536).toNat, mem.get_memory_byte ((address + 1) % 65536).toNat)

/-- The `for` loop of the background pass (lines 234-268) over the screen
columns `i`; `last_tile_x` and the two cached row bytes are carried along. -/
def background_loop (mem : Memory) (tile_map_start_address tile_data_start_address : Nat)
    (tile_data_address_flag : Bool) (scx y line_number_y : Nat) :
    List Nat → Int → Nat → Nat → List PixelCall
  | [], _, _, _ => []
  | i :: rest, last_tile_x, tile_data_bytes_line_one, tile_data_bytes_line_two =>
    let x := (i + scx) % 256
    let tile_x := x / 8
    let tile_y := y / 8
    let pixel_x := 8 - x % 8 - 1
    let pixel_y := y % 8
    let fetched :=
      if (tile_x : Int) ≠ last_tile_x then
        fetch_tile_row mem tile_map_start_address tile_data_start_address
          tile_data_address_flag tile_x tile_y pixel_y
      else
        (tile_data_bytes_line_one, tile_data_bytes_line_two)
    let last_tile_x : Int := if (tile_x : Int) ≠ last_tile_x then tile_x else last_tile_x
    let color := mix_tile_colors pixel_x fetched.1 fetched.2
    (i, line_number_y, color) ::
      background_loop mem tile_map_start_address tile_data_start_address
        tile_data_address_flag scx y line_number_y rest last_tile_x fetched.1 fetched.2

/-- The background pass of `draw_line` (lines 202-269), run when LCDC bit 0 is
set. -/
def background_pixels (lcdc_byte line_number_y : Nat) (mem : Memory) : List PixelCall :=
  let tile_data_address_flag := decide (lcdc_byte &&& 0x10 ≠ 0)
  let tile_data_start_address := if tile_data_address_flag then 0x8000 else 0x9000
  let background_tile_map_start_address := if lcdc_byte &&& 0x08 ≠ 0 then 0x9C00 else 0x9800
  let scy := mem.get_memory_byte SCY_ADDRESS
  let scx := mem.get_memory_byte SCX_ADDRESS
  let y := (line_number_y + scy) % 256
  background_loop mem background_tile_map_start_address tile_data_start_address
    tile_data_address_flag scx y line_number_y (List.range SCREEN_WIDTH) (-1) 0x00 0x00

/-- The `for` loop of the window pass (lines 300-338); columns left of
`absolute_WX` are skipped. -/
def window_loop (mem : Memory) (tile_map_start_address tile_data_start_address : Nat)
    (tile_data_address_flag : Bool) (absolute_WX y line_number_y : Nat) :
    List Nat → Int → Nat → Nat → List PixelCall
  | [], _, _, _ => []
  | i :: rest, last_tile_x, tile_data_bytes_line_one, tile_data_bytes_line_two =>
    if i < absolute_WX then
      window_loop mem tile_map_start_address tile_data_start_address tile_data_address_flag
        absolute_WX y line_number_y rest last_tile_x tile_data_bytes_line_one
        tile_data_bytes_line_two
    else
      let x := i - absolute_WX
      let tile_x := x / 8
      let tile_y := y / 8
      let pixel_x := 8 - x % 8 - 1
      let pixel_y := y % 8
      let fetched :=
        if (tile_x : Int) ≠ last_tile_x then
          fetch_tile_row mem tile_map_start_address tile_data_start_address
            tile_data_address_flag tile_x tile_y pixel_y
        else
          (tile_data_bytes_line_one, tile_data_bytes_line_two)
      let last_tile_x : Int := if (tile_x : Int) ≠ last_tile_x then tile_x else last_tile_x
      let color := mix_tile_colors pixel_x fetched.1 fetched.2
      (i, line_number_y, color) ::
        window_loop mem tile_map_start_address tile_data_start_address tile_data_address_flag
          absolute_WX y line_number_y rest last_tile_x fetched.1 fetched.2

/-- The window pass of `draw_line` (lines 276-340), run when LCDC bits 0 and 5
are set: the line is drawn when `line_number_y - WY > 0`. -/
def window_pixels (lcdc_byte line_number_y : Nat) (mem : Memory) : List PixelCall :=
  let tile_data_address_flag := decide (lcdc_byte &&& 0x10 ≠ 0)
  let tile_data_start_address := if tile_data_address_flag then 0x8000 else 0x9000
  let window_tile_map_start_address := if lcdc_byte &&& 0x40 ≠ 0 then 0x9C00 else 0x9800
  let wy := mem.get_memory_byte WY_ADDRESS
  let y : Int := (line_number_y : Int) - wy
  if (line_number_y : Int) - wy > 0 then
    let wx := mem.get_memory_byte WX_ADDRESS
    let wx := if wx < 7 then 7 else wx
    let absolute_WX := (wx - 7) % 256
    window_loop mem window_tile_map_start_address tile_data_start_address
      tile_data_address_flag absolute_WX y.toNat line_number_y (List.range SCREEN_WIDTH) (-1)
      0x00 0x00
  else
    []

/-- The sprite height of line 348: `8 * (((lcdc_byte & 0x04) >> 2) + 1)`. -/
def sprite_height (lcdc_byte : Nat) : Nat := (8 * (((lcdc_byte &&& 0x04) >>> 2) + 1)) % 256

/-- The line test of line 381, negated: the sprite goes on when neither
`line_number_y < sprite_y` nor `line >= sprite_height` holds, where `sprite_y =
y_position - 16` and `line` is `line_number_y - sprite_y` as a `uint16_t`. -/
def sprite_line_test (line_number_y y_position height : Nat) : Bool :=
  let sprite_y : Int := (y_position : Int) - 16
  let line : Nat := (((line_number_y : Int) - sprite_y) % 65536).toNat
  !(decide ((line_number_y : Int) < sprite_y) || decide (line ≥ height))

/-- The bit of the two row bytes that sprite column `x` is taken from (lines
414-420): `7 - x`, mirrored to `x` when `flip_x || flip_y`. -/
def sprite_pixel_bit (flip_x flip_y : Bool) (x : Nat) : Nat :=
  let pixel_x_in_line := PIXELS_PER_TILELINE - x % PIXELS_PER_TILELINE - 1
  if flip_x || flip_y then PIXELS_PER_TILELINE - pixel_x_in_line - 1 else pixel_x_in_line

/-- The body of the column loop of a sprite (lines 408-428): nothing is drawn
outside the screen or for colour 0. -/
def sprite_column (sprite_x : Int) (line_number_y : Nat) (flip_x flip_y : Bool)
    (sprite_tile_line_one sprite_tile_line_two : Nat) (x : Nat) : List PixelCall :=
  if sprite_x + x < 0 ∨ sprite_x + x ≥ SCREEN_WIDTH then
    []
  else
    let color :=
      mix_tile_colors (sprite_pixel_bit flip_x flip_y x) sprite_tile_line_one sprite_tile_line_two
    if color = 0 then [] else [((sprite_x + x).toNat, line_number_y, color)]

/-- The row index used to address the tile of a sprite (lines 379-400): `line`
is `line_number_y - sprite_y` as a `uint16_t`, then 8 is subtracted, then the
row is mirrored when `flip_y`. -/
def sprite_row (lcdc_byte line_number_y y_position : Nat) (flip_y : Bool) : Nat :=
  let sprite_y : Int := (y_position : Int) - 16
  let line : Nat := (((line_number_y : Int) - sprite_y) % 65536).toNat
  let line := (line + 65536 - 8) % 65536
  if flip_y then (((sprite_height lcdc_byte : Int) - line - 1) % 65536).toNat else line

/-- The body of the sprite loop (lines 352-429) for the OAM entry `sprite_id`. -/
def sprite_pixels (lcdc_byte line_number_y : Nat) (mem : Memory) (sprite_id : Nat) :
    List PixelCall :=
  let current_oam_address := (OAM_TABLE_INITIAL_ADDDRESS + sprite_id * 4) % 65536
  let y_position := mem.get_memory_byte current_oam_address
  let x_position := mem.get_memory_byte (current_oam_address + 1)
  let tile_index := mem.get_memory_byte (current_oam_address + 2)
  let tile_index := (tile_index + 1) % 256
  let temp_attritube := mem.get_memory_byte (current_oam_address + 3)
  let attributes_y_flip := decide (temp_attritube &&& 0x40 ≠ 0)
  let attributes_x_flip := decide (temp_attritube &&& 0x20 ≠ 0)
  if (y_position ||| x_position) = 0 then
    []
  else
    let sprite_x : Int := (x_position : Int) - 8
    if !sprite_line_test line_number_y y_position (sprite_height lcdc_byte) then
      []
    else if sprite_x < -7 ∨ sprite_x ≥ SCREEN_WIDTH then
      []
    else
      let flip_x := attributes_x_flip
      let flip_y := attributes_y_flip
      let line := sprite_row lcdc_byte line_number_y y_position flip_y
      let tile_location := (0x8000 + tile_index * 16 + line * 2) % 65536
      let sprite_tile_line_one := mem.get_memory_byte tile_location
      let sprite_tile_line_two := mem.get_memory_byte (tile_location + 1)
      (List.range PIXELS_PER_TILELINE).flatMap
        (sprite_column sprite_x line_number_y flip_x flip_y sprite_tile_line_one
          sprite_tile_line_two)

/-- The sprite pass of `draw_line` (lines 345-431): the OAM entries are visited
from 39 down to 0. -/
def sprite_pass (lcdc_byte line_number_y : Nat) (mem : Memory) : List PixelCall :=
  (List.range 40).reverse.flatMap (sprite_pixels lcdc_byte line_number_y mem)

/-- Embeds `Ppu::draw_line`: the `set_pixel_color` calls made for line
`line_number_y`, in the order they are made. -/
def draw_line (line_number_y : Nat) (mem : Memory) : List PixelCall :=
  if line_number_y ≥ SCREEN_HEIGHT then
    []
  else
    let lcdc_byte := mem.get_memory_byte LCDC_ADDRESS
    let render_background := decide (lcdc_byte &&& 0x01 ≠ 0)
    let background := if render_background then background_pixels lcdc_byte line_number_y mem else []
    let render_window := decide (lcdc_byte &&& 0x20 ≠ 0)
    let window :=
      if render_background && render_window then window_pixels lcdc_byte line_number_y mem
      else []
    let OBJ_enable := decide (lcdc_byte &&& 0x02 ≠ 0)
    let sprites := if OBJ_enable then sprite_pass lcdc_byte line_number_y mem else []
    background ++ window ++ sprites

/-- The picture on the host side as far as `Emulatorform::set_pixel_color`
determines it: the colour index last written at each screen position (each call
fills the `scale`×`scale` block of that position with the colour). -/
def set_pixel_color (frame : Nat → Nat → Nat) (call : PixelCall) : Nat → Nat → Nat :=
  fun pos_x pos_y => if pos_x = call.1 ∧ pos_y = call.2.1 then call.2.2 else frame pos_x pos_y

/-- The picture after a sequence of `set_pixel_color` calls. -/
def frame_after (calls : List PixelCall) (frame : Nat → Nat → Nat) : Nat → Nat → Nat :=
  calls.foldl set_pixel_color frame

/-! ## Packed BCD (used to state what ADC followed by DAA computes) -/

/-- A byte is packed BCD when each of its nibbles is at most 9. -/
def is_packed_bcd (x : Nat) : Prop := x / 16 ≤ 9 ∧ x % 16 ≤ 9

instance (x : Nat) : Decidable (is_packed_bcd x) :=
  inferInstanceAs (Decidable (x / 16 ≤ 9 ∧ x % 16 ≤ 9))

/-- The number 0..99 that a packed-BCD byte stands for: ten times the high
nibble plus the low nibble. -/
def bcd_value (x : Nat) : Nat := 10 * (x / 16) + x % 16

/-- The packed-BCD byte of a number 0..99: the tens in the high nibble, the
units in the low nibble. -/
def bcd_encode (n : Nat) : Nat := 16 * (n / 10) + n % 10

/-! ## Line rendering: one fetch per pixel, the addresses read, the pixels written -/

/-- The colour of the background at screen column `x` of line `line_number_y`
when the tile is fetched anew for every pixel: with bg_x = (x + SCX) mod 256 and
bg_y = (LY + SCY) mod 256, the tile id is the byte at
map_base + (bg_y / 8) * 32 + bg_x / 8 (read as signed when LCDC bit 4 is clear),
the two row bytes are at data_base + 16 * id + 2 * (bg_y mod 8) and the byte
after it, and the colour is `mix_tile_colors` at bit 7 - (bg_x mod 8); map_base
is 0x9C00 or 0x9800 by LCDC bit 3 and data_base 0x8000 or 0x9000 by LCDC
bit 4.  This definition follows the description of the layout, not the loop of
`draw_line`; `background_pixels` is compared with it. -/
def background_colour_per_pixel (lcdc_byte line_number_y : Nat) (mem : Memory) (x : Nat) :
    Nat :=
  let bg_x := (x + mem.get_memory_byte SCX_ADDRESS) % 256
  let bg_y := (line_number_y + mem.get_memory_byte SCY_ADDRESS) % 256
  let map_base := if lcdc_byte.testBit 3 then 0x9C00 else 0x9800
  let data_base : Int := if lcdc_byte.testBit 4 then 0x8000 else 0x9000
  let byte := mem.get_memory_byte (map_base + (bg_y / 8) * 32 + bg_x / 8)
  let id : Int := if lcdc_byte.testBit 4 then byte else if byte < 128 then byte else byte - 256
  let row := (data_base + 16 * id + 2 * ((bg_y % 8 : Nat) : Int)).toNat
  mix_tile_colors (7 - bg_x % 8) (mem.get_memory_byte row) (mem.get_memory_byte (row + 1))

/-- The three addresses passed to `get_memory_byte` by the tile fetch of lines
247-260 and 316-329, as the `uint16_t` values they are passed as: the tile map
entry, the first and the second byte of the tile row. -/
def fetch_tile_row_addresses (mem : Memory)
    (tile_map_start_address tile_data_start_address : Nat) (tile_data_address_flag : Bool)
    (tile_x tile_y pixel_y : Nat) : Nat × Nat × Nat :=
  let map_address := (tile_map_start_address + (tile_y * 32) + tile_x) % 65536
  let tmp_tile_index := mem.get_memory_byte map_address
  let tile_index : Int := if !tile_data_address_flag then to_int8 tmp_tile_index else tmp_tile_index
  let address : Int := (tile_data_start_address : Int) + (tile_index * 16) + (pixel_y * 2 : Nat)
  (map_address, (address % 65536).toNat, ((address + 1) % 65536).toNat)

/-- The `for` loop of the background pass (lines 234-268) as far as it reads
tiles: the addresses of each fetch, made when `tile_x != last_tile_x`. -/
def background_reads_loop (mem : Memory) (tile_map_start_address tile_data_start_address : Nat)
    (tile_data_address_flag : Bool) (scx y : Nat) : List Nat → Int → List (Nat × Nat × Nat)
  | [], _ => []
  | i :: rest, last_tile_x =>
    let x := (i + scx) % 256
    let tile_x := x / 8
    let tile_y := y / 8
    let pixel_y := y % 8
    if (tile_x : Int) ≠ last_tile_x then
      fetch_tile_row_addresses mem tile_map_start_address tile_data_start_address
          tile_data_address_flag tile_x tile_y pixel_y ::
        background_reads_loop mem tile_map_start_address tile_data_start_address
          tile_data_address_flag scx y rest tile_x
    else
      background_reads_loop mem tile_map_start_address tile_data_start_address
        tile_data_address_flag scx y rest last_tile_x

/-- The tile reads of the background pass of `draw_line` (lines 202-269). -/
def background_reads (lcdc_byte line_number_y : Nat) (mem : Memory) : List (Nat × Nat × Nat) :=
  let tile_data_address_flag := decide (lcdc_byte &&& 0x10 ≠ 0)
  let tile_data_start_address := if tile_data_address_flag then 0x8000 else 0x9000
  let background_tile_map_start_address := if lcdc_byte &&& 0x08 ≠ 0 then 0x9C00 else 0x9800
  let scy := mem.get_memory_byte SCY_ADDRESS
  let scx := mem.get_memory_byte SCX_ADDRESS
  let y := (line_number_y + scy) % 256
  background_reads_loop mem background_tile_map_start_address tile_data_start_address
    tile_data_address_flag scx y (List.range SCREEN_WIDTH) (-1)

/-- The `for` loop of the window pass (lines 300-338) as far as it reads tiles. -/
def window_reads_loop (mem : Memory) (tile_map_start_address tile_data_start_address : Nat)
    (tile_data_address_flag : Bool) (absolute_WX y : Nat) :
    List Nat → Int → List (Nat × Nat × Nat)
  | [], _ => []
  | i :: rest, last_tile_x =>
    if i < absolute_WX then
      window_reads_loop mem tile_map_start_address tile_data_start_address
        tile_data_address_flag absolute_WX y rest last_tile_x
    else
      let x := i - absolute_WX
      let tile_x := x / 8
      let tile_y := y / 8
      let pixel_y := y % 8
      if (tile_x : Int) ≠ last_tile_x then
        fetch_tile_row_addresses mem tile_map_start_address tile_data_start_address
            tile_data_address_flag tile_x tile_y pixel_y ::
          window_reads_loop mem tile_map_start_address tile_data_start_address
            tile_data_address_flag absolute_WX y rest tile_x
      else
        window_reads_loop mem tile_map_start_address tile_data_start_address
          tile_data_address_flag absolute_WX y rest last_tile_x

/-- The tile reads of the window pass of `draw_line` (lines 276-340). -/
def window_reads (lcdc_byte line_number_y : Nat) (mem : Memory) : List (Nat × Nat × Nat) :=
  let tile_data_address_flag := decide (lcdc_byte &&& 0x10 ≠ 0)
  let tile_data_start_address := if tile_data_address_flag then 0x8000 else 0x9000
  let window_tile_map_start_address := if lcdc_byte &&& 0x40 ≠ 0 then 0x9C00 else 0x9800
  let wy := mem.get_memory_byte WY_ADDRESS
  let y : Int := (line_number_y : Int) - wy
  if (line_number_y : Int) - wy > 0 then
    let wx := mem.get_memory_byte WX_ADDRESS
    let wx := if wx < 7 then 7 else wx
    let absolute_WX := (wx - 7) % 256
    window_reads_loop mem window_tile_map_start_address tile_data_start_address
      tile_data_address_flag absolute_WX y.toNat (List.range SCREEN_WIDTH) (-1)
  else
    []

/-- The tile reads `draw_line` makes in its background and window passes (lines
197-340), in the order they are made; each entry is one fetch. -/
def draw_line_tile_reads (line_number_y : Nat) (mem : Memory) : List (Nat × Nat × Nat) :=
  if line_number_y ≥ SCREEN_HEIGHT then
    []
  else
    let lcdc_byte := mem.get_memory_byte LCDC_ADDRESS
    let render_background := decide (lcdc_byte &&& 0x01 ≠ 0)
    let background := if render_background then background_reads lcdc_byte line_number_y mem else []
    let render_window := decide (lcdc_byte &&& 0x20 ≠ 0)
    let window :=
      if render_background && render_window then window_reads lcdc_byte line_number_y mem
      else []
    background ++ window

/-- The address of the first tile-row byte read for a sprite (lines 355-356 and
393-402): the tile id of the OAM entry is incremented as a `uint8_t`, the row
is that of `sprite_row`, and `tile_location` is
`0x8000 + tile_index * 16 + line * 2` as a `uint16_t`. -/
def sprite_tile_location (lcdc_byte line_number_y y_position tile_index : Nat)
    (flip_y : Bool) : Nat :=
  let tile_index := (tile_index + 1) % 256
  let line := sprite_row lcdc_byte line_number_y y_position flip_y
  (0x8000 + tile_index * 16 + line * 2) % 65536

/-- Embeds the index expression of `Emulatorform::set_pixel_color` (lines
330-336): the positions of the `pixels` array written by one call, for
`scale_x` and `scale_y` below `scale`. -/
def set_pixel_color_indices (pos_x pos_y scale : Nat) : List Nat :=
  (List.range scale).flatMap fun scale_x =>
    (List.range scale).map fun scale_y =>
      (pos_y * scale + scale_y) * (SCREEN_WIDTH * scale) + pos_x * scale + scale_x

/-- A tile fetch stays inside VRAM: the map entry is read in 0x9800..0x9FFF and
the two row bytes in 0x8000..0x97FF. -/
def tile_read_in_vram (r : Nat × Nat × Nat) : Prop :=
  (0x9800 ≤ r.1 ∧ r.1 ≤ 0x9FFF) ∧ (0x8000 ≤ r.2.1 ∧ r.2.1 ≤ 0x97FF)
    ∧ (0x8000 ≤ r.2.2 ∧ r.2.2 ≤ 0x97FF)

/-! ## Host events and the tick loop (`Emulatorform::get_joypad_input`, `Motherboard::loop`) -/

/-- The key symbols `get_joypad_input` distinguishes (lines 33-122 and 128-187);
`other` stands for every other key. -/
inductive Keysym where
  | SDLK_ESCAPE | SDLK_d | SDLK_a | SDLK_w | SDLK_s | SDLK_j | SDLK_k | SDLK_t
  | SDLK_RETURN | SDLK_q | SDLK_y | SDLK_p | SDLK_l | other
  deriving DecidableEq

/-- The host events polled by `get_joypad_input`: the window-close event, a key
press, a key release, and `other` for an event of a type no branch handles.
Joystick events (lines 189-312) are not part of this type. -/
inductive HostEvent where
  | SDL_QUIT
  | SDL_KEYDOWN (sym : Keysym)
  | SDL_KEYUP (sym : Keysym)
  | other
  deriving DecidableEq

/-- The `Joypad` class as `get_joypad_input` and `Motherboard::loop` use it (its
header is not part of `src/`): the fields are the ones these two functions read
and write, the latch of 0xFF00, the column and key nibbles, and the three
request flags for quick save, quick load and fast-forward. -/
structure Joypad where
  temp_ff00 : Nat
  key_column : Nat
  column_direction : Nat
  keys_directions : Nat
  column_controls : Nat
  keys_controls : Nat
  save_flag : Bool
  load_flag : Bool
  fast_forward_flag : Bool

/-- The routines and tables that `Motherboard::loop` and `get_joypad_input` call
and that are declared outside `src/`; they are taken as parameters:
the opcode tables, `Timer::add_time`, `Joypad::write_result` and
`Joypad::reset_joypad`. -/
structure HostRoutines where
  tables : OpcodeTables
  timer_add_time : Nat → Memory → Memory
  write_result : Joypad → Memory → Joypad × Memory
  reset_joypad : Joypad → Joypad

/-- The `switch` of a key press (lines 33-122) for the keys that do not end the
poll. -/
def key_down (joypad : Joypad) : Keysym → Joypad
  | .SDLK_d =>
    { joypad with key_column := 0x20, column_direction := 1,
                  keys_directions := joypad.keys_directions &&& 0xE }
  | .SDLK_a =>
    { joypad with key_column := 0x20, column_direction := 1,
                  keys_directions := joypad.keys_directions &&& 0xD }
  | .SDLK_w =>
    { joypad with key_column := 0x20, column_direction := 1,
                  keys_directions := joypad.keys_directions &&& 0xB }
  | .SDLK_s =>
    { joypad with key_column := 0x20, column_direction := 1,
                  keys_directions := joypad.keys_directions &&& 0x7 }
  | .SDLK_j =>
    { joypad with key_column := 0x10, column_controls := 1,
                  keys_controls := joypad.keys_controls &&& 0xE }
  | .SDLK_k =>
    { joypad with key_column := 0x10, column_controls := 1,
                  keys_controls := joypad.keys_controls &&& 0xD }
  | .SDLK_t =>
    { joypad with key_column := 0x10, column_controls := 1,
                  keys_controls := joypad.keys_controls &&& 0xB }
  | .SDLK_RETURN =>
    { joypad with key_column := 0x10, column_controls := 1,
                  keys_controls := joypad.keys_controls &&& 0x7 }
  | .SDLK_q => { joypad with save_flag := true }
  | .SDLK_y => { joypad with load_flag := true }
  | .SDLK_l => { joypad with fast_forward_flag := true }
  | _ => joypad

/-- The `switch` of a key release (lines 128-187). -/
def key_up (joypad : Joypad) : Keysym → Joypad
  | .SDLK_d =>
    { joypad with key_column := 0x20, column_direction := 1,
                  keys_directions := (joypad.keys_directions ||| 0x1) % 256 }
  | .SDLK_a =>
    { joypad with key_column := 0x20, column_direction := 1,
                  keys_directions := (joypad.keys_directions ||| 0x2) % 256 }
  | .SDLK_w =>
    { joypad with key_column := 0x20, column_direction := 1,
                  keys_directions := (joypad.keys_directions ||| 0x4) % 256 }
  | .SDLK_s =>
    { joypad with key_column := 0x20, column_direction := 1,
                  keys_directions := (joypad.keys_directions ||| 0x8) % 256 }
  | .SDLK_j =>
    { joypad with key_column := 0x10, column_controls := 1,
                  keys_controls := (joypad.keys_controls ||| 0x1) % 256 }
  | .SDLK_k =>
    { joypad with key_column := 0x10, column_controls := 1,
                  keys_controls := (joypad.keys_controls ||| 0x2) % 256 }
  | .SDLK_t =>
    { joypad with key_column := 0x10, column_controls := 1,
                  keys_controls := (joypad.keys_controls ||| 0x4) % 256 }
  | .SDLK_RETURN =>
    { joypad with key_column := 0x10, column_controls := 1,
                  keys_controls := (joypad.keys_controls ||| 0x8) % 256 }
  | _ => joypad

/-- Embeds `Emulatorform::get_joypad_input` on the list of events that
`SDL_PollEvent` delivers until its queue is empty.  For every event 0xFF00 is
masked with 0x30 first; the window-close event and a press of Esc or of P
return false at once; when the queue is empty `write_result` and `reset_joypad`
run and the result is true. -/
def get_joypad_input (host : HostRoutines) : List HostEvent → Joypad → Memory →
    Bool × Joypad × Memory
  | [], joypad, mem =>
    let (joypad, mem) := host.write_result joypad mem
    (true, host.reset_joypad joypad, mem)
  | joypad_event :: queue, joypad, mem =>
    let joypad := { joypad with temp_ff00 := mem.get_memory_byte 0xFF00 }
    let joypad := { joypad with temp_ff00 := joypad.temp_ff00 &&& 0x30 }
    let mem := mem.set_memory_byte 0xFF00 joypad.temp_ff00
    match joypad_event with
    | .SDL_QUIT => (false, joypad, mem)
    | .SDL_KEYDOWN .SDLK_ESCAPE => (false, joypad, mem)
    | .SDL_KEYDOWN .SDLK_p => (false, joypad, mem)
    | .SDL_KEYDOWN sym => get_joypad_input host queue (key_down joypad sym) mem
    | .SDL_KEYUP sym => get_joypad_input host queue (key_up joypad sym) mem
    | .other => get_joypad_input host queue joypad mem

/-- The state of `Motherboard` that `loop` reads and writes: CPU, memory, PPU,
the two speed fields and the content of the save file (`none` while no file has
been written).  The value of `original_speed` is set outside `src/`. -/
structure Motherboard where
  cpu : Cpu
  mem : Memory
  ppu : Ppu
  running_speed : Nat
  original_speed : Nat
  save_file : Option (Memory × Register)

/-- Embeds `Motherboard::save`: the memory image and the registers are written to
the save file. -/
def Motherboard.save (mb : Motherboard) : Motherboard :=
  { mb with save_file := some (mb.mem, mb.cpu.reg) }

/-- Embeds `Motherboard::load`: memory and registers are read back from the save
file and `running_speed` is reset.  The source does not test the result of
`fopen`; reading from a missing file is a failure here. -/
def Motherboard.load (mb : Motherboard) : Option Motherboard :=
  match mb.save_file with
  | none => none
  | some (mem, reg) =>
    some { mb with mem := mem, cpu := { mb.cpu with reg := reg },
                   running_speed := mb.original_speed }

/-- Embeds `Motherboard::fast_forward`. -/
def Motherboard.fast_forward (mb : Motherboard) : Motherboard :=
  { mb with running_speed := 32 }

/-- One iteration of the `while (true)` of `Motherboard::loop` (lines 95-135) on
the events polled in it.  The result is `none` when `load` fails; otherwise it
holds whether the loop goes on, and the joypad and motherboard state.
`refresh_surface` returns false, which is stored in `ready_to_refresh`. -/
def loop_tick (host : HostRoutines) (events : List HostEvent) (joypad : Joypad)
    (mb : Motherboard) : Option (Bool × Joypad × Motherboard) :=
  let (go_on, joypad, mem) := get_joypad_input host events joypad mb.mem
  let mb := { mb with mem := mem }
  if go_on then
    let (cpu_cycle, cpu, mem) := next host.tables mb.cpu mb.mem
    let cpu_cycle := cpu_cycle % 256
    let (ppu, mem) := ppu_main mb.ppu (loop_clocks cpu_cycle) (mb.running_speed % 256) mem
    let mem := host.timer_add_time (4 * cpu_cycle) mem
    let ppu := if ppu.ready_to_refresh then { ppu with ready_to_refresh := false } else ppu
    let mb := { mb with cpu := cpu, mem := mem, ppu := ppu }
    let (joypad, mb) :=
      if joypad.save_flag then ({ joypad with save_flag := false }, mb.save) else (joypad, mb)
    let loaded : Option (Joypad × Motherboard) :=
      if joypad.load_flag then
        (mb.load).map (fun mb => ({ joypad with load_flag := false }, mb))
      else
        some (joypad, mb)
    loaded.map (fun (joypad, mb) =>
      if joypad.fast_forward_flag then
        (true, { joypad with fast_forward_flag := false }, mb.fast_forward)
      else
        (true, joypad, { mb with running_speed := mb.original_speed }))
  else
    let (joypad, mb) :=
      if joypad.save_flag then ({ joypad with save_flag := false }, mb.save) else (joypad, mb)
    some (false, joypad, mb)

/-- The loop of `Motherboard::loop` run on the event queues of successive ticks,
until a tick ends the loop or the queues are used up. -/
def loop_ticks (host : HostRoutines) :
    List (List HostEvent) → Joypad → Motherboard → Option (Bool × Joypad × Motherboard)
  | [], joypad, mb => some (true, joypad, mb)
  | events :: later, joypad, mb =>
    match loop_tick host events joypad mb with
    | none => none
    | some (false, joypad, mb) => some (false, joypad, mb)
    | some (true, joypad, mb) => loop_ticks host later joypad mb

/-! ## Power-on memory (`Motherboard::power_on`, lines 42-86) -/

/-- The loop `for (uint16_t address = 0x8000; address < 0xFFFF; address++)` of
`Motherboard::power_on`, from the counter value `address` on; `fuel` bounds the
number of iterations. -/
def zero_ram_loop : Nat → Nat → Memory → Memory
  | 0, _, mem => mem
  | fuel + 1, address, mem =>
    if address < 0xFFFF then
      zero_ram_loop fuel ((address + 1) % 65536) (mem.set_memory_byte address 0x00)
    else
      mem

/-- Embeds the memory writes of `Motherboard::power_on`: RAM from 0x8000 to
0xFFFE is zeroed, then the I/O registers receive their boot values.  The load of
the cartridge between the two steps fills the cartridge and is left out. -/
def power_on_memory (mem : Memory) : Memory :=
  let mem := zero_ram_loop 0x10000 0x8000 mem
  let mem := mem.set_memory_byte 0xFF05 0x00
  let mem := mem.set_memory_byte 0xFF06 0x00
  let mem := mem.set_memory_byte 0xFF07 0x00
  let mem := mem.set_memory_byte 0xFF10 0x80
  let mem := mem.set_memory_byte 0xFF11 0xBF
  let mem := mem.set_memory_byte 0xFF12 0xF3
  let mem := mem.set_memory_byte 0xFF14 0xBF
  let mem := mem.set_memory_byte 0xFF16 0x3F
  let mem := mem.set_memory_byte 0xFF17 0x00
  let mem := mem.set_memory_byte 0xFF19 0xBF
  let mem := mem.set_memory_byte 0xFF1A 0x7F
  let mem := mem.set_memory_byte 0xFF1B 0xFF
  let mem := mem.set_memory_byte 0xFF1C 0x9F
  let mem := mem.set_memory_byte 0xFF1E 0xBF
  let mem := mem.set_memory_byte 0xFF20 0xFF
  let mem := mem.set_memory_byte 0xFF21 0x00
  let mem := mem.set_memory_byte 0xFF22 0x00
  let mem := mem.set_memory_byte 0xFF23 0xBF
  let mem := mem.set_memory_byte 0xFF24 0x77
  let mem := mem.set_memory_byte 0xFF25 0xF3
  let mem := mem.set_memory_byte 0xFF26 0xF1
  let mem := mem.set_memory_byte 0xFF40 0x91
  let mem := mem.set_memory_byte 0xFF42 0x00
  let mem := mem.set_memory_byte 0xFF43 0x00
  let mem := mem.set_memory_byte 0xFF45 0x00
  let mem := mem.set_memory_byte 0xFF47 0xFC
  let mem := mem.set_memory_byte 0xFF48 0xFF
  let mem := mem.set_memory_byte 0xFF49 0xFF
  let mem := mem.set_memory_byte 0xFF4A 0x00
  let mem := mem.set_memory_byte 0xFF4B 0x00
  let mem := mem.set_memory_byte 0xFFFF 0x00
  mem

/-- Modelled from the spec: the state of the `Ppu` object at power-on (its
declaration is outside `src/`): mode OAM_Search with the inner clock at 0, the
start from which "stepping 456 T-cycles advances LY from 0 to 1 and ends in
OAM_Search". -/
def Ppu.power_on : Ppu :=
  { current_mode := .mode_oam_search, ppu_inner_clock := 0, ready_to_refresh := false }

/-! ## Power-on state (`Cpu::power_on`, lines 51-59) -/

/-- Modelled from the spec: `Register::power_on`, the documented boot values
"A=0x01, F=0xB0, BC=0x0013, DE=0x00D8, HL=0x014D, SP=0xFFFE, PC=0x0100". -/
def Register.power_on : Register where
  register_byte
    | .r_a => 0x01
    | .r_f => 0xB0
    | .r_b => 0x00
    | .r_c => 0x13
    | .r_d => 0x00
    | .r_e => 0xD8
    | .r_h => 0x01
    | .r_l => 0x4D
    | _ => 0
  register_word
    | .r_sp => 0xFFFE
    | .r_pc => 0x0100
    | _ => 0

/-- Embeds `Cpu::power_on`: boot registers, not halted, interrupts enabled. -/
def Cpu.power_on : Cpu :=
  { reg := Register.power_on, f_halted := false, f_enable_interrupts := true }

/-- A memory image whose 64 KiB are all 0x00. -/
def Memory.zeroed : Memory := { memory_byte := fun _ => 0 }

/-! ## Concrete inputs used to evaluate the step -/

/-- Modelled from the spec: a stand-in for the opcode tables, which are declared
outside `src/`.  Only entry 0x00 of each table is meant: opcode 0x00 is NOP (no
effect, 1 machine cycle = 4 T-cycles) and CB-page entry 0x00 costs 2 machine
cycles = 8 T-cycles, the Pan-Docs timings; every other entry repeats entry
0x00. -/
def boot_tables : OpcodeTables where
  handle_opcode_main := fun _ cpu mem _ => (cpu, mem)
  opcode_cycle_main := fun _ => 1
  opcode_cycle_prefix_cb := fun _ => 2

/-- The memory of the interrupt-latency scenario: all zero except IE = 0x01
(0xFFFF) and IF = 0x01 (0xFF0F). -/
def interrupt_latency_memory : Memory :=
  (Memory.zeroed.set_memory_byte 0xFFFF 0x01).set_memory_byte 0xFF0F 0x01

/-- A halted CPU with IME clear, otherwise in its power-on state. -/
def halted_cpu : Cpu :=
  { reg := Register.power_on, f_halted := true, f_enable_interrupts := false }

/-- A memory image that is zero except for the byte 0xFF (the displacement -1)
at 0x0100, where the power-on PC points. -/
def minus_one_at_boot_pc : Memory := Memory.zeroed.set_memory_byte 0x0100 0xFF

/-- A CPU in its power-on state except that PC = 0x0081: the byte after a JR
opcode placed at 0x0080. -/
def jr_cpu : Cpu := { Cpu.power_on with reg := Register.power_on.set_register_word .r_pc 0x0081 }

/-- A memory image that is zero except for the displacement byte 0x80 (-128) at
0x0081. -/
def jr_memory : Memory := Memory.zeroed.set_memory_byte 0x0081 0x80

/-- A PPU in Pixel_Transfer with the inner clock at 0. -/
def ppu_pixel_transfer : Ppu :=
  { current_mode := .mode_pixel_transfer, ppu_inner_clock := 0, ready_to_refresh := false }

/-- A memory image that is zero except for STAT = 0x07: mode bits 3, the
coincidence bit 2 set, the HBlank interrupt bit 3 clear. -/
def stat_07_memory : Memory := Memory.zeroed.set_memory_byte 0xFF41 0x07

/-- A memory image that is zero except for STAT = 0x50 (bits 4 and 6 set) and
LY = LYC = 0. -/
def stat_50_memory : Memory := Memory.zeroed.set_memory_byte 0xFF41 0x50

/-- The memory of the OAM DMA scenario: the DMA register (0xFF46) holds 0xC0,
the page 0xC000..0xC0FF is filled with 0x7E, everything else is 0x00. -/
def dma_c0_memory : Memory :=
  { memory_byte := fun a =>
      if a = 0xFF46 then 0xC0 else if 0xC000 ≤ a ∧ a ≤ 0xC0FF then 0x7E else 0x00 }

/-- The memory of the background scenario: LCDC = 0x91, BGP = 0xE4, SCX = SCY =
0, a tile map of zeros, and the first row of tile 0 holding the bytes (0xFF,
0x00) at 0x8000 and 0x8001. -/
def background_scenario_memory : Memory :=
  ((Memory.zeroed.set_memory_byte 0xFF40 0x91).set_memory_byte 0xFF47 0xE4).set_memory_byte
    0x8000 0xFF

/-- A memory image with LCDC = 0xB1 (background and window on, tile data at
0x8000), WX = 7 and WY = 0; everything else is 0x00. -/
def window_scenario_memory : Memory :=
  (Memory.zeroed.set_memory_byte 0xFF40 0xB1).set_memory_byte 0xFF4B 0x07

/-- A memory image with two sprites at the top left corner of the screen (Y =
16, X = 8): OAM entry 0 with tile 0, whose row at 0x8000 holds (0xFF, 0x00), and
OAM entry 1 with tile 1, whose row at 0x8010 holds (0x00, 0xFF).  LCDC = 0x82. -/
def two_sprites_memory : Memory :=
  (((((((Memory.zeroed.set_memory_byte 0xFF40 0x82).set_memory_byte 0xFE00 16).set_memory_byte
    0xFE01 8).set_memory_byte 0xFE04 16).set_memory_byte 0xFE05 8).set_memory_byte
    0xFE06 1).set_memory_byte 0x8000 0xFF).set_memory_byte 0x8011 0xFF

/-- A memory image with one sprite at the top left corner of the screen (Y = 16,
X = 8, tile 0) whose attribute byte is 0x40 (bit 6 set, bit 5 clear); the tile
row read on line 0 (at 0x802E) holds (0x80, 0x00).  LCDC = 0x82. -/
def y_flip_sprite_memory : Memory :=
  ((((Memory.zeroed.set_memory_byte 0xFF40 0x82).set_memory_byte 0xFE00 16).set_memory_byte
    0xFE01 8).set_memory_byte 0xFE03 0x40).set_memory_byte 0x802E 0x80

/-- A memory image with one sprite at the top left corner of the screen (Y = 16,
X = 8, attributes 0x00) whose tile id is 255; the byte at 0x7FF0 is 0xFF, the
tile data of tile 255 at 0x8FF0..0x8FFF is 0x00.  LCDC = 0x82. -/
def tile_255_sprite_memory : Memory :=
  ((((Memory.zeroed.set_memory_byte 0xFF40 0x82).set_memory_byte 0xFE00 16).set_memory_byte
    0xFE01 8).set_memory_byte 0xFE02 255).set_memory_byte 0x7FF0 0xFF

/-- Stand-ins for the routines declared outside `src/`: the tables of
`boot_tables`, a timer that leaves memory as it is, and `write_result` and
`reset_joypad` that leave the joypad state (in particular its three request
flags) and the memory as they are. -/
def plain_host : HostRoutines where
  tables := boot_tables
  timer_add_time := fun _ mem => mem
  write_result := fun joypad mem => (joypad, mem)
  reset_joypad := fun joypad => joypad

/-- A joypad state with no key held and no request pending. -/
def idle_joypad : Joypad where
  temp_ff00 := 0
  key_column := 0
  column_direction := 0
  keys_directions := 0xF
  column_controls := 0
  keys_controls := 0xF
  save_flag := false
  load_flag := false
  fast_forward_flag := false

/-- A motherboard in its power-on state with a zeroed memory, running at
`original_speed` = 1, with no save file written yet. -/
def idle_motherboard : Motherboard where
  cpu := Cpu.power_on
  mem := Memory.zeroed
  ppu := Ppu.power_on
  running_speed := 1
  original_speed := 1
  save_file := none

theorem testBit_set_bit (f i j : Nat) :
    (f ||| (1 <<< i)).testBit j = (f.testBit j || decide (i = j)) := by
  rw [Nat.testBit_or, Nat.one_shiftLeft, Nat.testBit_two_pow]

theorem testBit_clear_bit (f i j : Nat) (hi : i < 8) :
    (f &&& (0xFF ^^^ (1 <<< i))).testBit j
      = (f.testBit j && decide (j < 8) && !decide (i = j)) := by
  have h255 : (0xFF : Nat) = 2 ^ 8 - 1 := by norm_num
  rw [Nat.testBit_and, Nat.testBit_xor, Nat.one_shiftLeft, Nat.testBit_two_pow, h255,
    Nat.testBit_two_pow_sub_one]
  by_cases h1 : j < 8 <;> by_cases h2 : i = j <;> simp [h1, h2]
  omega

theorem testBit_high_nibble (f j : Nat) :
    (f &&& 0xF0).testBit j = (f.testBit j && decide (4 ≤ j ∧ j < 8)) := by
  have h : (0xF0 : Nat) = (2 ^ 4 - 1) <<< 4 := by decide
  rw [Nat.testBit_and, h, Nat.testBit_shiftLeft, Nat.testBit_two_pow_sub_one]
  by_cases h1 : 4 ≤ j <;> by_cases h2 : j < 8 <;> simp [h1, h2] <;> omega

theorem FlagName.bit_range (f : FlagName) : 4 ≤ f.bit ∧ f.bit < 8 := by
  cases f <;> simp [FlagName.bit]

theorem FlagName.bit_inj (f g : FlagName) : f.bit = g.bit ↔ f = g := by
  cases f <;> cases g <;> simp [FlagName.bit]

theorem and_high_nibble_lt (f : Nat) : f &&& 0xF0 < 256 :=
  lt_of_le_of_lt Nat.and_le_right (by norm_num)

theorem get_register_byte_set_register_byte (reg : Register) (x y : RegisterName) (v : Nat) :
    (reg.set_register_byte x v).get_register_byte y
      = if y = x then v % 256 else reg.get_register_byte y := by
  unfold Register.set_register_byte Register.get_register_byte
  by_cases h : y = x <;> simp [h]

theorem get_register_word_set_register_byte (reg : Register) (x y : RegisterName) (v : Nat) :
    (reg.set_register_byte x v).get_register_word y = reg.get_register_word y := rfl

theorem get_register_word_set_flag (reg : Register) (f : FlagName) (v : Bool)
    (y : RegisterName) : (reg.set_flag f v).get_register_word y = reg.get_register_word y := rfl

theorem get_register_byte_set_flag (reg : Register) (f : FlagName) (v : Bool)
    (y : RegisterName) (hy : y ≠ .r_f) :
    (reg.set_flag f v).get_register_byte y = reg.get_register_byte y := by
  unfold Register.set_flag
  simp only [get_register_byte_set_register_byte, if_neg hy]

theorem get_flag_set_register_byte (reg : Register) (x : RegisterName) (v : Nat)
    (g : FlagName) (hx : x ≠ .r_f) :
    (reg.set_register_byte x v).get_flag g = reg.get_flag g := by
  unfold Register.get_flag
  rw [get_register_byte_set_register_byte, if_neg (Ne.symm hx)]

theorem get_flag_set_flag (reg : Register) (f g : FlagName) (v : Bool) :
    (reg.set_flag f v).get_flag g = if g = f then v else reg.get_flag g := by
  have hf := f.bit_range
  have hg := g.bit_range
  have hfg := FlagName.bit_inj f g
  unfold Register.get_flag Register.set_flag
  simp only [get_register_byte_set_register_byte, if_true]
  rw [Nat.mod_eq_of_lt (and_high_nibble_lt _), testBit_high_nibble]
  cases v
  · simp only [Bool.false_eq_true, if_false]
    rw [testBit_clear_bit _ _ _ hf.2]
    by_cases h : g = f
    · subst h; simp
    · have : ¬ f.bit = g.bit := fun e => h (hfg.mp e).symm
      simp [h, this, hg.1, hg.2]
  · simp only [if_true]
    rw [testBit_set_bit]
    by_cases h : g = f
    · subst h; simp [hg.1, hg.2]
    · have : ¬ f.bit = g.bit := fun e => h (hfg.mp e).symm
      simp [h, this, hg.1, hg.2]

/-! ## Arithmetic facts used by the ALU proofs -/

theorem and_ff_eq_mod (x : Nat) : x &&& 0xff = x % 256 :=
  Nat.and_pow_two_sub_one_eq_mod x 8

theorem and_f_eq_mod (x : Nat) : x &&& 0xf = x % 16 :=
  Nat.and_pow_two_sub_one_eq_mod x 4

theorem get_register_byte_lt (reg : Register) (x : RegisterName) :
    reg.get_register_byte x < 256 :=
  Nat.mod_lt _ (by norm_num)

theorem bool_to_int_le (b : Bool) : bool_to_int b ≤ 1 := by
  cases b <;> simp [bool_to_int]

/-! ## What each ALU routine computes -/

/-- Effect of `alu_add` on A and on the four flags. -/
theorem alu_add_effect (reg : Register) (n : Nat) (hn : n < 256) :
    (alu_add reg n).get_register_byte .r_a = (reg.get_register_byte .r_a + n) % 256
    ∧ (alu_add reg n).get_flag .f_z = decide (reg.get_register_byte .r_a + n = 0)
    ∧ (alu_add reg n).get_flag .f_n = false
    ∧ (alu_add reg n).get_flag .f_h
        = decide ((reg.get_register_byte .r_a &&& 0xF) + (n &&& 0xF) > 0xF)
    ∧ (alu_add reg n).get_flag .f_c = decide (reg.get_register_byte .r_a + n > 0xFF) := by
  have ha : reg.get_register_byte .r_a < 256 := get_register_byte_lt reg .r_a
  have e1 : (reg.get_register_byte .r_a + n) % 65536 = reg.get_register_byte .r_a + n :=
    Nat.mod_eq_of_lt (by omega)
  unfold alu_add
  simp only [get_flag_set_flag, get_register_byte_set_register_byte,
    get_flag_set_register_byte, get_register_byte_set_flag, ne_eq, reduceCtorEq,
    not_false_eq_true, if_true, if_false, and_ff_eq_mod, Nat.mod_mod, e1]
  simp

/-- Effect of `alu_adc` on A and on the four flags. -/
theorem alu_adc_effect (reg : Register) (n : Nat) (hn : n < 256) :
    let a := reg.get_register_byte .r_a
    let cin := bool_to_int (reg.get_flag .f_c)
    (alu_adc reg n).get_register_byte .r_a = (a + n + cin) % 256
    ∧ (alu_adc reg n).get_flag .f_z = decide (a + n + cin = 0)
    ∧ (alu_adc reg n).get_flag .f_n = false
    ∧ (alu_adc reg n).get_flag .f_h = decide ((a &&& 0xF) + (n &&& 0xF) + cin > 0xF)
    ∧ (alu_adc reg n).get_flag .f_c = decide (a + n + cin > 0xFF) := by
  intro a cin
  have ha : a < 256 := get_register_byte_lt reg .r_a
  have hc : cin ≤ 1 := bool_to_int_le _
  have hc16 : cin &&& 0x000f = cin := by
    rw [and_f_eq_mod]; omega
  have e2 : (a + cin + n) % 65536 = a + cin + n := Nat.mod_eq_of_lt (by omega)
  unfold alu_adc
  simp only [get_flag_set_flag, get_register_byte_set_register_byte,
    get_flag_set_register_byte, get_register_byte_set_flag, ne_eq, reduceCtorEq,
    not_false_eq_true, if_true, if_false, and_ff_eq_mod, Nat.mod_mod]
  show (a + cin + n) % 65536 % 256 = _
    ∧ decide ((a + cin + n) % 65536 = 0) = _
    ∧ _ ∧ decide ((a &&& 0x000f) + (cin &&& 0x000f) + (n &&& 0x000f) > 0x000f) = _
    ∧ decide ((a + cin + n) % 65536 > 255) = _
  rw [e2, hc16]
  refine ⟨by congr 1; omega, ?_, trivial, ?_, ?_⟩ <;>
    (congr 1; apply propext; constructor <;> intro h <;> omega)

/-- Effect of `alu_sub` on A and on the four flags. -/
theorem alu_sub_effect (reg : Register) (n : Nat) (hn : n < 256) :
    let a := reg.get_register_byte .r_a
    (alu_sub reg n).get_register_byte .r_a = (a + 256 - n) % 256
    ∧ (alu_sub reg n).get_flag .f_z = decide (a = n)
    ∧ (alu_sub reg n).get_flag .f_n = true
    ∧ (alu_sub reg n).get_flag .f_h = decide ((a &&& 0xF) < (n &&& 0xF))
    ∧ (alu_sub reg n).get_flag .f_c = decide (a < n) := by
  intro a
  have ha : a < 256 := get_register_byte_lt reg .r_a
  have hz : decide ((a + 65536 - n) % 65536 = 0) = decide (a = n) := by
    congr 1; apply propext; constructor <;> intro h <;> omega
  unfold alu_sub
  simp only [get_flag_set_flag, get_register_byte_set_register_byte,
    get_flag_set_register_byte, get_register_byte_set_flag, ne_eq, reduceCtorEq,
    not_false_eq_true, if_true, if_false, and_ff_eq_mod, Nat.mod_mod]
  refine ⟨?_, hz, trivial, trivial, trivial⟩
  show (a + 65536 - n) % 65536 % 256 = _
  omega

/-- Effect of `alu_sbc` on A and on the four flags: Z is the test of the 16-bit
difference, which is zero only when A = n + carry. -/
theorem alu_sbc_effect (reg : Register) (n : Nat) (hn : n < 256) :
    let a := reg.get_register_byte .r_a
    let cin := bool_to_int (reg.get_flag .f_c)
    (alu_sbc reg n).get_register_byte .r_a = (a + 512 - n - cin) % 256
    ∧ (alu_sbc reg n).get_flag .f_z = decide (a = n + cin)
    ∧ (alu_sbc reg n).get_flag .f_n = true
    ∧ (alu_sbc reg n).get_flag .f_h = decide ((a &&& 0xF) < (n &&& 0xF) + cin)
    ∧ (alu_sbc reg n).get_flag .f_c = decide (a < n + cin) := by
  intro a cin
  have ha : a < 256 := get_register_byte_lt reg .r_a
  have hc : cin ≤ 1 := bool_to_int_le _
  unfold alu_sbc
  simp only [get_flag_set_flag, get_register_byte_set_register_byte,
    get_flag_set_register_byte, get_register_byte_set_flag, ne_eq, reduceCtorEq,
    not_false_eq_true, if_true, if_false, and_ff_eq_mod, Nat.mod_mod]
  show (a + 65536 - cin - n) % 65536 % 256 = _
    ∧ decide ((a + 65536 - cin - n) % 65536 = 0) = _
    ∧ _ ∧ decide ((a &&& 0x000f) < cin + (n &&& 0x000f)) = _
    ∧ decide (a < cin + n) = _
  refine ⟨by omega, ?_, trivial, ?_, ?_⟩ <;>
    (congr 1; apply propext; constructor <;> intro h <;> omega)

/-! ## C5: ADD and ADC -/

/-- C5: for every A value `a`, operand byte `n` and incoming carry `cin`,
`alu_add n` (with the carry taken as 0) and `alu_adc n` leave
A = (a + n + cin) mod 256, N = 0, H = ((a & 0xF) + (n & 0xF) + cin > 0xF) and
C = (a + n + cin > 0xFF). -/
theorem alu_add_adc_result_n_h_c (reg : Register) (n : Nat) (hn : n < 256) :
    let a := reg.get_register_byte .r_a
    let cin := bool_to_int (reg.get_flag .f_c)
    ((alu_add reg n).get_register_byte .r_a = (a + n + 0) % 256
      ∧ (alu_add reg n).get_flag .f_n = false
      ∧ (alu_add reg n).get_flag .f_h = decide ((a &&& 0xF) + (n &&& 0xF) + 0 > 0xF)
      ∧ (alu_add reg n).get_flag .f_c = decide (a + n + 0 > 0xFF))
    ∧ ((alu_adc reg n).get_register_byte .r_a = (a + n + cin) % 256
      ∧ (alu_adc reg n).get_flag .f_n = false
      ∧ (alu_adc reg n).get_flag .f_h = decide ((a &&& 0xF) + (n &&& 0xF) + cin > 0xF)
      ∧ (alu_adc reg n).get_flag .f_c = decide (a + n + cin > 0xFF)) := by
  intro a cin
  have h1 := alu_add_effect reg n hn
  have h2 := alu_adc_effect reg n hn
  exact ⟨⟨h1.1, h1.2.2.1, h1.2.2.2.1, h1.2.2.2.2⟩, ⟨h2.1, h2.2.2.1, h2.2.2.2.1, h2.2.2.2.2⟩⟩

/-- Witness of C5: ADC A,0x3C on the power-on registers (A = 0x01, carry set)
gives A = 0x3E with the carry clear, and ADD A,0x3C gives A = 0x3D. -/
theorem alu_add_adc_result_n_h_c_witness :
    (alu_add Register.power_on 0x3C).get_register_byte .r_a = 0x3D
      ∧ (alu_adc Register.power_on 0x3C).get_register_byte .r_a = 0x3E
      ∧ (alu_adc Register.power_on 0x3C).get_flag .f_c = false := by
  have h := alu_add_adc_result_n_h_c Register.power_on 0x3C (by norm_num)
  refine ⟨h.1.1, h.2.1, ?_⟩
  rw [h.2.2.2.2]
  decide

/-! ## C6: the Z flag of ADD and ADC -/

/-- C6, the code at the boundary case of the claim: ADD A,0xFF with A = 0x01
leaves A = 0x00 with C and H set, but Z clear. -/
theorem alu_add_01_ff_z_clear :
    Register.power_on.get_register_byte .r_a = 0x01
      ∧ (alu_add Register.power_on 0xFF).get_register_byte .r_a = 0x00
      ∧ (alu_add Register.power_on 0xFF).get_flag .f_c = true
      ∧ (alu_add Register.power_on 0xFF).get_flag .f_h = true
      ∧ (alu_add Register.power_on 0xFF).get_flag .f_z = false := by
  have h := alu_add_effect Register.power_on 0xFF (by norm_num)
  have ha : Register.power_on.get_register_byte .r_a = 0x01 := rfl
  rw [ha] at h
  refine ⟨ha, h.1, ?_, ?_, ?_⟩
  · rw [h.2.2.2.2]; decide
  · rw [h.2.2.2.1]; decide
  · rw [h.2.1]; decide

/-! ## C7: SUB and CP -/

/-- C7: for every A value `a` and operand byte `n`, `alu_sub n` and `alu_cp n`
set Z = ((a - n) mod 256 == 0), N = 1, H = ((a & 0xF) < (n & 0xF)) and
C = (a < n); `alu_sub` leaves A = (a - n) mod 256 and `alu_cp` leaves A = a. -/
theorem alu_sub_cp_flags_and_result (reg : Register) (n : Nat) (hn : n < 256) :
    let a := reg.get_register_byte .r_a
    ((alu_sub reg n).get_flag .f_z = decide ((a + 256 - n) % 256 = 0)
      ∧ (alu_sub reg n).get_flag .f_n = true
      ∧ (alu_sub reg n).get_flag .f_h = decide ((a &&& 0xF) < (n &&& 0xF))
      ∧ (alu_sub reg n).get_flag .f_c = decide (a < n)
      ∧ (alu_sub reg n).get_register_byte .r_a = (a + 256 - n) % 256)
    ∧ ((alu_cp reg n).get_flag .f_z = decide ((a + 256 - n) % 256 = 0)
      ∧ (alu_cp reg n).get_flag .f_n = true
      ∧ (alu_cp reg n).get_flag .f_h = decide ((a &&& 0xF) < (n &&& 0xF))
      ∧ (alu_cp reg n).get_flag .f_c = decide (a < n)
      ∧ (alu_cp reg n).get_register_byte .r_a = a) := by
  intro a
  have ha : a < 256 := get_register_byte_lt reg .r_a
  have h := alu_sub_effect reg n hn
  have hz : decide (a = n) = decide ((a + 256 - n) % 256 = 0) := by
    congr 1; apply propext; constructor <;> intro h <;> omega
  have hsubz : (alu_sub reg n).get_flag .f_z = decide ((a + 256 - n) % 256 = 0) :=
    h.2.1.trans hz
  refine ⟨⟨hsubz, h.2.2.1, h.2.2.2.1, h.2.2.2.2, h.1⟩, ?_⟩
  unfold alu_cp
  simp only [get_flag_set_register_byte, get_register_byte_set_register_byte, ne_eq,
    reduceCtorEq, not_false_eq_true, if_true]
  exact ⟨hsubz, h.2.2.1, h.2.2.2.1, h.2.2.2.2, Nat.mod_eq_of_lt ha⟩

/-- Witness of C7: CP 0x01 on the power-on registers (A = 0x01) sets Z and
leaves A = 0x01, while SUB 0x01 leaves A = 0x00. -/
theorem alu_sub_cp_flags_and_result_witness :
    (alu_cp Register.power_on 0x01).get_flag .f_z = true
      ∧ (alu_cp Register.power_on 0x01).get_register_byte .r_a = 0x01
      ∧ (alu_sub Register.power_on 0x01).get_register_byte .r_a = 0x00 := by
  have h := alu_sub_cp_flags_and_result Register.power_on 0x01 (by norm_num)
  exact ⟨h.2.1, h.2.2.2.2.2, h.1.2.2.2.2⟩

/-! ## C8: SBC -/

/-- C8, the code at A = 0x00, carry set, SBC A,0xFF: the 8-bit result left in A
is 0x00, N, H and C are set, but Z is clear. -/
theorem alu_sbc_00_ff_carry_z_clear :
    (Register.power_on.set_register_byte .r_a 0x00).get_register_byte .r_a = 0x00
      ∧ (Register.power_on.set_register_byte .r_a 0x00).get_flag .f_c = true
      ∧ (alu_sbc (Register.power_on.set_register_byte .r_a 0x00) 0xFF).get_register_byte .r_a
          = 0x00
      ∧ (alu_sbc (Register.power_on.set_register_byte .r_a 0x00) 0xFF).get_flag .f_n = true
      ∧ (alu_sbc (Register.power_on.set_register_byte .r_a 0x00) 0xFF).get_flag .f_h = true
      ∧ (alu_sbc (Register.power_on.set_register_byte .r_a 0x00) 0xFF).get_flag .f_c = true
      ∧ (alu_sbc (Register.power_on.set_register_byte .r_a 0x00) 0xFF).get_flag .f_z = false := by
  have h := alu_sbc_effect (Register.power_on.set_register_byte .r_a 0x00) 0xFF (by norm_num)
  have ha : (Register.power_on.set_register_byte .r_a 0x00).get_register_byte .r_a = 0x00 := rfl
  have hc : (Register.power_on.set_register_byte .r_a 0x00).get_flag .f_c = true := by decide
  simp only [ha, hc] at h
  refine ⟨ha, hc, h.1, h.2.2.1, ?_, ?_, ?_⟩
  · rw [h.2.2.2.1]; decide
  · rw [h.2.2.2.2]; decide
  · rw [h.2.1]; decide

/-! ## C9: AND, OR and XOR -/

/-- C9: for every A value `a` and operand byte `n`, `alu_and`, `alu_or` and
`alu_xor` store a AND n, a OR n and a XOR n in A, set Z exactly when that result
is zero, clear N and C, and set H to 1 for AND and to 0 for OR and XOR. -/
theorem alu_and_or_xor_result_and_flags (reg : Register) (n : Nat) (hn : n < 256) :
    let a := reg.get_register_byte .r_a
    ((alu_and reg n).get_register_byte .r_a = a &&& n
      ∧ (alu_and reg n).get_flag .f_z = decide (a &&& n = 0)
      ∧ (alu_and reg n).get_flag .f_n = false
      ∧ (alu_and reg n).get_flag .f_h = true
      ∧ (alu_and reg n).get_flag .f_c = false)
    ∧ ((alu_or reg n).get_register_byte .r_a = a ||| n
      ∧ (alu_or reg n).get_flag .f_z = decide (a ||| n = 0)
      ∧ (alu_or reg n).get_flag .f_n = false
      ∧ (alu_or reg n).get_flag .f_h = false
      ∧ (alu_or reg n).get_flag .f_c = false)
    ∧ ((alu_xor reg n).get_register_byte .r_a = a ^^^ n
      ∧ (alu_xor reg n).get_flag .f_z = decide (a ^^^ n = 0)
      ∧ (alu_xor reg n).get_flag .f_n = false
      ∧ (alu_xor reg n).get_flag .f_h = false
      ∧ (alu_xor reg n).get_flag .f_c = false) := by
  intro a
  have ha : a < 2 ^ 8 := get_register_byte_lt reg .r_a
  have hn8 : n < 2 ^ 8 := hn
  have e_and : (a &&& n) % 256 = a &&& n :=
    Nat.mod_eq_of_lt (lt_of_le_of_lt Nat.and_le_left ha)
  have e_or : (a ||| n) % 256 = a ||| n := Nat.mod_eq_of_lt (Nat.or_lt_two_pow ha hn8)
  have e_xor : (a ^^^ n) % 256 = a ^^^ n := Nat.mod_eq_of_lt (Nat.xor_lt_two_pow ha hn8)
  refine ⟨?_, ?_, ?_⟩
  · unfold alu_and
    simp only [get_flag_set_flag, get_register_byte_set_register_byte,
      get_flag_set_register_byte, get_register_byte_set_flag, ne_eq, reduceCtorEq,
      not_false_eq_true, if_true, if_false, Nat.mod_mod]
    show (a &&& n) % 256 = _ ∧ decide ((a &&& n) % 256 = 0) = _ ∧ _
    rw [e_and]
    exact ⟨rfl, rfl, trivial, trivial, trivial⟩
  · unfold alu_or
    simp only [get_flag_set_flag, get_register_byte_set_register_byte,
      get_flag_set_register_byte, get_register_byte_set_flag, ne_eq, reduceCtorEq,
      not_false_eq_true, if_true, if_false, Nat.mod_mod]
    show (a ||| n) % 256 = _ ∧ decide ((a ||| n) % 256 = 0) = _ ∧ _
    rw [e_or]
    exact ⟨rfl, rfl, trivial, trivial, trivial⟩
  · unfold alu_xor
    simp only [get_flag_set_flag, get_register_byte_set_register_byte,
      get_flag_set_register_byte, get_register_byte_set_flag, ne_eq, reduceCtorEq,
      not_false_eq_true, if_true, if_false, Nat.mod_mod]
    show (a ^^^ n) % 256 = _ ∧ decide ((a ^^^ n) % 256 = 0) = _ ∧ _
    rw [e_xor]
    exact ⟨rfl, rfl, trivial, trivial, trivial⟩

/-- Witness of C9: on the power-on registers (A = 0x01), AND 0xFE gives 0x00
with Z set, OR 0xFE gives 0xFF and XOR 0x01 gives 0x00 with Z set. -/
theorem alu_and_or_xor_result_and_flags_witness :
    ((alu_and Register.power_on 0xFE).get_register_byte .r_a = 0x00
      ∧ (alu_and Register.power_on 0xFE).get_flag .f_z = true)
    ∧ (alu_or Register.power_on 0xFE).get_register_byte .r_a = 0xFF
    ∧ (alu_xor Register.power_on 0x01).get_flag .f_z = true := by
  have h := alu_and_or_xor_result_and_flags Register.power_on 0xFE (by norm_num)
  have h1 := alu_and_or_xor_result_and_flags Register.power_on 0x01 (by norm_num)
  exact ⟨⟨h.1.1, h.1.2.1⟩, h.2.1.1, h1.2.2.2.1⟩

/-! ## C10: INC and DEC -/

/-- C10: for every byte `r`, `alu_inc r` returns (r + 1) mod 256 with
Z = (result == 0), N = 0, H = ((r & 0xF) + 1 > 0xF), and `alu_dec r` returns
(r - 1) mod 256 with Z = (result == 0), N = 1, H = ((r & 0xF) == 0); both leave
the C flag as it was. -/
theorem alu_inc_dec_result_and_flags (reg : Register) (r : Nat) :
    ((alu_inc reg r).1 = (r + 1) % 256
      ∧ (alu_inc reg r).2.get_flag .f_z = decide ((r + 1) % 256 = 0)
      ∧ (alu_inc reg r).2.get_flag .f_n = false
      ∧ (alu_inc reg r).2.get_flag .f_h = decide ((r &&& 0xF) + 1 > 0xF)
      ∧ (alu_inc reg r).2.get_flag .f_c = reg.get_flag .f_c)
    ∧ ((alu_dec reg r).1 = (r + 256 - 1) % 256
      ∧ (alu_dec reg r).2.get_flag .f_z = decide ((r + 256 - 1) % 256 = 0)
      ∧ (alu_dec reg r).2.get_flag .f_n = true
      ∧ (alu_dec reg r).2.get_flag .f_h = decide ((r &&& 0xF) = 0)
      ∧ (alu_dec reg r).2.get_flag .f_c = reg.get_flag .f_c) := by
  refine ⟨?_, ?_⟩
  · unfold alu_inc
    simp only [get_flag_set_flag, reduceCtorEq, if_true, if_false]
    exact ⟨trivial, trivial, trivial, trivial, trivial⟩
  · unfold alu_dec
    simp only [get_flag_set_flag, reduceCtorEq, if_true, if_false]
    exact ⟨trivial, trivial, trivial, trivial, trivial⟩

/-- Witness of C10: INC of 0xFF returns 0x00 with Z and H set and DEC of 0x00
returns 0xFF with H set; the carry of the power-on registers stays set. -/
theorem alu_inc_dec_result_and_flags_witness :
    ((alu_inc Register.power_on 0xFF).1 = 0x00
      ∧ (alu_inc Register.power_on 0xFF).2.get_flag .f_z = true
      ∧ (alu_inc Register.power_on 0xFF).2.get_flag .f_c = true)
    ∧ ((alu_dec Register.power_on 0x00).1 = 0xFF
      ∧ (alu_dec Register.power_on 0x00).2.get_flag .f_c = true) := by
  have h := alu_inc_dec_result_and_flags Register.power_on 0xFF
  have h0 := alu_inc_dec_result_and_flags Register.power_on 0x00
  exact ⟨⟨h.1.1, h.1.2.1, h.1.2.2.2.2⟩, ⟨h0.2.1, h0.2.2.2.2.2⟩⟩

/-! ## Facts about memory and `builtin_ctz` -/

theorem get_memory_byte_lt (mem : Memory) (a : Nat) : mem.get_memory_byte a < 256 :=
  Nat.mod_lt _ (by norm_num)

theorem get_memory_byte_set_memory_byte (mem : Memory) (a b v : Nat) :
    (mem.set_memory_byte a v).get_memory_byte b
      = if b % 65536 = a % 65536 then v % 256 else mem.get_memory_byte b := by
  unfold Memory.set_memory_byte Memory.get_memory_byte
  by_cases h : b % 65536 = a % 65536 <;> simp [h]

theorem get_memory_byte_set_memory_word (mem : Memory) (a b w : Nat)
    (h0 : b % 65536 ≠ a % 65536) (h1 : b % 65536 ≠ (a + 1) % 65536) :
    (mem.set_memory_word a w).get_memory_byte b = mem.get_memory_byte b := by
  unfold Memory.set_memory_word
  rw [get_memory_byte_set_memory_byte, if_neg h1, get_memory_byte_set_memory_byte, if_neg h0]

theorem get_memory_word_set_memory_word (mem : Memory) (a w : Nat) :
    (mem.set_memory_word a w).get_memory_word a = w % 65536 := by
  unfold Memory.set_memory_word Memory.get_memory_word
  have hne : a % 65536 ≠ (a + 1) % 65536 := by omega
  rw [get_memory_byte_set_memory_byte, if_neg hne, get_memory_byte_set_memory_byte, if_pos rfl,
    get_memory_byte_set_memory_byte, if_pos rfl]
  omega

theorem get_register_word_set_register_word (reg : Register) (x y : RegisterName) (v : Nat) :
    (reg.set_register_word x v).get_register_word y
      = if y = x then v % 65536 else reg.get_register_word y := by
  unfold Register.set_register_word Register.get_register_word
  by_cases h : y = x <;> simp [h]

theorem get_register_word_lt (reg : Register) (x : RegisterName) :
    reg.get_register_word x < 65536 :=
  Nat.mod_lt _ (by norm_num)

/-- The loop behind `builtin_ctz` finds the lowest set bit of a non-zero value
that fits in `fuel` bits. -/
theorem ctz_loop_lowest_set_bit (fuel : Nat) :
    ∀ x : Nat, x ≠ 0 → x < 2 ^ fuel →
      x.testBit (ctz_loop fuel x) = true ∧ ∀ j < ctz_loop fuel x, x.testBit j = false := by
  induction fuel with
  | zero => intro x hx hlt; simp at hlt; exact absurd hlt hx
  | succ k ih =>
    intro x hx hlt
    unfold ctz_loop
    by_cases h : x % 2 = 1
    · simp [h, Nat.testBit_zero]
    · have hx2 : x / 2 ≠ 0 := by omega
      have hlt2 : x / 2 < 2 ^ k := by
        rw [Nat.pow_succ] at hlt; omega
      obtain ⟨h1, h2⟩ := ih (x / 2) hx2 hlt2
      simp only [h, if_false]
      refine ⟨?_, ?_⟩
      · rw [Nat.add_comm, Nat.testBit_succ]; exact h1
      · intro j hj
        cases j with
        | zero => rw [Nat.testBit_zero]; simpa using h
        | succ j => rw [Nat.testBit_succ]; exact h2 j (by omega)

/-- On a non-zero byte `builtin_ctz` is the index of the lowest set bit. -/
theorem builtin_ctz_byte (x : Nat) (hx : x ≠ 0) (hlt : x < 256) :
    builtin_ctz x < 8 ∧ x.testBit (builtin_ctz x) = true
      ∧ ∀ j < builtin_ctz x, x.testBit j = false := by
  have h := ctz_loop_lowest_set_bit 32 x hx (by omega)
  refine ⟨?_, h.1, h.2⟩
  by_contra hge
  have : x < 2 ^ builtin_ctz x :=
    lt_of_lt_of_le (show x < 2 ^ 8 from hlt) (Nat.pow_le_pow_right (by norm_num) (by omega))
  have hf := Nat.testBit_lt_two_pow this
  unfold builtin_ctz at hf
  rw [h.1] at hf
  exact absurd hf (by simp)

/-! ## The interrupt path of `handle_interrupts` and `next` -/

theorem interrupt_vector_eq (i : Nat) (hi : i < 8) :
    (0x0040 ||| ((((i % 256) &&& 0xffff) % 65536) <<< 3)) % 65536 = 0x0040 + 8 * i := by
  interval_cases i <;> rfl

/-- With IME set and a pending enabled interrupt, `handle_interrupts` returns 4
and the state written out here. -/
theorem handle_interrupts_taken (cpu : Cpu) (mem : Memory)
    (hime : cpu.f_enable_interrupts = true)
    (hpend : mem.get_memory_byte 0xFFFF &&& mem.get_memory_byte 0xFF0F ≠ 0) :
    handle_interrupts cpu mem =
      (4,
        { reg := (cpu.reg.set_register_word .r_sp
              ((cpu.reg.get_register_word .r_sp + 65536 - 2) % 65536)).set_register_word .r_pc
              (0x0040 + 8 * builtin_ctz (mem.get_memory_byte 0xFFFF &&& mem.get_memory_byte 0xFF0F)),
          f_halted := false,
          f_enable_interrupts := false },
        (mem.set_memory_byte 0xff0f
            ((mem.get_memory_byte 0xFF0F &&& bit_not (0x01 <<<
              builtin_ctz (mem.get_memory_byte 0xFFFF &&& mem.get_memory_byte 0xFF0F))) % 256)
          ).set_memory_word ((cpu.reg.get_register_word .r_sp + 65536 - 2) % 65536)
            (cpu.reg.get_register_word .r_pc)) := by
  have hlt : mem.get_memory_byte 0xFFFF &&& mem.get_memory_byte 0xFF0F < 256 :=
    lt_of_le_of_lt Nat.and_le_left (get_memory_byte_lt mem _)
  have hmod : (mem.get_memory_byte 0xFFFF &&& mem.get_memory_byte 0xFF0F) % 256
      = mem.get_memory_byte 0xFFFF &&& mem.get_memory_byte 0xFF0F := Nat.mod_eq_of_lt hlt
  obtain ⟨hi, -, -⟩ := builtin_ctz_byte _ hpend hlt
  have hi256 : builtin_ctz (mem.get_memory_byte 0xFFFF &&& mem.get_memory_byte 0xFF0F) % 256
      = builtin_ctz (mem.get_memory_byte 0xFFFF &&& mem.get_memory_byte 0xFF0F) :=
    Nat.mod_eq_of_lt (by omega)
  have hpc := interrupt_vector_eq _ hi
  unfold handle_interrupts stack_add
  simp only [hime, hmod, hpend, hi256, Bool.not_true, Bool.false_and, Bool.false_eq_true,
    if_false, get_register_word_set_register_word, if_true, Nat.mod_mod]
  rw [hi256] at hpc
  simp only [hpc]

theorem testBit_clear_bit_byte (f i j : Nat) (hf : f < 256) :
    ((f &&& bit_not (0x01 <<< i)) % 256).testBit j = (f.testBit j && decide (j ≠ i)) := by
  have h32 : (0xFFFFFFFF : Nat) = 2 ^ 32 - 1 := by norm_num
  have h256 : (256 : Nat) = 2 ^ 8 := by norm_num
  unfold bit_not
  rw [h256, Nat.testBit_mod_two_pow, Nat.testBit_and, Nat.testBit_xor, Nat.one_shiftLeft,
    Nat.testBit_two_pow, h32, Nat.testBit_two_pow_sub_one]
  by_cases hj : j < 8
  · have hj32 : j < 32 := by omega
    by_cases hij : i = j
    · subst hij; simp [hj, hj32]
    · have hji : ¬ j = i := fun e => hij e.symm
      simp [hj, hj32, hij, hji]
  · have hlt : f < 2 ^ j :=
      lt_of_lt_of_le (show f < 2 ^ 8 from hf) (Nat.pow_le_pow_right (by norm_num) (by omega))
    simp [hj, Nat.testBit_lt_two_pow hlt]

/-! ## C1: interrupt dispatch -/

/-- C1: for every CPU and memory state with IME set and IE & IF != 0 whose stack
slot SP-2..SP-1 avoids 0xFF0F and 0xFFFF, `next` is the interrupt dispatch alone
(no opcode is fetched: the result does not depend on the opcode tables).  With
`i` the lowest set bit of IE & IF, afterwards IME and halted are false, IF is the
old IF with only bit `i` cleared, IE is unchanged, SP is lowered by 2 with the
old PC stored at the new SP, and PC = 0x0040 + 8*i. -/
theorem next_dispatches_pending_interrupt (tables : OpcodeTables) (cpu : Cpu) (mem : Memory)
    (hime : cpu.f_enable_interrupts = true)
    (hpend : mem.get_memory_byte 0xFFFF &&& mem.get_memory_byte 0xFF0F ≠ 0)
    (hlo_if : (cpu.reg.get_register_word .r_sp + 65536 - 2) % 65536 ≠ 0xFF0F)
    (hlo_ie : (cpu.reg.get_register_word .r_sp + 65536 - 2) % 65536 ≠ 0xFFFF)
    (hhi_if : (cpu.reg.get_register_word .r_sp + 65536 - 1) % 65536 ≠ 0xFF0F)
    (hhi_ie : (cpu.reg.get_register_word .r_sp + 65536 - 1) % 65536 ≠ 0xFFFF) :
    let ie := mem.get_memory_byte 0xFFFF
    let iflag := mem.get_memory_byte 0xFF0F
    let i := builtin_ctz (ie &&& iflag)
    let r := next tables cpu mem
    (i < 8 ∧ (ie &&& iflag).testBit i = true ∧ ∀ j < i, (ie &&& iflag).testBit j = false)
    ∧ r = handle_interrupts cpu mem
    ∧ r.2.1.f_enable_interrupts = false
    ∧ r.2.1.f_halted = false
    ∧ (∀ j, (r.2.2.get_memory_byte 0xFF0F).testBit j = (iflag.testBit j && decide (j ≠ i)))
    ∧ r.2.2.get_memory_byte 0xFFFF = ie
    ∧ r.2.1.reg.get_register_word .r_sp = (cpu.reg.get_register_word .r_sp + 65536 - 2) % 65536
    ∧ r.2.2.get_memory_word (r.2.1.reg.get_register_word .r_sp)
        = cpu.reg.get_register_word .r_pc
    ∧ r.2.1.reg.get_register_word .r_pc = 0x0040 + 8 * i := by
  intro ie iflag i r
  have hlt : ie &&& iflag < 256 := lt_of_le_of_lt Nat.and_le_left (get_memory_byte_lt mem _)
  have hctz := builtin_ctz_byte (ie &&& iflag) hpend hlt
  have hi : builtin_ctz (mem.get_memory_byte 0xFFFF &&& mem.get_memory_byte 0xFF0F) < 8 :=
    hctz.1
  have hsp := get_register_word_lt cpu.reg .r_sp
  have hpc := get_register_word_lt cpu.reg .r_pc
  have htaken := handle_interrupts_taken cpu mem hime hpend
  have hr : r = handle_interrupts cpu mem := by
    show next tables cpu mem = _
    unfold next
    rw [htaken]
    simp
  refine ⟨hctz, hr, ?_⟩
  rw [hr, htaken]
  refine ⟨rfl, rfl, ?_, ?_, ?_, ?_, ?_⟩
  · intro j
    show (Memory.get_memory_byte (Memory.set_memory_word _ _ _) 0xFF0F).testBit j = _
    rw [get_memory_byte_set_memory_word _ _ _ _ (by omega) (by omega),
      get_memory_byte_set_memory_byte, if_pos rfl, Nat.mod_mod]
    exact testBit_clear_bit_byte iflag i j (get_memory_byte_lt mem _)
  · show Memory.get_memory_byte (Memory.set_memory_word _ _ _) 0xFFFF = _
    rw [get_memory_byte_set_memory_word _ _ _ _ (by omega) (by omega),
      get_memory_byte_set_memory_byte, if_neg (by norm_num)]
  · show Register.get_register_word (Register.set_register_word _ _ _) .r_sp = _
    rw [get_register_word_set_register_word, if_neg (by decide),
      get_register_word_set_register_word, if_pos rfl, Nat.mod_mod]
  · show Memory.get_memory_word (Memory.set_memory_word _ _ _)
      (Register.get_register_word (Register.set_register_word _ _ _) .r_sp) = _
    rw [get_register_word_set_register_word, if_neg (by decide),
      get_register_word_set_register_word, if_pos rfl, Nat.mod_mod,
      get_memory_word_set_memory_word, Nat.mod_eq_of_lt hpc]
  · show Register.get_register_word (Register.set_register_word _ _ _) .r_pc = _
    rw [get_register_word_set_register_word, if_pos rfl]
    exact Nat.mod_eq_of_lt (by omega)

/-- Witness of C1: the power-on CPU (IME set, PC = 0x0100, SP = 0xFFFE) with
IE = IF = 0x01 vectors to 0x0040, pushes 0x0100 at 0xFFFC and clears IF. -/
theorem next_dispatches_pending_interrupt_witness :
    (next boot_tables Cpu.power_on interrupt_latency_memory).2.1.f_enable_interrupts = false
      ∧ (next boot_tables Cpu.power_on interrupt_latency_memory).2.1.reg.get_register_word .r_sp
          = 0xFFFC
      ∧ (next boot_tables Cpu.power_on interrupt_latency_memory).2.2.get_memory_word 0xFFFC
          = 0x0100
      ∧ (next boot_tables Cpu.power_on interrupt_latency_memory).2.1.reg.get_register_word .r_pc
          = 0x0040 := by
  have h := next_dispatches_pending_interrupt boot_tables Cpu.power_on interrupt_latency_memory
    rfl (by decide) (by decide) (by decide) (by decide) (by decide)
  obtain ⟨-, -, h1, -, -, -, h2, h3, h4⟩ := h
  rw [h2] at h3
  exact ⟨h1, h2, h3, h4⟩

/-! ## C2: the cost of an interrupt dispatch -/

/-- C2, the scenario of the claim: with IME = 1, IE = 0x01 and IF = 0x01 the step
reports 4 machine cycles, which the motherboard loop turns into 16 T-cycles,
not 20. -/
theorem interrupt_latency_step_is_16_t_cycles :
    Cpu.power_on.f_enable_interrupts = true
      ∧ interrupt_latency_memory.get_memory_byte 0xFFFF = 0x01
      ∧ interrupt_latency_memory.get_memory_byte 0xFF0F = 0x01
      ∧ (next boot_tables Cpu.power_on interrupt_latency_memory).1 = 4
      ∧ loop_clocks (next boot_tables Cpu.power_on interrupt_latency_memory).1 = 16
      ∧ loop_clocks (next boot_tables Cpu.power_on interrupt_latency_memory).1 ≠ 20 := by
  have h := handle_interrupts_taken Cpu.power_on interrupt_latency_memory rfl (by decide)
  have hn : (next boot_tables Cpu.power_on interrupt_latency_memory).1 = 4 := by
    unfold next
    rw [h]
    simp
  refine ⟨rfl, by decide, by decide, hn, ?_, ?_⟩
  · rw [hn]; decide
  · rw [hn]; decide

/-- C2 as amended: whenever `next` takes an interrupt (IME set and IE & IF != 0)
the cost it reports is 4 machine cycles, that is 16 T-cycles once the
motherboard loop multiplies the returned value by 4. -/
theorem next_interrupt_costs_4_machine_cycles (tables : OpcodeTables) (cpu : Cpu)
    (mem : Memory) (hime : cpu.f_enable_interrupts = true)
    (hpend : mem.get_memory_byte 0xFFFF &&& mem.get_memory_byte 0xFF0F ≠ 0) :
    (next tables cpu mem).1 = 4 ∧ loop_clocks (next tables cpu mem).1 = 16 := by
  have hn : (next tables cpu mem).1 = 4 := by
    unfold next
    rw [handle_interrupts_taken cpu mem hime hpend]
    simp
  refine ⟨hn, ?_⟩
  rw [hn]
  decide

/-- Witness of C2 as amended: the power-on CPU with IE = IF = 0x01. -/
theorem next_interrupt_costs_4_machine_cycles_witness :
    Cpu.power_on.f_enable_interrupts = true
      ∧ interrupt_latency_memory.get_memory_byte 0xFFFF
          &&& interrupt_latency_memory.get_memory_byte 0xFF0F ≠ 0
      ∧ (next boot_tables Cpu.power_on interrupt_latency_memory).1 = 4
      ∧ loop_clocks (next boot_tables Cpu.power_on interrupt_latency_memory).1 = 16 :=
  ⟨rfl, by decide,
    next_interrupt_costs_4_machine_cycles boot_tables Cpu.power_on interrupt_latency_memory
      rfl (by decide)⟩

/-! ## C3: waking from HALT with IME clear -/

/-- C3: for every state with IME false, halted true and IE & IF != 0, the
interrupt logic only clears `halted` (registers, hence SP and PC, and the whole
memory, hence IF and the stack, are as before), and `next` then fetches the
opcode at the current PC and runs its handler. -/
theorem next_wakes_halted_cpu_without_vectoring (tables : OpcodeTables) (cpu : Cpu)
    (mem : Memory) (hime : cpu.f_enable_interrupts = false) (hhalt : cpu.f_halted = true)
    (hpend : mem.get_memory_byte 0xFFFF &&& mem.get_memory_byte 0xFF0F ≠ 0) :
    handle_interrupts cpu mem = (0, { cpu with f_halted := false }, mem)
    ∧ next tables cpu mem = execute tables { cpu with f_halted := false } mem
    ∧ (next tables cpu mem).2
        = tables.handle_opcode_main (mem.get_memory_byte (cpu.reg.get_register_word .r_pc))
            { reg := cpu.reg.set_register_word .r_pc
                ((cpu.reg.get_register_word .r_pc + 1) % 65536),
              f_halted := false,
              f_enable_interrupts := false }
            mem (mem.get_memory_byte (cpu.reg.get_register_word .r_pc)) := by
  have hlt : mem.get_memory_byte 0xFFFF &&& mem.get_memory_byte 0xFF0F < 256 :=
    lt_of_le_of_lt Nat.and_le_left (get_memory_byte_lt mem _)
  have hmod : (mem.get_memory_byte 0xFFFF &&& mem.get_memory_byte 0xFF0F) % 256
      = mem.get_memory_byte 0xFFFF &&& mem.get_memory_byte 0xFF0F := Nat.mod_eq_of_lt hlt
  have hh : handle_interrupts cpu mem = (0, { cpu with f_halted := false }, mem) := by
    unfold handle_interrupts
    simp [hime, hhalt, hmod, hpend]
  have hn : next tables cpu mem = execute tables { cpu with f_halted := false } mem := by
    unfold next
    rw [hh]
    simp
  refine ⟨hh, hn, ?_⟩
  rw [hn]
  unfold execute read_opcode_byte
  simp [table_as_condition, hime]

/-- Witness of C3: a halted CPU with IME clear, PC = 0x0100 and IE = IF = 0x01:
the step leaves `halted` false, IF = 0x01, SP = 0xFFFE, and having run the
opcode at 0x0100 leaves PC = 0x0101. -/
theorem next_wakes_halted_cpu_without_vectoring_witness :
    (handle_interrupts halted_cpu interrupt_latency_memory).1 = 0
      ∧ (next boot_tables halted_cpu interrupt_latency_memory).2.1.f_halted = false
      ∧ (next boot_tables halted_cpu interrupt_latency_memory).2.1.reg.get_register_word .r_pc
          = 0x0101
      ∧ (next boot_tables halted_cpu interrupt_latency_memory).2.1.reg.get_register_word .r_sp
          = 0xFFFE
      ∧ (next boot_tables halted_cpu interrupt_latency_memory).2.2.get_memory_byte 0xFF0F
          = 0x01 := by
  have h := next_wakes_halted_cpu_without_vectoring boot_tables halted_cpu
    interrupt_latency_memory rfl rfl (by decide)
  obtain ⟨h1, -, h3⟩ := h
  rw [h1, h3]
  exact ⟨rfl, rfl, by decide, by decide, by decide⟩

/-! ## C4: the cycle count returned by `execute` -/

/-- The cycle count `execute` returns is entry 0x00 of the CB-page table,
whatever opcode was fetched. -/
theorem execute_cost_eq (tables : OpcodeTables) (cpu : Cpu) (mem : Memory) :
    (execute tables cpu mem).1 = tables.opcode_cycle_prefix_cb 0x00 % 256 := by
  unfold execute
  simp [table_as_condition]

/-- C4, the code at the boot scenario: NOP (0x00) at PC = 0x0100, with tables in
which NOP costs 1 machine cycle and CB-page entry 0x00 costs 2: `execute` leaves
PC = 0x0101 but returns 2 machine cycles (8 T-cycles), the CB-page entry, not the
main-table entry of the opcode (4 T-cycles). -/
theorem execute_nop_returns_prefix_cb_cost :
    Cpu.power_on.reg.get_register_word .r_pc = 0x0100
      ∧ Memory.zeroed.get_memory_byte 0x0100 = 0x00
      ∧ boot_tables.opcode_cycle_main 0x00 = 1
      ∧ boot_tables.opcode_cycle_prefix_cb 0x00 = 2
      ∧ (execute boot_tables Cpu.power_on Memory.zeroed).2.1.reg.get_register_word .r_pc
          = 0x0101
      ∧ (execute boot_tables Cpu.power_on Memory.zeroed).1 = 2
      ∧ loop_clocks (execute boot_tables Cpu.power_on Memory.zeroed).1 = 8 := by
  have hc := execute_cost_eq boot_tables Cpu.power_on Memory.zeroed
  refine ⟨rfl, rfl, rfl, rfl, by decide, hc, ?_⟩
  rw [hc]
  decide

/-! ## Register pairs and `alu_add_hl` -/

theorem get_register_byte_pair_eq (reg : Register) (a b : RegisterName) :
    reg.get_register_byte_pair a b = reg.get_register_byte a * 256 + reg.get_register_byte b := by
  unfold Register.get_register_byte_pair
  have hb : reg.get_register_byte b < 2 ^ 8 := get_register_byte_lt reg b
  rw [Nat.shiftLeft_eq, Nat.mul_comm, ← Nat.mul_add_lt_is_or hb]

theorem get_register_byte_pair_lt (reg : Register) (a b : RegisterName) :
    reg.get_register_byte_pair a b < 65536 := by
  rw [get_register_byte_pair_eq]
  have ha := get_register_byte_lt reg a
  have hb := get_register_byte_lt reg b
  omega

theorem get_register_byte_pair_set_register_byte_pair (reg : Register) (a b : RegisterName)
    (hab : a ≠ b) (v : Nat) :
    (reg.set_register_byte_pair a b v).get_register_byte_pair a b = v % 65536 := by
  rw [get_register_byte_pair_eq]
  unfold Register.set_register_byte_pair
  simp only [get_register_byte_set_register_byte, if_neg hab, if_true]
  omega

theorem get_flag_set_register_byte_pair (reg : Register) (a b : RegisterName) (v : Nat)
    (g : FlagName) (ha : a ≠ .r_f) (hb : b ≠ .r_f) :
    (reg.set_register_byte_pair a b v).get_flag g = reg.get_flag g := by
  unfold Register.set_register_byte_pair
  rw [get_flag_set_register_byte _ _ _ _ hb, get_flag_set_register_byte _ _ _ _ ha]

theorem get_register_byte_pair_set_flag (reg : Register) (f : FlagName) (v : Bool)
    (a b : RegisterName) (ha : a ≠ .r_f) (hb : b ≠ .r_f) :
    (reg.set_flag f v).get_register_byte_pair a b = reg.get_register_byte_pair a b := by
  unfold Register.get_register_byte_pair
  rw [get_register_byte_set_flag _ _ _ _ ha, get_register_byte_set_flag _ _ _ _ hb]

/-- Effect of `alu_add_hl` on HL and on the four flags: the half carry is taken
with the mask 0x07ff, that is out of bit 10. -/
theorem alu_add_hl_effect (reg : Register) (n : Nat) (hn : n < 65536) :
    let hl := reg.get_register_byte_pair .r_h .r_l
    (alu_add_hl reg n).get_register_byte_pair .r_h .r_l = (hl + n) % 65536
    ∧ (alu_add_hl reg n).get_flag .f_z = reg.get_flag .f_z
    ∧ (alu_add_hl reg n).get_flag .f_n = false
    ∧ (alu_add_hl reg n).get_flag .f_h = decide ((hl &&& 0x07ff) + (n &&& 0x07ff) > 0x07ff)
    ∧ (alu_add_hl reg n).get_flag .f_c = decide (hl + n > 0xFFFF) := by
  intro hl
  have hhl : reg.get_register_byte_pair .r_h .r_l < 65536 := get_register_byte_pair_lt reg _ _
  have hc : decide (reg.get_register_byte_pair .r_h .r_l > 0xffff - n)
      = decide (reg.get_register_byte_pair .r_h .r_l + n > 0xFFFF) := by
    congr 1; apply propext; constructor <;> intro h <;> omega
  unfold alu_add_hl
  simp only [get_register_byte_pair_set_register_byte_pair, get_flag_set_register_byte_pair,
    get_flag_set_flag, get_register_byte_pair_set_flag, ne_eq, reduceCtorEq, not_false_eq_true,
    if_true, if_false, Nat.mod_mod]
  exact ⟨trivial, trivial, trivial, trivial, hc⟩

/-! ## C11: ADD HL,nn -/

/-- C11, the code at HL = 0x014D, nn = 0x0700: HL becomes 0x084D, Z is as
before, N and C are clear, but H is set although
(HL & 0xFFF) + (nn & 0xFFF) = 0x084D is not above 0xFFF. -/
theorem alu_add_hl_014d_0700_h_set :
    Register.power_on.get_register_byte_pair .r_h .r_l = 0x014D
      ∧ (alu_add_hl Register.power_on 0x0700).get_register_byte_pair .r_h .r_l = 0x084D
      ∧ (alu_add_hl Register.power_on 0x0700).get_flag .f_z = Register.power_on.get_flag .f_z
      ∧ (alu_add_hl Register.power_on 0x0700).get_flag .f_n = false
      ∧ (alu_add_hl Register.power_on 0x0700).get_flag .f_c = false
      ∧ decide ((0x014D &&& 0xFFF) + (0x0700 &&& 0xFFF) > 0xFFF) = false
      ∧ (alu_add_hl Register.power_on 0x0700).get_flag .f_h = true := by
  have h := alu_add_hl_effect Register.power_on 0x0700 (by norm_num)
  have hhl : Register.power_on.get_register_byte_pair .r_h .r_l = 0x014D := by decide
  simp only [hhl] at h
  refine ⟨hhl, h.1, h.2.1, h.2.2.1, ?_, by decide, ?_⟩
  · rw [h.2.2.2.2]; decide
  · rw [h.2.2.2.1]; decide

/-! ## C12: ADD SP,e8 -/

theorem get_flag_set_register_word (reg : Register) (x : RegisterName) (v : Nat)
    (g : FlagName) : (reg.set_register_word x v).get_flag g = reg.get_flag g := rfl

/-- Effect of `alu_add_sp`: the immediate byte is added to SP as an unsigned
value; PC moves by 1; Z and N are cleared, H and C are the carries out of bit 3
and bit 7. -/
theorem alu_add_sp_effect (cpu : Cpu) (mem : Memory) :
    let sp := cpu.reg.get_register_word .r_sp
    let e8 := mem.get_memory_byte (cpu.reg.get_register_word .r_pc)
    (alu_add_sp cpu mem).reg.get_register_word .r_sp = (sp + e8) % 65536
    ∧ (alu_add_sp cpu mem).reg.get_register_word .r_pc
        = (cpu.reg.get_register_word .r_pc + 1) % 65536
    ∧ (alu_add_sp cpu mem).reg.get_flag .f_z = false
    ∧ (alu_add_sp cpu mem).reg.get_flag .f_n = false
    ∧ (alu_add_sp cpu mem).reg.get_flag .f_h = decide ((sp &&& 0xF) + (e8 &&& 0xF) > 0xF)
    ∧ (alu_add_sp cpu mem).reg.get_flag .f_c = decide ((sp &&& 0xFF) + (e8 &&& 0xFF) > 0xFF) := by
  intro sp e8
  unfold alu_add_sp read_opcode_byte
  simp only [get_register_word_set_register_word, get_flag_set_register_word,
    get_register_word_set_flag, get_flag_set_flag, ne_eq, reduceCtorEq, not_false_eq_true,
    if_true, if_false, Nat.mod_mod]
  exact ⟨trivial, trivial, trivial, trivial, trivial, trivial⟩

/-- C12, the code at SP = 0xFFFE with the immediate byte 0xFF (that is -1) at
PC = 0x0100: PC moves to 0x0101, Z and N are clear, H and C are set as stated,
but SP becomes 0x00FD = (SP + 0xFF) mod 65536 and not 0xFFFD = SP - 1. -/
theorem alu_add_sp_fffe_ff_adds_unsigned :
    Cpu.power_on.reg.get_register_word .r_sp = 0xFFFE
      ∧ minus_one_at_boot_pc.get_memory_byte (Cpu.power_on.reg.get_register_word .r_pc) = 0xFF
      ∧ to_int8 0xFF = -1
      ∧ (alu_add_sp Cpu.power_on minus_one_at_boot_pc).reg.get_register_word .r_pc = 0x0101
      ∧ (alu_add_sp Cpu.power_on minus_one_at_boot_pc).reg.get_flag .f_z = false
      ∧ (alu_add_sp Cpu.power_on minus_one_at_boot_pc).reg.get_flag .f_n = false
      ∧ (alu_add_sp Cpu.power_on minus_one_at_boot_pc).reg.get_flag .f_h = true
      ∧ (alu_add_sp Cpu.power_on minus_one_at_boot_pc).reg.get_flag .f_c = true
      ∧ (alu_add_sp Cpu.power_on minus_one_at_boot_pc).reg.get_register_word .r_sp = 0x00FD
      ∧ (alu_add_sp Cpu.power_on minus_one_at_boot_pc).reg.get_register_word .r_sp ≠ 0xFFFD := by
  have h := alu_add_sp_effect Cpu.power_on minus_one_at_boot_pc
  have hsp : Cpu.power_on.reg.get_register_word .r_sp = 0xFFFE := rfl
  have he : minus_one_at_boot_pc.get_memory_byte (Cpu.power_on.reg.get_register_word .r_pc)
      = 0xFF := by decide
  simp only [hsp, he] at h
  obtain ⟨h1, h2, h3, h4, h5, h6⟩ := h
  refine ⟨hsp, he, by decide, h2, h3, h4, ?_, ?_, h1, ?_⟩
  · rw [h5]; decide
  · rw [h6]; decide
  · rw [h1]; decide

/-! ## C13: rotates, shifts and SWAP -/

theorem bit7_test_eq_testBit (n : Nat) :
    decide (((n &&& 0x80) >>> 7) = 0x01) = n.testBit 7 := by
  have h1 : (n &&& 0x80) >>> 7 ≤ 1 := by
    have hle : n &&& 0x80 ≤ 0x80 := Nat.and_le_right
    rw [Nat.shiftRight_eq_div_pow]
    norm_num
    omega
  have h128 : Nat.testBit 0x80 7 = true := by decide
  have h2 : ((n &&& 0x80) >>> 7).testBit 0 = n.testBit 7 := by
    rw [Nat.testBit_shiftRight, Nat.testBit_and, h128, Bool.and_true]
  rw [Nat.testBit_zero] at h2
  rw [← h2]
  congr 1; apply propext; constructor <;> intro h <;> omega

theorem bit0_test_eq_testBit (n : Nat) : decide ((n &&& 0x01) = 0x01) = n.testBit 0 := by
  rw [Nat.testBit_zero, Nat.and_one_is_mod]

theorem swap_nibbles_eq (n : Nat) (hn : n < 256) :
    ((n >>> 4) ||| (n <<< 4)) % 256 = n % 16 * 16 + n / 16 := by
  have hlo : n >>> 4 < 2 ^ 4 := by
    rw [Nat.shiftRight_eq_div_pow]; norm_num; omega
  rw [Nat.lor_comm, Nat.shiftLeft_eq, Nat.mul_comm, ← Nat.mul_add_lt_is_or hlo,
    Nat.shiftRight_eq_div_pow]
  norm_num
  omega

/-- C13: for every byte `n` and every incoming carry (any register file), each
of `alu_rlc`, `alu_rl`, `alu_rrc`, `alu_rr`, `alu_sla`, `alu_sra` and `alu_srl`
sets Z exactly when the byte it returns is zero, clears N and H, and sets C to
the bit shifted out (old bit 7 for the left operations, old bit 0 for the right
ones); `alu_swap` returns the nibble-swapped byte with Z = (result == 0) and N,
H, C cleared. -/
theorem alu_rotate_shift_swap_flags (reg : Register) (n : Nat) (hn : n < 256) :
    ((alu_rlc reg n).2.get_flag .f_z = decide ((alu_rlc reg n).1 = 0)
      ∧ (alu_rlc reg n).2.get_flag .f_n = false ∧ (alu_rlc reg n).2.get_flag .f_h = false
      ∧ (alu_rlc reg n).2.get_flag .f_c = n.testBit 7)
    ∧ ((alu_rl reg n).2.get_flag .f_z = decide ((alu_rl reg n).1 = 0)
      ∧ (alu_rl reg n).2.get_flag .f_n = false ∧ (alu_rl reg n).2.get_flag .f_h = false
      ∧ (alu_rl reg n).2.get_flag .f_c = n.testBit 7)
    ∧ ((alu_rrc reg n).2.get_flag .f_z = decide ((alu_rrc reg n).1 = 0)
      ∧ (alu_rrc reg n).2.get_flag .f_n = false ∧ (alu_rrc reg n).2.get_flag .f_h = false
      ∧ (alu_rrc reg n).2.get_flag .f_c = n.testBit 0)
    ∧ ((alu_rr reg n).2.get_flag .f_z = decide ((alu_rr reg n).1 = 0)
      ∧ (alu_rr reg n).2.get_flag .f_n = false ∧ (alu_rr reg n).2.get_flag .f_h = false
      ∧ (alu_rr reg n).2.get_flag .f_c = n.testBit 0)
    ∧ ((alu_sla reg n).2.get_flag .f_z = decide ((alu_sla reg n).1 = 0)
      ∧ (alu_sla reg n).2.get_flag .f_n = false ∧ (alu_sla reg n).2.get_flag .f_h = false
      ∧ (alu_sla reg n).2.get_flag .f_c = n.testBit 7)
    ∧ ((alu_sra reg n).2.get_flag .f_z = decide ((alu_sra reg n).1 = 0)
      ∧ (alu_sra reg n).2.get_flag .f_n = false ∧ (alu_sra reg n).2.get_flag .f_h = false
      ∧ (alu_sra reg n).2.get_flag .f_c = n.testBit 0)
    ∧ ((alu_srl reg n).2.get_flag .f_z = decide ((alu_srl reg n).1 = 0)
      ∧ (alu_srl reg n).2.get_flag .f_n = false ∧ (alu_srl reg n).2.get_flag .f_h = false
      ∧ (alu_srl reg n).2.get_flag .f_c = n.testBit 0)
    ∧ ((alu_swap reg n).1 = n % 16 * 16 + n / 16
      ∧ (alu_swap reg n).2.get_flag .f_z = decide ((alu_swap reg n).1 = 0)
      ∧ (alu_swap reg n).2.get_flag .f_n = false ∧ (alu_swap reg n).2.get_flag .f_h = false
      ∧ (alu_swap reg n).2.get_flag .f_c = false) := by
  refine ⟨?_, ?_, ?_, ?_, ?_, ?_, ?_, ?_⟩
  · unfold alu_rlc
    simp only [get_flag_set_flag, reduceCtorEq, if_true, if_false, bit7_test_eq_testBit]
    exact ⟨trivial, trivial, trivial, trivial⟩
  · unfold alu_rl
    simp only [get_flag_set_flag, reduceCtorEq, if_true, if_false, bit7_test_eq_testBit]
    exact ⟨trivial, trivial, trivial, trivial⟩
  · unfold alu_rrc
    simp only [get_flag_set_flag, reduceCtorEq, if_true, if_false, bit0_test_eq_testBit]
    exact ⟨trivial, trivial, trivial, trivial⟩
  · unfold alu_rr
    simp only [get_flag_set_flag, reduceCtorEq, if_true, if_false, bit0_test_eq_testBit]
    exact ⟨trivial, trivial, trivial, trivial⟩
  · unfold alu_sla
    simp only [get_flag_set_flag, reduceCtorEq, if_true, if_false, bit7_test_eq_testBit]
    exact ⟨trivial, trivial, trivial, trivial⟩
  · unfold alu_sra
    simp only [get_flag_set_flag, reduceCtorEq, if_true, if_false, bit0_test_eq_testBit]
    exact ⟨trivial, trivial, trivial, trivial⟩
  · unfold alu_srl
    simp only [get_flag_set_flag, reduceCtorEq, if_true, if_false, bit0_test_eq_testBit]
    exact ⟨trivial, trivial, trivial, trivial⟩
  · have hs := swap_nibbles_eq n hn
    unfold alu_swap
    simp only [get_flag_set_flag, reduceCtorEq, if_true, if_false, hs]
    refine ⟨trivial, ?_, trivial, trivial, trivial⟩
    congr 1; apply propext; constructor <;> intro h <;> omega

/-- Witness of C13 on the power-on registers: RLC of 0x80 returns 0x01 with C
set, SLA of 0x80 returns 0x00 with Z and C set, SRL of 0x01 returns 0x00 with Z
and C set, and SWAP of 0xA5 returns 0x5A. -/
theorem alu_rotate_shift_swap_flags_witness :
    ((alu_rlc Register.power_on 0x80).1 = 0x01
      ∧ (alu_rlc Register.power_on 0x80).2.get_flag .f_c = true)
    ∧ ((alu_sla Register.power_on 0x80).1 = 0x00
      ∧ (alu_sla Register.power_on 0x80).2.get_flag .f_z = true
      ∧ (alu_sla Register.power_on 0x80).2.get_flag .f_c = true)
    ∧ (alu_swap Register.power_on 0xA5).1 = 0x5A := by
  have h := alu_rotate_shift_swap_flags Register.power_on 0x80 (by norm_num)
  have h5 := alu_rotate_shift_swap_flags Register.power_on 0xA5 (by norm_num)
  obtain ⟨hrlc, -, -, -, hsla, -, -, -⟩ := h
  exact ⟨⟨rfl, hrlc.2.2.2⟩, ⟨rfl, hsla.1, hsla.2.2.2⟩, h5.2.2.2.2.2.2.2.1⟩

/-! ## C14: DAA -/

/-- C14: for every A and every flag state (N, H, C), `alu_daa` follows the
stated rule: the adjustment is 0x06 if H (or, when N = 0, the low nibble of A is
above 9) plus 0x60 if C (or, when N = 0, A is above 0x99); it is added to A when
N = 0 and subtracted when N = 1 (mod 256); afterwards Z = (A == 0), N is
unchanged, H = 0 and C is set exactly when the adjustment included 0x60. -/
theorem alu_daa_follows_rule (reg : Register) :
    let a := reg.get_register_byte .r_a
    let n := reg.get_flag .f_n
    let low := reg.get_flag .f_h || (!n && decide ((a &&& 0x0F) > 9))
    let high := reg.get_flag .f_c || (!n && decide (a > 0x99))
    let adjust := (if low then 0x06 else 0) + (if high then 0x60 else 0)
    let a_new := if n then (a + 256 - adjust) % 256 else (a + adjust) % 256
    (alu_daa reg).get_register_byte .r_a = a_new
    ∧ (alu_daa reg).get_flag .f_z = decide (a_new = 0)
    ∧ (alu_daa reg).get_flag .f_n = n
    ∧ (alu_daa reg).get_flag .f_h = false
    ∧ (alu_daa reg).get_flag .f_c = high := by
  intro a n low high adjust a_new
  have ha : reg.get_register_byte .r_a < 256 := get_register_byte_lt reg .r_a
  unfold alu_daa
  simp only [a_new, adjust, low, high, n, a]
  by_cases hc : reg.get_flag .f_c = true <;> by_cases hh : reg.get_flag .f_h = true <;>
    by_cases hn : reg.get_flag .f_n = true <;>
    by_cases h9 : (reg.get_register_byte .r_a &&& 0x0f) > 0x09 <;>
    by_cases h99 : reg.get_register_byte .r_a > 0x99 <;>
    simp [get_flag_set_flag, get_register_byte_set_register_byte, get_flag_set_register_byte,
      hc, hh, hn, h9, h99]

/-! ## C15: JR -/

/-- C15: for every PC value `p` pointing at the displacement byte `d` of a JR
instruction (p = opcode address + 1), `alu_jr` sets
PC = (p + 1 + signed(d)) mod 65536, that is opcode address + 2 + signed(d):
`p + 1 + d` for d below 0x80 and `p + 1 - (256 - d)` from 0x80 on, both mod
65536.  With the opcode at 0x0080 and d = 0x80 (-128) the new PC is 0x0002. -/
theorem alu_jr_target (cpu : Cpu) (mem : Memory) :
    let p := cpu.reg.get_register_word .r_pc
    let d := mem.get_memory_byte p
    ((alu_jr cpu mem).reg.get_register_word .r_pc : Int) = ((p : Int) + 1 + to_int8 d) % 65536
    ∧ (d < 128 → (alu_jr cpu mem).reg.get_register_word .r_pc = (p + 1 + d) % 65536)
    ∧ (128 ≤ d →
        (alu_jr cpu mem).reg.get_register_word .r_pc = (p + 1 + 65536 - (256 - d)) % 65536)
    ∧ (p = 0x0081 → d = 0x80 → (alu_jr cpu mem).reg.get_register_word .r_pc = 0x0002) := by
  intro p d
  have hp : cpu.reg.get_register_word .r_pc < 65536 := get_register_word_lt _ _
  have hd : mem.get_memory_byte (cpu.reg.get_register_word .r_pc) < 256 :=
    get_memory_byte_lt _ _
  have hpc : (alu_jr cpu mem).reg.get_register_word .r_pc
      = (((cpu.reg.get_register_word .r_pc : Int)
          + (to_int8 (mem.get_memory_byte (cpu.reg.get_register_word .r_pc)) + 1))
          % 65536).toNat := by
    unfold alu_jr
    simp only [get_register_word_set_register_word, if_true]
    omega
  have hsmall : mem.get_memory_byte (cpu.reg.get_register_word .r_pc) < 128 →
      (alu_jr cpu mem).reg.get_register_word .r_pc
        = (cpu.reg.get_register_word .r_pc + 1
            + mem.get_memory_byte (cpu.reg.get_register_word .r_pc)) % 65536 := by
    intro h
    rw [hpc]
    unfold to_int8
    rw [Nat.mod_eq_of_lt hd, if_pos h]
    omega
  have hbig : 128 ≤ mem.get_memory_byte (cpu.reg.get_register_word .r_pc) →
      (alu_jr cpu mem).reg.get_register_word .r_pc
        = (cpu.reg.get_register_word .r_pc + 1 + 65536
            - (256 - mem.get_memory_byte (cpu.reg.get_register_word .r_pc))) % 65536 := by
    intro h
    rw [hpc]
    unfold to_int8
    rw [Nat.mod_eq_of_lt hd, if_neg (by omega)]
    omega
  refine ⟨?_, hsmall, hbig, ?_⟩
  · show ((alu_jr cpu mem).reg.get_register_word .r_pc : Int)
      = ((cpu.reg.get_register_word .r_pc : Int) + 1
          + to_int8 (mem.get_memory_byte (cpu.reg.get_register_word .r_pc))) % 65536
    rw [hpc]
    omega
  · intro h81 h80
    have := hbig (by show 128 ≤ d; omega)
    rw [this]
    show (p + 1 + 65536 - (256 - d)) % 65536 = 2
    omega

/-- Witness of C15: with PC = 0x0081 and the byte 0x80 there, `alu_jr` leaves
PC = 0x0002. -/
theorem alu_jr_target_witness :
    jr_cpu.reg.get_register_word .r_pc = 0x0081
      ∧ jr_memory.get_memory_byte 0x0081 = 0x80
      ∧ (alu_jr jr_cpu jr_memory).reg.get_register_word .r_pc = 0x0002 :=
  ⟨rfl, by decide, (alu_jr_target jr_cpu jr_memory).2.2.2 rfl (by decide)⟩

/-! ## C16: push then pop -/

/-- C16: for every 16-bit `x` and every SP, `stack_add x` lowers SP by 2 (mod
65536) and stores `x` at the new SP, and a following `stack_pop` returns `x` and
puts SP back to its original value.  (In the flat memory image every address is
plain writable memory.) -/
theorem stack_add_then_stack_pop (cpu : Cpu) (mem : Memory) (x : Nat) (hx : x < 65536) :
    let sp := cpu.reg.get_register_word .r_sp
    (stack_add cpu mem x).1.reg.get_register_word .r_sp = (sp + 65536 - 2) % 65536
    ∧ (stack_add cpu mem x).2.get_memory_word ((stack_add cpu mem x).1.reg.get_register_word .r_sp)
        = x
    ∧ (stack_pop (stack_add cpu mem x).1 (stack_add cpu mem x).2).1 = x
    ∧ (stack_pop (stack_add cpu mem x).1 (stack_add cpu mem x).2).2.reg.get_register_word .r_sp
        = sp
    ∧ (stack_pop (stack_add cpu mem x).1 (stack_add cpu mem x).2).2.reg.get_register_word .r_pc
        = cpu.reg.get_register_word .r_pc := by
  intro sp
  have hsp : cpu.reg.get_register_word .r_sp < 65536 := get_register_word_lt _ _
  unfold stack_pop stack_add
  simp only [get_register_word_set_register_word, if_true, Nat.mod_mod,
    get_memory_word_set_memory_word, Nat.mod_eq_of_lt hx, reduceCtorEq, if_false]
  refine ⟨trivial, trivial, trivial, ?_, trivial⟩
  show (((sp + 65536 - 2) % 65536) + 2) % 65536 = sp
  omega

/-- Witness of C16: pushing 0xBEEF on the power-on CPU (SP = 0xFFFE) leaves
SP = 0xFFFC, and the pop returns 0xBEEF with SP = 0xFFFE again. -/
theorem stack_add_then_stack_pop_witness :
    (stack_add Cpu.power_on Memory.zeroed 0xBEEF).1.reg.get_register_word .r_sp = 0xFFFC
      ∧ (stack_pop (stack_add Cpu.power_on Memory.zeroed 0xBEEF).1
          (stack_add Cpu.power_on Memory.zeroed 0xBEEF).2).1 = 0xBEEF
      ∧ (stack_pop (stack_add Cpu.power_on Memory.zeroed 0xBEEF).1
          (stack_add Cpu.power_on Memory.zeroed 0xBEEF).2).2.reg.get_register_word .r_sp
          = 0xFFFE := by
  have h := stack_add_then_stack_pop Cpu.power_on Memory.zeroed 0xBEEF (by norm_num)
  exact ⟨h.1, h.2.2.1, h.2.2.2.1⟩

/-! ## Facts about the PPU routines -/

theorem set_mode_current_mode (ppu : Ppu) (mode : PpuMode) (mem : Memory) :
    (set_mode ppu mode mem).1.current_mode = mode := by
  unfold set_mode
  by_cases h : ppu.current_mode = mode <;> simp [h]

theorem set_mode_ppu_inner_clock (ppu : Ppu) (mode : PpuMode) (mem : Memory) :
    (set_mode ppu mode mem).1.ppu_inner_clock = ppu.ppu_inner_clock := by
  unfold set_mode
  by_cases h : ppu.current_mode = mode <;> simp [h]

/-- Apart from IF and STAT, `set_mode` leaves memory as it is. -/
theorem set_mode_get_memory_byte (ppu : Ppu) (mode : PpuMode) (mem : Memory) (a : Nat)
    (hif : a % 65536 ≠ 0xFF0F) (hstat : a % 65536 ≠ 0xFF41) :
    (set_mode ppu mode mem).2.get_memory_byte a = mem.get_memory_byte a := by
  unfold set_mode
  by_cases h : ppu.current_mode = mode
  · simp [h]
  · simp only [h, if_false]
    rw [get_memory_byte_set_memory_byte, if_neg (by simpa [STAT_ADDRESS] using hstat),
      get_memory_byte_set_memory_byte, if_neg (by simpa [IF_ADDRESS] using hif)]

/-- The DMA loop writes only into 0xFE00..0xFEA0. -/
theorem pixel_transfer_loop_get_memory_byte (dma_byte : Nat) (a : Nat)
    (ha : a % 65536 < 0xFE00 ∨ 0xFEA0 < a % 65536) :
    ∀ (fuel bytes : Nat) (mem : Memory),
      (pixel_transfer_loop dma_byte fuel bytes mem).get_memory_byte a = mem.get_memory_byte a := by
  intro fuel
  induction fuel with
  | zero => intro bytes mem; rfl
  | succ k ih =>
    intro bytes mem
    unfold pixel_transfer_loop
    by_cases hb : bytes ≤ 0xA0
    · simp only [hb, if_true]
      rw [ih, get_memory_byte_set_memory_byte, if_neg]
      unfold OAM_TABLE_INITIAL_ADDDRESS
      omega
    · simp only [hb, if_false]

theorem pixel_transfer_get_memory_byte (mem : Memory) (a : Nat)
    (ha : a % 65536 < 0xFE00 ∨ 0xFEA0 < a % 65536) :
    (pixel_transfer mem).get_memory_byte a = mem.get_memory_byte a := by
  unfold pixel_transfer
  exact pixel_transfer_loop_get_memory_byte _ a ha _ _ _

/-- Apart from IF and STAT, `update_lyc` leaves memory as it is. -/
theorem update_lyc_get_memory_byte (mem : Memory) (a : Nat)
    (hif : a % 65536 ≠ 0xFF0F) (hstat : a % 65536 ≠ 0xFF41) :
    (update_lyc mem).get_memory_byte a = mem.get_memory_byte a := by
  have h1 : ¬ a % 65536 = STAT_ADDRESS % 65536 := by simpa [STAT_ADDRESS] using hstat
  have h2 : ¬ a % 65536 = IF_ADDRESS % 65536 := by simpa [IF_ADDRESS] using hif
  unfold update_lyc
  by_cases h : mem.get_memory_byte LY_ADDRESS = mem.get_memory_byte LYC_ADDRESS
  · simp only [h, if_true]
    rw [get_memory_byte_set_memory_byte, if_neg h1]
    by_cases h40 : (mem.get_memory_byte STAT_ADDRESS ||| 0x04) &&& 0x40 ≠ 0
    · rw [if_pos h40, get_memory_byte_set_memory_byte, if_neg h2]
    · rw [if_neg h40]
  · simp only [h, if_false]
    rw [get_memory_byte_set_memory_byte, if_neg h1]

theorem reset_interrupt_registers_get_memory_byte (mem : Memory) (a : Nat)
    (hif : a % 65536 ≠ 0xFF0F) :
    (reset_interrupt_registers mem).get_memory_byte a = mem.get_memory_byte a := by
  unfold reset_interrupt_registers
  rw [get_memory_byte_set_memory_byte, if_neg (by simpa [IF_ADDRESS] using hif)]

theorem h_blank_ly (mem : Memory) :
    (h_blank mem).get_memory_byte LY_ADDRESS = (mem.get_memory_byte LY_ADDRESS + 1) % 256 := by
  unfold h_blank
  rw [get_memory_byte_set_memory_byte, if_pos rfl, Nat.mod_mod]

theorem to_int32_eq (x : Int) (h0 : -2147483648 ≤ x) (h1 : x < 2147483648) : to_int32 x = x := by
  unfold to_int32
  omega

theorem to_int32_range (x : Int) : -2147483648 ≤ to_int32 x ∧ to_int32 x < 2147483648 := by
  unfold to_int32
  omega

theorem v_blank_ly (ppu : Ppu) (mem : Memory) :
    (v_blank ppu mem).get_memory_byte LY_ADDRESS
      = ((Int.tdiv ppu.ppu_inner_clock 456 + 144) % 256).toNat := by
  unfold v_blank SCREEN_HEIGHT
  rw [get_memory_byte_set_memory_byte, if_pos rfl]
  push_cast
  omega

/-- The mode, inner clock and LY after `ppu_main` are those of `scanline_step`. -/
theorem ppu_main_view (ppu : Ppu) (clocks speed_hack : Nat) (mem : Memory) :
    ppu_view (ppu_main ppu clocks speed_hack mem)
      = scanline_step (ppu_view (ppu, mem)) (clocks * speed_hack) := by
  have hly : ∀ m : Memory, (update_lyc m).get_memory_byte LY_ADDRESS
      = m.get_memory_byte LY_ADDRESS :=
    fun m => update_lyc_get_memory_byte m _ (by decide) (by decide)
  have hsm : ∀ (p : Ppu) (md : PpuMode) (m : Memory),
      (set_mode p md m).2.get_memory_byte LY_ADDRESS = m.get_memory_byte LY_ADDRESS :=
    fun p md m => set_mode_get_memory_byte p md m _ (by decide) (by decide)
  have hpt : ∀ m : Memory, (pixel_transfer m).get_memory_byte LY_ADDRESS
      = m.get_memory_byte LY_ADDRESS :=
    fun m => pixel_transfer_get_memory_byte m _ (by decide)
  have hri : (reset_interrupt_registers mem).get_memory_byte LY_ADDRESS
      = mem.get_memory_byte LY_ADDRESS :=
    reset_interrupt_registers_get_memory_byte mem _ (by decide)
  unfold ppu_main ppu_view scanline_step Ppu.add_time
  dsimp only
  generalize to_int32 (ppu.ppu_inner_clock + ((clocks * speed_hack : Nat) : Int)) = clk
  cases hm : ppu.current_mode
  · -- HBlank
    by_cases hc : clk ≥ 205
    · by_cases hl : (mem.get_memory_byte LY_ADDRESS + 1) % 256 ≥ 144
      · simp [hc, hl, hly, hsm, hri, h_blank_ly, set_mode_current_mode,
          set_mode_ppu_inner_clock, SCREEN_HEIGHT]
      · simp [hc, hl, hly, hsm, hri, h_blank_ly, set_mode_current_mode,
          set_mode_ppu_inner_clock, SCREEN_HEIGHT]
    · simp [hc, hly, hri]
  · -- VBlank
    by_cases hc : clk ≥ 4560
    · have hlt : ¬ clk < 4560 := by omega
      simp [hc, hlt, hly, hsm, hri, set_mode_current_mode, set_mode_ppu_inner_clock,
        get_memory_byte_set_memory_byte]
    · have hlt : clk < 4560 := by omega
      simp [hc, hlt, hly, hri, v_blank_ly]
  · -- OAM search
    by_cases hc : clk ≥ 79
    · simp [hc, hly, hsm, hri, set_mode_current_mode, set_mode_ppu_inner_clock]
    · simp [hc, hly, hri]
  · -- pixel transfer
    by_cases hc : clk ≥ 172
    · simp [hc, hly, hsm, hpt, hri, set_mode_current_mode, set_mode_ppu_inner_clock]
    · simp [hc, hly, hri]

theorem ppu_run_view (calls : List (Nat × Nat)) :
    ∀ s : Ppu × Memory, ppu_view (ppu_run calls s) = scanline_run calls (ppu_view s) := by
  induction calls with
  | nil => intro s; rfl
  | cons c cs ih =>
    intro s
    show ppu_view (ppu_run cs (ppu_main s.1 c.1 c.2 s.2)) = _
    rw [ih, ppu_main_view]
    rfl

theorem ppu_trace_view (calls : List (Nat × Nat)) :
    ∀ s : Ppu × Memory,
      (ppu_trace calls s).map ppu_view = scanline_trace calls (ppu_view s) := by
  induction calls with
  | nil => intro s; rfl
  | cons c cs ih =>
    intro s
    show ppu_view (ppu_main s.1 c.1 c.2 s.2)
        :: (ppu_trace cs (ppu_main s.1 c.1 c.2 s.2)).map ppu_view = _
    rw [ih, ppu_main_view]
    rfl

/-! ## Runs of `scanline_step` -/

/-- The test `scanline_fits` decides `clock_fits_int`. -/
theorem clock_fits_int_of_scanline_fits (calls : List (Nat × Nat)) :
    ∀ s : Ppu × Memory, scanline_fits calls (ppu_view s) = true → clock_fits_int calls s := by
  induction calls with
  | nil => intro s _; trivial
  | cons c cs ih =>
    intro s h
    unfold scanline_fits at h
    rw [Bool.and_eq_true, decide_eq_true_iff] at h
    refine ⟨h.1, ih _ ?_⟩
    rw [ppu_main_view]
    exact h.2

/-! ## C17: the three thresholds of a visible scanline -/

set_option maxRecDepth 100000 in
theorem scanline_run_visible_line_clocks :
    scanline_run (List.replicate 19 (4, 1)) (.mode_oam_search, 0, 0) = (.mode_oam_search, 76, 0)
      ∧ scanline_run (List.replicate 20 (4, 1)) (.mode_oam_search, 0, 0)
        = (.mode_pixel_transfer, 1, 0)
      ∧ scanline_run (List.replicate 63 (4, 1)) (.mode_oam_search, 0, 0) = (.mode_hblank, 1, 0)
      ∧ scanline_run (List.replicate 113 (4, 1)) (.mode_oam_search, 0, 0)
        = (.mode_hblank, 201, 0)
      ∧ scanline_run (List.replicate 114 (4, 1)) (.mode_oam_search, 0, 0)
        = (.mode_oam_search, 0, 1) := by
  decide

theorem ppu_view_power_on : ppu_view (Ppu.power_on, Memory.zeroed) = (.mode_oam_search, 0, 0) := by
  decide

/-- C17, the code on the first scanline, stepped by calls of 4 T-cycles from
mode OAM_Search with inner clock 0 and LY = 0 (`Ppu.power_on` on a zeroed
memory).  After 19 calls the PPU is in OAM_Search with 76 on the inner clock;
the 20th call (80 cycles accumulated) enters Pixel_Transfer and leaves 1 on the
clock: 79, not 80, is subtracted.  The 63rd call (172 cycles later) enters HBlank
with 1 on the clock.  After 113 calls the clock is at 201, and the 114th call
(204 cycles after HBlank was entered) leaves HBlank with 0 on the clock: 205,
not 204, is subtracted. -/
theorem ppu_main_subtracts_79_and_205 :
    ppu_view (ppu_run (List.replicate 19 (4, 1)) (Ppu.power_on, Memory.zeroed))
        = (.mode_oam_search, 76, 0)
      ∧ ppu_view (ppu_run (List.replicate 20 (4, 1)) (Ppu.power_on, Memory.zeroed))
        = (.mode_pixel_transfer, 1, 0)
      ∧ ppu_view (ppu_run (List.replicate 63 (4, 1)) (Ppu.power_on, Memory.zeroed))
        = (.mode_hblank, 1, 0)
      ∧ ppu_view (ppu_run (List.replicate 113 (4, 1)) (Ppu.power_on, Memory.zeroed))
        = (.mode_hblank, 201, 0)
      ∧ ppu_view (ppu_run (List.replicate 114 (4, 1)) (Ppu.power_on, Memory.zeroed))
        = (.mode_oam_search, 0, 1) := by
  have h := scanline_run_visible_line_clocks
  simp only [ppu_run_view, ppu_view_power_on]
  exact h

/-- The cycle counts that `Motherboard::loop` passes to `ppu_main` are multiples
of 4, whatever the speed. -/
theorem loop_clocks_dvd (cpu_cycle speed_hack : Nat) : 4 ∣ loop_clocks cpu_cycle * speed_hack := by
  unfold loop_clocks
  exact Dvd.dvd.mul_right (by omega) _

/-- On cycle counts that are multiples of 4, the tests `>= 79`, `>= 172` and
`>= 205` of `ppu_main` act on the inner clock as the thresholds 80, 172 and 204
act on the cycles accumulated in the mode, the inner clock being these cycles
plus `carried_cycle`. -/
theorem scanline_step_follows_80_172_204 (mode : PpuMode) (elapsed : Int) (ly add : Nat)
    (h0 : 0 ≤ elapsed) (h4 : 4 ∣ elapsed) (hadd : 4 ∣ add)
    (hfit : elapsed + carried_cycle mode + (add : Int) ≤ 2147483647) :
    scanline_step (mode, elapsed + carried_cycle mode, ly) add
        = ((scanline_step_80_172_204 (mode, elapsed, ly) add).1,
            (scanline_step_80_172_204 (mode, elapsed, ly) add).2.1
              + carried_cycle (scanline_step_80_172_204 (mode, elapsed, ly) add).1,
            (scanline_step_80_172_204 (mode, elapsed, ly) add).2.2)
      ∧ 0 ≤ (scanline_step_80_172_204 (mode, elapsed, ly) add).2.1
      ∧ 4 ∣ (scanline_step_80_172_204 (mode, elapsed, ly) add).2.1 := by
  have hadd2 : (4 : Int) ∣ (add : Int) := by exact_mod_cast hadd
  cases mode
  · -- HBlank
    simp only [carried_cycle] at hfit ⊢
    have e : to_int32 (elapsed + 1 + (add : Int)) = elapsed + 1 + add :=
      to_int32_eq _ (by omega) (by omega)
    unfold scanline_step scanline_step_80_172_204
    simp only [e]
    by_cases hge : elapsed + (add : Int) ≥ 204
    · have hge2 : elapsed + 1 + (add : Int) ≥ 205 := by omega
      by_cases hl : (ly + 1) % 256 ≥ 144
      · simp only [hge, hge2, hl, if_true, carried_cycle]
        exact ⟨by congr 2; omega, by omega, by omega⟩
      · simp only [hge, hge2, hl, if_true, if_false, carried_cycle]
        exact ⟨by congr 2; omega, by omega, by omega⟩
    · have hge2 : ¬ elapsed + 1 + (add : Int) ≥ 205 := by omega
      simp only [hge, hge2, if_false, carried_cycle]
      exact ⟨by congr 2; omega, by omega, by omega⟩
  · -- VBlank
    simp only [carried_cycle] at hfit ⊢
    have e : to_int32 (elapsed + 0 + (add : Int)) = elapsed + add :=
      (to_int32_eq _ (by omega) (by omega)).trans (by omega)
    unfold scanline_step scanline_step_80_172_204
    simp only [e]
    by_cases hge : elapsed + (add : Int) ≥ 4560
    · simp only [hge, if_true, carried_cycle]
      exact ⟨by congr 2; omega, by omega, by omega⟩
    · simp only [hge, if_false, carried_cycle]
      exact ⟨by congr 2; omega, by omega, by omega⟩
  · -- OAM search
    simp only [carried_cycle] at hfit ⊢
    have e : to_int32 (elapsed + 0 + (add : Int)) = elapsed + add :=
      (to_int32_eq _ (by omega) (by omega)).trans (by omega)
    unfold scanline_step scanline_step_80_172_204
    simp only [e]
    by_cases hge : elapsed + (add : Int) ≥ 80
    · have hge2 : elapsed + (add : Int) ≥ 79 := by omega
      simp only [hge, hge2, if_true, carried_cycle]
      exact ⟨by congr 2; omega, by omega, by omega⟩
    · have hge2 : ¬ elapsed + (add : Int) ≥ 79 := by omega
      simp only [hge, hge2, if_false, carried_cycle]
      exact ⟨by congr 2; omega, by omega, by omega⟩
  · -- pixel transfer
    simp only [carried_cycle] at hfit ⊢
    have e : to_int32 (elapsed + 1 + (add : Int)) = elapsed + 1 + add :=
      to_int32_eq _ (by omega) (by omega)
    unfold scanline_step scanline_step_80_172_204
    simp only [e]
    by_cases hge : elapsed + (add : Int) ≥ 172
    · have hge2 : elapsed + 1 + (add : Int) ≥ 172 := by omega
      simp only [hge, hge2, if_true, carried_cycle]
      exact ⟨by congr 2; omega, by omega, by omega⟩
    · have hge2 : ¬ elapsed + 1 + (add : Int) ≥ 172 := by omega
      simp only [hge, hge2, if_false, carried_cycle]
      exact ⟨by congr 2; omega, by omega, by omega⟩

/-- One call of `ppu_main` with a multiple of 4, from a state whose inner clock
holds a multiple of 4 of cycles accumulated in the mode plus the carried cycle:
the call does what `scanline_step_80_172_204` does, each of the three modes of a
visible line is left exactly when the cycles accumulated reach 80, 172 and 204,
and the amounts subtracted from the inner clock are 79, 172 and 205. -/
theorem ppu_main_follows_80_172_204 (ppu : Ppu) (mem : Memory)
    (clocks speed_hack : Nat) (elapsed : Int)
    (hclock : ppu.ppu_inner_clock = elapsed + carried_cycle ppu.current_mode)
    (h0 : 0 ≤ elapsed) (h4 : 4 ∣ elapsed) (hadd : 4 ∣ clocks * speed_hack)
    (hfit : ppu.ppu_inner_clock + ((clocks * speed_hack : Nat) : Int) ≤ 2147483647) :
    ppu_view (ppu_main ppu clocks speed_hack mem)
        = ((scanline_step_80_172_204
              (ppu.current_mode, elapsed, mem.get_memory_byte LY_ADDRESS)
              (clocks * speed_hack)).1,
            (scanline_step_80_172_204
              (ppu.current_mode, elapsed, mem.get_memory_byte LY_ADDRESS)
              (clocks * speed_hack)).2.1
              + carried_cycle (scanline_step_80_172_204
                  (ppu.current_mode, elapsed, mem.get_memory_byte LY_ADDRESS)
                  (clocks * speed_hack)).1,
            (scanline_step_80_172_204
              (ppu.current_mode, elapsed, mem.get_memory_byte LY_ADDRESS)
              (clocks * speed_hack)).2.2)
      ∧ 0 ≤ (scanline_step_80_172_204
              (ppu.current_mode, elapsed, mem.get_memory_byte LY_ADDRESS)
              (clocks * speed_hack)).2.1
      ∧ 4 ∣ (scanline_step_80_172_204
              (ppu.current_mode, elapsed, mem.get_memory_byte LY_ADDRESS)
              (clocks * speed_hack)).2.1
      ∧ (ppu.current_mode = .mode_oam_search →
          ((ppu_main ppu clocks speed_hack mem).1.current_mode = .mode_pixel_transfer
              ↔ elapsed + ((clocks * speed_hack : Nat) : Int) ≥ 80)
          ∧ ((ppu_main ppu clocks speed_hack mem).1.current_mode = .mode_pixel_transfer →
              (ppu_main ppu clocks speed_hack mem).1.ppu_inner_clock
                = ppu.ppu_inner_clock + ((clocks * speed_hack : Nat) : Int) - 79))
      ∧ (ppu.current_mode = .mode_pixel_transfer →
          ((ppu_main ppu clocks speed_hack mem).1.current_mode = .mode_hblank
              ↔ elapsed + ((clocks * speed_hack : Nat) : Int) ≥ 172)
          ∧ ((ppu_main ppu clocks speed_hack mem).1.current_mode = .mode_hblank →
              (ppu_main ppu clocks speed_hack mem).1.ppu_inner_clock
                = ppu.ppu_inner_clock + ((clocks * speed_hack : Nat) : Int) - 172))
      ∧ (ppu.current_mode = .mode_hblank →
          ((ppu_main ppu clocks speed_hack mem).1.current_mode ≠ .mode_hblank
              ↔ elapsed + ((clocks * speed_hack : Nat) : Int) ≥ 204)
          ∧ ((ppu_main ppu clocks speed_hack mem).1.current_mode ≠ .mode_hblank →
              (ppu_main ppu clocks speed_hack mem).1.ppu_inner_clock
                = ppu.ppu_inner_clock + ((clocks * speed_hack : Nat) : Int) - 205)) := by
  have hview : ppu_view (ppu_main ppu clocks speed_hack mem)
      = scanline_step (ppu_view (ppu, mem)) (clocks * speed_hack) :=
    ppu_main_view ppu clocks speed_hack mem
  have hv : ppu_view (ppu, mem)
      = (ppu.current_mode, elapsed + carried_cycle ppu.current_mode,
          mem.get_memory_byte LY_ADDRESS) := by
    unfold ppu_view
    rw [hclock]
  rw [hclock] at hfit
  obtain ⟨hstep, hpos, hdvd⟩ := scanline_step_follows_80_172_204 ppu.current_mode elapsed
    (mem.get_memory_byte LY_ADDRESS) (clocks * speed_hack) h0 h4 hadd hfit
  rw [hv, hstep] at hview
  have h1 := congrArg (fun v => v.1) hview
  have h2 := congrArg (fun v => v.2.1) hview
  simp only [ppu_view] at h1 h2
  refine ⟨hview, hpos, hdvd, ?_, ?_, ?_⟩
  · intro hm
    rw [h1, h2, hclock]
    simp only [scanline_step_80_172_204, hm]
    by_cases hge : elapsed + ((clocks * speed_hack : Nat) : Int) ≥ 80
    · simp only [hge, if_true, carried_cycle, true_iff, forall_const]
      exact ⟨trivial, by omega⟩
    · simp only [hge, if_false, reduceCtorEq, false_iff, not_false_eq_true, true_and,
        false_implies]
  · intro hm
    rw [h1, h2, hclock]
    simp only [scanline_step_80_172_204, hm]
    by_cases hge : elapsed + ((clocks * speed_hack : Nat) : Int) ≥ 172
    · simp only [hge, if_true, carried_cycle, true_iff, forall_const]
      exact ⟨trivial, by omega⟩
    · simp only [hge, if_false, reduceCtorEq, false_iff, not_false_eq_true, true_and,
        false_implies]
  · intro hm
    rw [h1, h2, hclock]
    simp only [scanline_step_80_172_204, hm]
    by_cases hge : elapsed + ((clocks * speed_hack : Nat) : Int) ≥ 204
    · by_cases hl : (mem.get_memory_byte LY_ADDRESS + 1) % 256 ≥ 144
      · simp only [hge, hl, if_true, carried_cycle, ne_eq, reduceCtorEq, not_false_eq_true,
          true_iff, forall_const]
        exact ⟨trivial, by omega⟩
      · simp only [hge, hl, if_true, if_false, carried_cycle, ne_eq, reduceCtorEq,
          not_false_eq_true, true_iff, forall_const]
        exact ⟨trivial, by omega⟩
    · simp only [hge, if_false, ne_eq, not_true_eq_false, false_iff, not_false_eq_true,
        true_and, false_implies]

/-- Along calls with multiples of 4, the state of `ppu_main` stays that of
`scanline_step_80_172_204` with the carried cycle on the inner clock. -/
theorem ppu_run_follows_80_172_204 (calls : List (Nat × Nat)) :
    ∀ (s : Ppu × Memory) (elapsed : Int),
      s.1.ppu_inner_clock = elapsed + carried_cycle s.1.current_mode →
      0 ≤ elapsed → 4 ∣ elapsed →
      (∀ c ∈ calls, 4 ∣ c.1 * c.2) →
      clock_fits_int calls s →
      ppu_view (ppu_run calls s)
          = ((scanline_run_80_172_204 calls
                (s.1.current_mode, elapsed, s.2.get_memory_byte LY_ADDRESS)).1,
              (scanline_run_80_172_204 calls
                (s.1.current_mode, elapsed, s.2.get_memory_byte LY_ADDRESS)).2.1
                + carried_cycle (scanline_run_80_172_204 calls
                    (s.1.current_mode, elapsed, s.2.get_memory_byte LY_ADDRESS)).1,
              (scanline_run_80_172_204 calls
                (s.1.current_mode, elapsed, s.2.get_memory_byte LY_ADDRESS)).2.2)
        ∧ 0 ≤ (scanline_run_80_172_204 calls
                (s.1.current_mode, elapsed, s.2.get_memory_byte LY_ADDRESS)).2.1
        ∧ 4 ∣ (scanline_run_80_172_204 calls
                (s.1.current_mode, elapsed, s.2.get_memory_byte LY_ADDRESS)).2.1 := by
  induction calls with
  | nil =>
    intro s elapsed hclock h0 h4 _ _
    refine ⟨?_, h0, h4⟩
    show ppu_view s = _
    unfold ppu_view
    rw [hclock]
    rfl
  | cons c cs ih =>
    intro s elapsed hclock h0 h4 hcalls hfit
    obtain ⟨hfit1, hfit2⟩ := hfit
    obtain ⟨hstep, hpos, hdvd, -⟩ := ppu_main_follows_80_172_204 s.1 s.2 c.1 c.2 elapsed hclock
      h0 h4 (hcalls c (List.mem_cons_self _ _)) hfit1
    have hm := congrArg (fun v => v.1) hstep
    have hc := congrArg (fun v => v.2.1) hstep
    have hl := congrArg (fun v => v.2.2) hstep
    simp only [ppu_view] at hm hc hl
    have h := ih (ppu_main s.1 c.1 c.2 s.2) _ (by rw [hc, hm]) hpos hdvd
      (fun d hd => hcalls d (List.mem_cons_of_mem _ hd)) hfit2
    rw [hm, hl] at h
    exact h

/-- C17 as amended: on a run of `ppu_main` calls from OAM_Search with inner
clock 0 in which every call passes a multiple of 4 (as `Motherboard::loop` does)
and no addition leaves the `int`, the mode and LY are those of
`scanline_step_80_172_204`, the inner clock is the multiple of 4 of cycles
accumulated in the mode plus the carried cycle, and on the next such call the PPU
leaves OAM_Search exactly when 80 T-cycles have accumulated, Pixel_Transfer
exactly when 172 have and HBlank exactly when 204 have, while the amounts
subtracted from the inner clock on the three transitions are 79, 172 and 205. -/
theorem ppu_main_leaves_modes_at_80_172_204 (ppu : Ppu) (mem : Memory)
    (calls : List (Nat × Nat))
    (hmode : ppu.current_mode = .mode_oam_search) (hclock : ppu.ppu_inner_clock = 0)
    (hcalls : ∀ c ∈ calls, 4 ∣ c.1 * c.2)
    (hfit : clock_fits_int calls (ppu, mem)) :
    let s := ppu_run calls (ppu, mem)
    let ideal := scanline_run_80_172_204 calls
      (.mode_oam_search, 0, mem.get_memory_byte LY_ADDRESS)
    s.1.current_mode = ideal.1
      ∧ s.2.get_memory_byte LY_ADDRESS = ideal.2.2
      ∧ s.1.ppu_inner_clock = ideal.2.1 + carried_cycle ideal.1
      ∧ 0 ≤ ideal.2.1 ∧ 4 ∣ ideal.2.1
      ∧ ∀ clocks speed_hack : Nat, 4 ∣ clocks * speed_hack →
          s.1.ppu_inner_clock + ((clocks * speed_hack : Nat) : Int) ≤ 2147483647 →
          (s.1.current_mode = .mode_oam_search →
            ((ppu_main s.1 clocks speed_hack s.2).1.current_mode = .mode_pixel_transfer
                ↔ ideal.2.1 + ((clocks * speed_hack : Nat) : Int) ≥ 80)
            ∧ ((ppu_main s.1 clocks speed_hack s.2).1.current_mode = .mode_pixel_transfer →
                (ppu_main s.1 clocks speed_hack s.2).1.ppu_inner_clock
                  = s.1.ppu_inner_clock + ((clocks * speed_hack : Nat) : Int) - 79))
          ∧ (s.1.current_mode = .mode_pixel_transfer →
            ((ppu_main s.1 clocks speed_hack s.2).1.current_mode = .mode_hblank
                ↔ ideal.2.1 + ((clocks * speed_hack : Nat) : Int) ≥ 172)
            ∧ ((ppu_main s.1 clocks speed_hack s.2).1.current_mode = .mode_hblank →
                (ppu_main s.1 clocks speed_hack s.2).1.ppu_inner_clock
                  = s.1.ppu_inner_clock + ((clocks * speed_hack : Nat) : Int) - 172))
          ∧ (s.1.current_mode = .mode_hblank →
            ((ppu_main s.1 clocks speed_hack s.2).1.current_mode ≠ .mode_hblank
                ↔ ideal.2.1 + ((clocks * speed_hack : Nat) : Int) ≥ 204)
            ∧ ((ppu_main s.1 clocks speed_hack s.2).1.current_mode ≠ .mode_hblank →
                (ppu_main s.1 clocks speed_hack s.2).1.ppu_inner_clock
                  = s.1.ppu_inner_clock + ((clocks * speed_hack : Nat) : Int) - 205)) := by
  intro s ideal
  have hrun := ppu_run_follows_80_172_204 calls (ppu, mem) 0
    (by show ppu.ppu_inner_clock = 0 + carried_cycle ppu.current_mode
        rw [hclock, hmode]; rfl)
    (le_refl _) (dvd_zero _) hcalls hfit
  simp only [hmode] at hrun
  obtain ⟨hview, hpos, hdvd⟩ := hrun
  have hm : s.1.current_mode = ideal.1 := congrArg (fun v => v.1) hview
  have hc : s.1.ppu_inner_clock = ideal.2.1 + carried_cycle ideal.1 :=
    congrArg (fun v => v.2.1) hview
  have hl : s.2.get_memory_byte LY_ADDRESS = ideal.2.2 := congrArg (fun v => v.2.2) hview
  refine ⟨hm, hl, hc, hpos, hdvd, ?_⟩
  intro clocks speed_hack hadd hfit2
  obtain ⟨-, -, -, ha, hb, hd⟩ := ppu_main_follows_80_172_204 s.1 s.2 clocks speed_hack
    ideal.2.1 (by rw [hc, hm]) hpos hdvd hadd hfit2
  exact ⟨ha, hb, hd⟩

set_option maxRecDepth 100000 in
theorem scanline_run_19_calls :
    scanline_fits (List.replicate 19 (4, 1)) (.mode_oam_search, 0, 0) = true
      ∧ scanline_run_80_172_204 (List.replicate 19 (4, 1)) (.mode_oam_search, 0, 0)
        = (.mode_oam_search, 76, 0)
      ∧ ∀ c ∈ List.replicate 19 ((4, 1) : Nat × Nat), 4 ∣ c.1 * c.2 := by
  decide

/-- What the statement on the thresholds gives in a state that has accumulated
76 cycles in OAM_Search, for a call with 4 cycles. -/
theorem thresholds_at_76 (s : Ppu × Memory) (ideal : PpuMode × Int × Nat)
    (hideal : ideal = (.mode_oam_search, 76, 0))
    (h : s.1.current_mode = ideal.1
      ∧ s.2.get_memory_byte LY_ADDRESS = ideal.2.2
      ∧ s.1.ppu_inner_clock = ideal.2.1 + carried_cycle ideal.1
      ∧ 0 ≤ ideal.2.1 ∧ 4 ∣ ideal.2.1
      ∧ ∀ clocks speed_hack : Nat, 4 ∣ clocks * speed_hack →
          s.1.ppu_inner_clock + ((clocks * speed_hack : Nat) : Int) ≤ 2147483647 →
          (s.1.current_mode = .mode_oam_search →
            ((ppu_main s.1 clocks speed_hack s.2).1.current_mode = .mode_pixel_transfer
                ↔ ideal.2.1 + ((clocks * speed_hack : Nat) : Int) ≥ 80)
            ∧ ((ppu_main s.1 clocks speed_hack s.2).1.current_mode = .mode_pixel_transfer →
                (ppu_main s.1 clocks speed_hack s.2).1.ppu_inner_clock
                  = s.1.ppu_inner_clock + ((clocks * speed_hack : Nat) : Int) - 79))
          ∧ (s.1.current_mode = .mode_pixel_transfer →
            ((ppu_main s.1 clocks speed_hack s.2).1.current_mode = .mode_hblank
                ↔ ideal.2.1 + ((clocks * speed_hack : Nat) : Int) ≥ 172)
            ∧ ((ppu_main s.1 clocks speed_hack s.2).1.current_mode = .mode_hblank →
                (ppu_main s.1 clocks speed_hack s.2).1.ppu_inner_clock
                  = s.1.ppu_inner_clock + ((clocks * speed_hack : Nat) : Int) - 172))
          ∧ (s.1.current_mode = .mode_hblank →
            ((ppu_main s.1 clocks speed_hack s.2).1.current_mode ≠ .mode_hblank
                ↔ ideal.2.1 + ((clocks * speed_hack : Nat) : Int) ≥ 204)
            ∧ ((ppu_main s.1 clocks speed_hack s.2).1.current_mode ≠ .mode_hblank →
                (ppu_main s.1 clocks speed_hack s.2).1.ppu_inner_clock
                  = s.1.ppu_inner_clock + ((clocks * speed_hack : Nat) : Int) - 205))) :
    s.1.current_mode = .mode_oam_search
      ∧ s.1.ppu_inner_clock = 76
      ∧ (ppu_main s.1 4 1 s.2).1.current_mode = .mode_pixel_transfer
      ∧ (ppu_main s.1 4 1 s.2).1.ppu_inner_clock = 1 := by
  subst hideal
  obtain ⟨hm, -, hc, -, -, hnext⟩ := h
  have hc2 : s.1.ppu_inner_clock = 76 := by rw [hc]; rfl
  obtain ⟨hiff, hsub⟩ := (hnext 4 1 (by decide) (by rw [hc2]; decide)).1 hm
  have hpt := hiff.2 (by decide)
  refine ⟨hm, hc2, hpt, ?_⟩
  rw [hsub hpt, hc2]
  rfl

/-- The first scanline after power-on in calls of 4 T-cycles: after 19 calls the
PPU is in OAM_Search with 76 cycles accumulated, and the 20th call, with which 80
cycles have accumulated, enters Pixel_Transfer and leaves 76 + 4 - 79 = 1 on the
inner clock. -/
theorem ppu_main_leaves_modes_at_80_172_204_witness :
    (ppu_run (List.replicate 19 (4, 1)) (Ppu.power_on, Memory.zeroed)).1.current_mode
        = .mode_oam_search
      ∧ (ppu_run (List.replicate 19 (4, 1)) (Ppu.power_on, Memory.zeroed)).1.ppu_inner_clock
        = 76
      ∧ (ppu_main (ppu_run (List.replicate 19 (4, 1)) (Ppu.power_on, Memory.zeroed)).1 4 1
          (ppu_run (List.replicate 19 (4, 1)) (Ppu.power_on, Memory.zeroed)).2).1.current_mode
        = .mode_pixel_transfer
      ∧ (ppu_main (ppu_run (List.replicate 19 (4, 1)) (Ppu.power_on, Memory.zeroed)).1 4 1
          (ppu_run (List.replicate 19 (4, 1)) (Ppu.power_on, Memory.zeroed)).2).1.ppu_inner_clock
        = 1 :=
  thresholds_at_76 (ppu_run (List.replicate 19 (4, 1)) (Ppu.power_on, Memory.zeroed))
    (scanline_run_80_172_204 (List.replicate 19 (4, 1))
      (.mode_oam_search, 0, Memory.zeroed.get_memory_byte LY_ADDRESS))
    scanline_run_19_calls.2.1
    (ppu_main_leaves_modes_at_80_172_204 Ppu.power_on Memory.zeroed (List.replicate 19 (4, 1))
      rfl rfl scanline_run_19_calls.2.2
      (clock_fits_int_of_scanline_fits _ _
        (by rw [ppu_view_power_on]; exact scanline_run_19_calls.1)))

/-! ## C18: one scanline in 114 calls of 4 T-cycles -/

set_option maxRecDepth 100000 in
theorem scanline_run_114_calls :
    scanline_run (List.replicate 114 (4, 1)) (.mode_oam_search, 0, 0)
      = (.mode_oam_search, 0, 1) := by
  decide

set_option maxRecDepth 100000 in
theorem scanline_trace_114_calls :
    (scanline_trace (List.replicate 114 (4, 1)) (.mode_oam_search, 0, 0)).map (fun v => v.1)
      = List.replicate 19 PpuMode.mode_oam_search
        ++ List.replicate 43 PpuMode.mode_pixel_transfer
        ++ List.replicate 51 PpuMode.mode_hblank
        ++ [PpuMode.mode_oam_search] := by
  decide

/-- C18: starting from mode OAM_Search with inner clock 0 and LY = 0, 114 calls
of `ppu_main` with 4 T-cycles each (speed multiplier 1) end in mode OAM_Search
with LY = 1 and inner clock 0; the modes after the calls are 19 times OAM_Search,
43 times Pixel_Transfer, 51 times HBlank and then OAM_Search, so Pixel_Transfer
and HBlank are each visited exactly once. -/
theorem ppu_main_one_scanline_in_114_calls (ppu : Ppu) (mem : Memory)
    (hmode : ppu.current_mode = .mode_oam_search) (hclock : ppu.ppu_inner_clock = 0)
    (hly : mem.get_memory_byte LY_ADDRESS = 0) :
    (ppu_run (List.replicate 114 (4, 1)) (ppu, mem)).1.current_mode = .mode_oam_search
    ∧ (ppu_run (List.replicate 114 (4, 1)) (ppu, mem)).2.get_memory_byte LY_ADDRESS = 1
    ∧ (ppu_run (List.replicate 114 (4, 1)) (ppu, mem)).1.ppu_inner_clock = 0
    ∧ (ppu_trace (List.replicate 114 (4, 1)) (ppu, mem)).map (fun s => s.1.current_mode)
        = List.replicate 19 PpuMode.mode_oam_search
          ++ List.replicate 43 PpuMode.mode_pixel_transfer
          ++ List.replicate 51 PpuMode.mode_hblank
          ++ [PpuMode.mode_oam_search] := by
  have hv : ppu_view (ppu, mem) = (.mode_oam_search, 0, 0) := by
    unfold ppu_view
    simp only [hmode, hclock, hly]
  have hrun := ppu_run_view (List.replicate 114 (4, 1)) (ppu, mem)
  rw [hv] at hrun
  rw [scanline_run_114_calls] at hrun
  have htrace := ppu_trace_view (List.replicate 114 (4, 1)) (ppu, mem)
  rw [hv] at htrace
  have hmodes : (ppu_trace (List.replicate 114 (4, 1)) (ppu, mem)).map
      (fun s => s.1.current_mode)
      = List.replicate 19 PpuMode.mode_oam_search
        ++ List.replicate 43 PpuMode.mode_pixel_transfer
        ++ List.replicate 51 PpuMode.mode_hblank
        ++ [PpuMode.mode_oam_search] := by
    rw [← scanline_trace_114_calls, ← htrace, List.map_map]
    apply List.map_congr_left
    intro s _
    rfl
  refine ⟨?_, ?_, ?_, hmodes⟩
  · generalize ppu_run (List.replicate 114 (4, 1)) (ppu, mem) = s at hrun
    exact congrArg (fun v => v.1) hrun
  · generalize ppu_run (List.replicate 114 (4, 1)) (ppu, mem) = s at hrun
    exact congrArg (fun v => v.2.2) hrun
  · generalize ppu_run (List.replicate 114 (4, 1)) (ppu, mem) = s at hrun
    exact congrArg (fun v => v.2.1) hrun

/-- Witness of C18: the power-on PPU on a zeroed memory. -/
theorem ppu_main_one_scanline_in_114_calls_witness :
    (ppu_run (List.replicate 114 (4, 1)) (Ppu.power_on, Memory.zeroed)).1.current_mode
        = .mode_oam_search
      ∧ (ppu_run (List.replicate 114 (4, 1)) (Ppu.power_on, Memory.zeroed)).2.get_memory_byte
          LY_ADDRESS = 1 := by
  have h := ppu_main_one_scanline_in_114_calls Ppu.power_on Memory.zeroed rfl rfl (by decide)
  exact ⟨h.1, h.2.1⟩

/-! ## C19: the range of LY -/

set_option maxRecDepth 1000000 in
theorem stat_bits_after_set_mode : ∀ s < 256, ∀ m < 4,
    (((s &&& 0xFC) ||| (m &&& 0x03)) % 256) &&& 0x03 = m := by
  decide

set_option maxRecDepth 1000000 in
theorem stat_bits_after_or_04 : ∀ s < 256, ((s ||| 0x04) % 256) &&& 0x03 = s &&& 0x03 := by
  decide

set_option maxRecDepth 1000000 in
theorem stat_bits_after_and_fb : ∀ s < 256, ((s &&& 0xFB) % 256) &&& 0x03 = s &&& 0x03 := by
  decide

theorem PpuMode.value_lt (mode : PpuMode) : mode.value < 4 := by
  cases mode <;> decide

/-- A call of `set_mode` that changes the mode leaves the new mode in STAT bits
0-1. -/
theorem set_mode_stat_bits (ppu : Ppu) (mode : PpuMode) (mem : Memory)
    (h : ppu.current_mode ≠ mode) :
    (set_mode ppu mode mem).2.get_memory_byte STAT_ADDRESS &&& 0x03 = mode.value := by
  unfold set_mode
  simp only [h, if_false]
  rw [get_memory_byte_set_memory_byte, if_pos rfl]
  exact stat_bits_after_set_mode _ (get_memory_byte_lt mem _) _ mode.value_lt

theorem update_lyc_stat_bits (mem : Memory) :
    (update_lyc mem).get_memory_byte STAT_ADDRESS &&& 0x03
      = mem.get_memory_byte STAT_ADDRESS &&& 0x03 := by
  unfold update_lyc
  by_cases h : mem.get_memory_byte LY_ADDRESS = mem.get_memory_byte LYC_ADDRESS
  · simp only [h, if_true]
    rw [get_memory_byte_set_memory_byte, if_pos rfl]
    exact stat_bits_after_or_04 _ (get_memory_byte_lt mem _)
  · simp only [h, if_false]
    rw [get_memory_byte_set_memory_byte, if_pos rfl]
    exact stat_bits_after_and_fb _ (get_memory_byte_lt mem _)

theorem h_blank_get_memory_byte (mem : Memory) (a : Nat) (ha : a % 65536 ≠ 0xFF44) :
    (h_blank mem).get_memory_byte a = mem.get_memory_byte a := by
  unfold h_blank
  rw [get_memory_byte_set_memory_byte, if_neg (by simpa [LY_ADDRESS] using ha)]

theorem v_blank_get_memory_byte (ppu : Ppu) (mem : Memory) (a : Nat)
    (ha : a % 65536 ≠ 0xFF44) :
    (v_blank ppu mem).get_memory_byte a = mem.get_memory_byte a := by
  unfold v_blank
  rw [get_memory_byte_set_memory_byte, if_neg (by simpa [LY_ADDRESS] using ha)]

/-- After `ppu_main`, STAT bits 0-1 hold the new mode when the call changed the
mode, and are as before when it did not. -/
theorem ppu_main_stat_bits (ppu : Ppu) (clocks speed_hack : Nat) (mem : Memory) :
    (ppu_main ppu clocks speed_hack mem).2.get_memory_byte STAT_ADDRESS &&& 0x03
      = if (ppu_main ppu clocks speed_hack mem).1.current_mode = ppu.current_mode then
          mem.get_memory_byte STAT_ADDRESS &&& 0x03
        else (ppu_main ppu clocks speed_hack mem).1.current_mode.value := by
  have hri : (reset_interrupt_registers mem).get_memory_byte STAT_ADDRESS
      = mem.get_memory_byte STAT_ADDRESS :=
    reset_interrupt_registers_get_memory_byte mem _ (by decide)
  have hpt : ∀ m : Memory, (pixel_transfer m).get_memory_byte STAT_ADDRESS
      = m.get_memory_byte STAT_ADDRESS :=
    fun m => pixel_transfer_get_memory_byte m _ (by decide)
  have hhb : ∀ m : Memory, (h_blank m).get_memory_byte STAT_ADDRESS
      = m.get_memory_byte STAT_ADDRESS :=
    fun m => h_blank_get_memory_byte m _ (by decide)
  have hvb : ∀ (p : Ppu) (m : Memory), (v_blank p m).get_memory_byte STAT_ADDRESS
      = m.get_memory_byte STAT_ADDRESS :=
    fun p m => v_blank_get_memory_byte p m _ (by decide)
  have hset : ∀ (m : Memory) (v : Nat), (m.set_memory_byte LY_ADDRESS v).get_memory_byte
      STAT_ADDRESS = m.get_memory_byte STAT_ADDRESS := by
    intro m v
    rw [get_memory_byte_set_memory_byte, if_neg (by decide)]
  unfold ppu_main Ppu.add_time
  dsimp only
  generalize to_int32 (ppu.ppu_inner_clock + ((clocks * speed_hack : Nat) : Int)) = clk
  simp only [update_lyc_stat_bits]
  cases hm : ppu.current_mode
  · -- HBlank
    by_cases hc : clk ≥ 205
    · by_cases hl : (h_blank (reset_interrupt_registers mem)).get_memory_byte LY_ADDRESS
          ≥ SCREEN_HEIGHT
      · simp [hc, hl, set_mode_current_mode, set_mode_stat_bits, PpuMode.value]
      · simp [hc, hl, set_mode_current_mode, set_mode_stat_bits, PpuMode.value]
    · simp [hc, hri]
  · -- VBlank
    by_cases hc : clk ≥ 4560
    · have hlt : ¬ clk < 4560 := by omega
      simp [hc, hlt, hset, set_mode_current_mode, set_mode_stat_bits, PpuMode.value]
    · have hlt : clk < 4560 := by omega
      simp [hc, hlt, hvb, hri]
  · -- OAM search
    by_cases hc : clk ≥ 79
    · simp [hc, set_mode_current_mode, set_mode_stat_bits, PpuMode.value]
    · simp [hc, hri]
  · -- pixel transfer
    by_cases hc : clk ≥ 172
    · simp [hc, hpt, set_mode_current_mode, set_mode_stat_bits, PpuMode.value]
    · simp [hc, hri]

/-! ## Power-on memory -/

/-- The zeroing loop of `Motherboard::power_on`, run to its end, leaves 0x00 at
every address it passes. -/
theorem zero_ram_loop_get_memory_byte (a : Nat) (ha : a < 0xFFFF) :
    ∀ (fuel address : Nat) (mem : Memory), address ≤ 0xFFFF →
      (address ≤ a ∨ mem.get_memory_byte a = 0) → 0xFFFF ≤ address + fuel →
      (zero_ram_loop fuel address mem).get_memory_byte a = 0 := by
  intro fuel
  induction fuel with
  | zero =>
    intro address mem h1 h2 h3
    unfold zero_ram_loop
    rcases h2 with h2 | h2
    · omega
    · exact h2
  | succ k ih =>
    intro address mem h1 h2 h3
    unfold zero_ram_loop
    by_cases hlt : address < 0xFFFF
    · simp only [hlt, if_true]
      have hnext : (address + 1) % 65536 = address + 1 := Nat.mod_eq_of_lt (by omega)
      rw [hnext]
      apply ih
      · omega
      · by_cases hle : address + 1 ≤ a
        · exact Or.inl hle
        · right
          rw [get_memory_byte_set_memory_byte]
          by_cases he : a % 65536 = address % 65536
          · rw [if_pos he]
          · rw [if_neg he]
            rcases h2 with h2 | h2
            · exfalso
              apply he
              rw [Nat.mod_eq_of_lt (by omega), Nat.mod_eq_of_lt (by omega)]
              omega
            · exact h2
      · omega
    · simp only [hlt, if_false]
      rcases h2 with h2 | h2
      · omega
      · exact h2

/-- After `Motherboard::power_on` STAT and LY read 0x00. -/
theorem power_on_memory_stat_ly (mem : Memory) :
    (power_on_memory mem).get_memory_byte STAT_ADDRESS = 0
      ∧ (power_on_memory mem).get_memory_byte LY_ADDRESS = 0 := by
  have hstat := zero_ram_loop_get_memory_byte 0xFF41 (by norm_num) 0x10000 0x8000 mem
    (by norm_num) (Or.inl (by norm_num)) (by norm_num)
  have hly := zero_ram_loop_get_memory_byte 0xFF44 (by norm_num) 0x10000 0x8000 mem
    (by norm_num) (Or.inl (by norm_num)) (by norm_num)
  unfold power_on_memory STAT_ADDRESS LY_ADDRESS
  simp only [get_memory_byte_set_memory_byte]
  norm_num
  exact ⟨hstat, hly⟩

/-! ## C20: STAT bits 0-1 and the current mode -/

/-- C20, the power-on state: the PPU is in OAM_Search (value 2) while
`Motherboard::power_on` leaves STAT = 0x00, so STAT bits 0-1 are 0; after one
`ppu_main` call with 4 cycles the mode is still OAM_Search and STAT bits 0-1 are
still 0. -/
theorem power_on_stat_bits_differ_from_mode :
    Ppu.power_on.current_mode.value = 2
      ∧ (power_on_memory Memory.zeroed).get_memory_byte STAT_ADDRESS &&& 0x03 = 0
      ∧ (ppu_main Ppu.power_on 4 1 (power_on_memory Memory.zeroed)).1.current_mode.value = 2
      ∧ (ppu_main Ppu.power_on 4 1 (power_on_memory Memory.zeroed)).2.get_memory_byte
          STAT_ADDRESS &&& 0x03 = 0 := by
  have h0 := (power_on_memory_stat_ly Memory.zeroed).1
  have hview := ppu_main_view Ppu.power_on 4 1 (power_on_memory Memory.zeroed)
  have hmode : (ppu_main Ppu.power_on 4 1 (power_on_memory Memory.zeroed)).1.current_mode
      = .mode_oam_search := congrArg (fun v => v.1) hview
  have hbits := ppu_main_stat_bits Ppu.power_on 4 1 (power_on_memory Memory.zeroed)
  rw [hmode, h0] at hbits
  refine ⟨rfl, ?_, ?_, ?_⟩
  · rw [h0]; rfl
  · rw [hmode]; rfl
  · rw [hbits]; rfl

theorem ppu_run_stat_bits (calls : List (Nat × Nat)) :
    ∀ s : Ppu × Memory,
      (s.2.get_memory_byte STAT_ADDRESS &&& 0x03 = s.1.current_mode.value
        ∨ ∃ t ∈ ppu_trace calls s, t.1.current_mode ≠ s.1.current_mode) →
      (ppu_run calls s).2.get_memory_byte STAT_ADDRESS &&& 0x03
        = (ppu_run calls s).1.current_mode.value := by
  induction calls with
  | nil =>
    intro s h
    rcases h with h | ⟨t, ht, -⟩
    · exact h
    · exact absurd ht (List.not_mem_nil t)
  | cons c cs ih =>
    intro s h
    show (ppu_run cs (ppu_main s.1 c.1 c.2 s.2)).2.get_memory_byte STAT_ADDRESS &&& 0x03
      = (ppu_run cs (ppu_main s.1 c.1 c.2 s.2)).1.current_mode.value
    have hbits := ppu_main_stat_bits s.1 c.1 c.2 s.2
    apply ih
    by_cases hchg : (ppu_main s.1 c.1 c.2 s.2).1.current_mode = s.1.current_mode
    · rw [if_pos hchg] at hbits
      rcases h with h | ⟨t, ht, hne⟩
      · left
        rw [hbits, h, hchg]
      · have ht2 : t ∈ ppu_main s.1 c.1 c.2 s.2 :: ppu_trace cs (ppu_main s.1 c.1 c.2 s.2) := ht
        rcases List.mem_cons.mp ht2 with he | hin
        · exact absurd (he ▸ hchg) hne
        · right
          exact ⟨t, hin, by rw [hchg]; exact hne⟩
    · rw [if_neg hchg] at hbits
      exact Or.inl hbits

/-- C20 as amended: in every state reachable by `ppu_main` calls from a state in
which STAT bits 0-1 equal the current mode, or reached after some call has
changed the mode, STAT bits 0-1 equal the current mode (OAM_Search = 2,
Pixel_Transfer = 3, HBlank = 0, VBlank = 1): `set_mode` establishes the equality
on every mode change and `ppu_main`, `update_lyc` included, preserves it.  From
power-on this covers every state from the first mode change on. -/
theorem stat_bits_equal_mode_after_first_mode_change (ppu : Ppu) (mem : Memory)
    (calls : List (Nat × Nat))
    (h : mem.get_memory_byte STAT_ADDRESS &&& 0x03 = ppu.current_mode.value
      ∨ ∃ t ∈ ppu_trace calls (ppu, mem), t.1.current_mode ≠ ppu.current_mode) :
    (ppu_run calls (ppu, mem)).2.get_memory_byte STAT_ADDRESS &&& 0x03
      = (ppu_run calls (ppu, mem)).1.current_mode.value :=
  ppu_run_stat_bits calls (ppu, mem) h

set_option maxRecDepth 100000 in
theorem scanline_trace_20_calls :
    (PpuMode.mode_pixel_transfer, 1, 0)
      ∈ scanline_trace (List.replicate 20 (4, 1)) (.mode_oam_search, 0, 0) := by
  decide

/-- Witness of C20 as amended: from power-on, 20 calls of 4 cycles include the
first mode change, and afterwards STAT bits 0-1 equal the current mode. -/
theorem stat_bits_equal_mode_after_first_mode_change_witness :
    (ppu_run (List.replicate 20 (4, 1))
        (Ppu.power_on, power_on_memory Memory.zeroed)).2.get_memory_byte STAT_ADDRESS &&& 0x03
      = (ppu_run (List.replicate 20 (4, 1))
          (Ppu.power_on, power_on_memory Memory.zeroed)).1.current_mode.value := by
  apply stat_bits_equal_mode_after_first_mode_change
  right
  have hv : ppu_view (Ppu.power_on, power_on_memory Memory.zeroed) = (.mode_oam_search, 0, 0) := by
    unfold ppu_view
    rw [(power_on_memory_stat_ly Memory.zeroed).2]
    rfl
  have hmem := scanline_trace_20_calls
  rw [← hv, ← ppu_trace_view] at hmem
  obtain ⟨t, ht, htv⟩ := List.mem_map.mp hmem
  refine ⟨t, ht, ?_⟩
  have hmode : t.1.current_mode = .mode_pixel_transfer := congrArg (fun v => v.1) htv
  rw [hmode]
  decide

/-! ## Interrupt requests of `set_mode` and `update_lyc` -/

set_option maxRecDepth 1000000 in
theorem stat_test_10 : ∀ s < 256, ∀ m < 4,
    decide ((((s &&& 0xFC) ||| (m &&& 0x03)) &&& 0x10) ≠ 0) = s.testBit 4 := by
  decide

set_option maxRecDepth 1000000 in
theorem stat_test_20 : ∀ s < 256, ∀ m < 4,
    decide ((((s &&& 0xFC) ||| (m &&& 0x03)) &&& 0x20) ≠ 0) = s.testBit 5 := by
  decide

set_option maxRecDepth 1000000 in
theorem stat_test_0f : ∀ s < 256,
    decide ((((s &&& 0xFC) ||| (0 &&& 0x03)) &&& 0x0F) ≠ 0) = (s.testBit 3 || s.testBit 2) := by
  decide

set_option maxRecDepth 1000000 in
theorem stat_test_40 : ∀ s < 256, decide (((s ||| 0x04) &&& 0x40) ≠ 0) = s.testBit 6 := by
  decide

theorem or_byte_mod (a b : Nat) (ha : a < 256) (hb : b < 256) : (a ||| b) % 256 = a ||| b :=
  Nat.mod_eq_of_lt (Nat.or_lt_two_pow (n := 8) ha hb)

/-- IF after a call of `set_mode` that changes the mode to VBlank. -/
theorem set_mode_vblank_if (ppu : Ppu) (mem : Memory)
    (h : ppu.current_mode ≠ .mode_vblank) :
    (set_mode ppu .mode_vblank mem).2.get_memory_byte IF_ADDRESS
      = (mem.get_memory_byte IF_ADDRESS ||| 0x01)
          ||| (if (mem.get_memory_byte STAT_ADDRESS).testBit 4 then 0x02 else 0x00) := by
  have hs := get_memory_byte_lt mem STAT_ADDRESS
  have hi := get_memory_byte_lt mem IF_ADDRESS
  have ht := stat_test_10 _ hs 1 (by norm_num)
  unfold set_mode
  simp only [h, if_false]
  rw [get_memory_byte_set_memory_byte, if_neg (by decide), get_memory_byte_set_memory_byte,
    if_pos rfl]
  simp only [reduceCtorEq, false_and, and_false, false_or, or_false, true_and, if_true,
    PpuMode.value]
  by_cases hb : (mem.get_memory_byte STAT_ADDRESS).testBit 4 = true
  · have hc : (mem.get_memory_byte STAT_ADDRESS &&& 0xFC ||| 1 &&& 0x03) &&& 0x10 ≠ 0 := by
      rw [hb] at ht; exact of_decide_eq_true ht
    rw [if_pos hc, if_pos hb]
    exact or_byte_mod _ _ (Nat.or_lt_two_pow (n := 8) hi (by norm_num)) (by norm_num)
  · have hc : ¬ (mem.get_memory_byte STAT_ADDRESS &&& 0xFC ||| 1 &&& 0x03) &&& 0x10 ≠ 0 := by
      rw [Bool.not_eq_true] at hb
      rw [hb] at ht; exact of_decide_eq_false ht
    rw [if_neg hc, if_neg hb, Nat.or_zero]
    exact or_byte_mod _ _ hi (by norm_num)

/-- IF after a call of `set_mode` that changes the mode to OAM_Search. -/
theorem set_mode_oam_search_if (ppu : Ppu) (mem : Memory)
    (h : ppu.current_mode ≠ .mode_oam_search) :
    (set_mode ppu .mode_oam_search mem).2.get_memory_byte IF_ADDRESS
      = mem.get_memory_byte IF_ADDRESS
          ||| (if (mem.get_memory_byte STAT_ADDRESS).testBit 5 then 0x02 else 0x00) := by
  have hs := get_memory_byte_lt mem STAT_ADDRESS
  have hi := get_memory_byte_lt mem IF_ADDRESS
  have ht := stat_test_20 _ hs 2 (by norm_num)
  unfold set_mode
  simp only [h, if_false]
  rw [get_memory_byte_set_memory_byte, if_neg (by decide), get_memory_byte_set_memory_byte,
    if_pos rfl]
  simp only [reduceCtorEq, false_and, and_false, false_or, or_false, true_and, if_false,
    PpuMode.value]
  by_cases hb : (mem.get_memory_byte STAT_ADDRESS).testBit 5 = true
  · have hc : (mem.get_memory_byte STAT_ADDRESS &&& 0xFC ||| 2 &&& 0x03) &&& 0x20 ≠ 0 := by
      rw [hb] at ht; exact of_decide_eq_true ht
    rw [if_pos hc, if_pos hb]
    exact or_byte_mod _ _ hi (by norm_num)
  · have hc : ¬ (mem.get_memory_byte STAT_ADDRESS &&& 0xFC ||| 2 &&& 0x03) &&& 0x20 ≠ 0 := by
      rw [Bool.not_eq_true] at hb
      rw [hb] at ht; exact of_decide_eq_false ht
    rw [if_neg hc, if_neg hb, Nat.or_zero]
    exact Nat.mod_eq_of_lt hi

/-- IF after a call of `set_mode` that changes the mode to HBlank: the request
is raised when STAT bit 3 or STAT bit 2 is set. -/
theorem set_mode_hblank_if (ppu : Ppu) (mem : Memory)
    (h : ppu.current_mode ≠ .mode_hblank) :
    (set_mode ppu .mode_hblank mem).2.get_memory_byte IF_ADDRESS
      = mem.get_memory_byte IF_ADDRESS
          ||| (if (mem.get_memory_byte STAT_ADDRESS).testBit 3
                  || (mem.get_memory_byte STAT_ADDRESS).testBit 2 then 0x02 else 0x00) := by
  have hs := get_memory_byte_lt mem STAT_ADDRESS
  have hi := get_memory_byte_lt mem IF_ADDRESS
  have ht := stat_test_0f _ hs
  unfold set_mode
  simp only [h, if_false]
  rw [get_memory_byte_set_memory_byte, if_neg (by decide), get_memory_byte_set_memory_byte,
    if_pos rfl]
  simp only [reduceCtorEq, false_and, and_false, false_or, or_false, true_and, if_false,
    PpuMode.value]
  by_cases hb : ((mem.get_memory_byte STAT_ADDRESS).testBit 3
      || (mem.get_memory_byte STAT_ADDRESS).testBit 2) = true
  · have hc : (mem.get_memory_byte STAT_ADDRESS &&& 0xFC ||| 0 &&& 0x03) &&& 0x0F ≠ 0 := by
      rw [hb] at ht; exact of_decide_eq_true ht
    rw [if_pos hc, if_pos hb]
    exact or_byte_mod _ _ hi (by norm_num)
  · have hc : ¬ (mem.get_memory_byte STAT_ADDRESS &&& 0xFC ||| 0 &&& 0x03) &&& 0x0F ≠ 0 := by
      rw [Bool.not_eq_true] at hb
      rw [hb] at ht; exact of_decide_eq_false ht
    rw [if_neg hc, if_neg hb, Nat.or_zero]
    exact Nat.mod_eq_of_lt hi

theorem testBit_or_01 (a j : Nat) : (a ||| 0x01).testBit j = (a.testBit j || decide (j = 0)) := by
  have h := testBit_set_bit a 0 j
  rw [show (1 <<< 0 : Nat) = 0x01 from rfl] at h
  rw [h]
  by_cases hj : j = 0 <;> simp [hj, eq_comm]

theorem testBit_or_02 (a j : Nat) : (a ||| 0x02).testBit j = (a.testBit j || decide (j = 1)) := by
  have h := testBit_set_bit a 1 j
  rw [show (1 <<< 1 : Nat) = 0x02 from rfl] at h
  rw [h]
  by_cases hj : j = 1 <;> simp [hj, eq_comm]

theorem testBit_or_if_02 (a j : Nat) (c : Bool) :
    (a ||| (if c then 0x02 else 0x00)).testBit j = (a.testBit j || (c && decide (j = 1))) := by
  cases c
  · simp
  · simp only [if_true, Bool.true_and]
    exact testBit_or_02 a j

/-! ## C21: requests raised on entering VBlank and OAM_Search -/

/-- C21: when `set_mode` changes the mode to VBlank it sets IF bit 0 and sets IF
bit 1 exactly when STAT bit 4 is set; when it changes the mode to OAM_Search it
sets IF bit 1 exactly when STAT bit 5 is set and does not touch IF bit 0; all
other IF bits keep their value. -/
theorem set_mode_vblank_oam_search_requests (ppu : Ppu) (mem : Memory) :
    (ppu.current_mode ≠ .mode_vblank →
      ((set_mode ppu .mode_vblank mem).2.get_memory_byte IF_ADDRESS).testBit 0 = true
      ∧ ((set_mode ppu .mode_vblank mem).2.get_memory_byte IF_ADDRESS).testBit 1
          = ((mem.get_memory_byte IF_ADDRESS).testBit 1
              || (mem.get_memory_byte STAT_ADDRESS).testBit 4)
      ∧ ∀ j, 2 ≤ j →
          ((set_mode ppu .mode_vblank mem).2.get_memory_byte IF_ADDRESS).testBit j
            = (mem.get_memory_byte IF_ADDRESS).testBit j)
    ∧ (ppu.current_mode ≠ .mode_oam_search →
      ((set_mode ppu .mode_oam_search mem).2.get_memory_byte IF_ADDRESS).testBit 0
          = (mem.get_memory_byte IF_ADDRESS).testBit 0
      ∧ ((set_mode ppu .mode_oam_search mem).2.get_memory_byte IF_ADDRESS).testBit 1
          = ((mem.get_memory_byte IF_ADDRESS).testBit 1
              || (mem.get_memory_byte STAT_ADDRESS).testBit 5)
      ∧ ∀ j, 2 ≤ j →
          ((set_mode ppu .mode_oam_search mem).2.get_memory_byte IF_ADDRESS).testBit j
            = (mem.get_memory_byte IF_ADDRESS).testBit j) := by
  refine ⟨fun h => ?_, fun h => ?_⟩
  · rw [set_mode_vblank_if ppu mem h]
    refine ⟨?_, ?_, ?_⟩
    · rw [testBit_or_if_02, testBit_or_01]; simp
    · rw [testBit_or_if_02, testBit_or_01]; simp
    · intro j hj
      rw [testBit_or_if_02, testBit_or_01]
      have h0 : ¬ j = 0 := by omega
      have h1 : ¬ j = 1 := by omega
      simp [h0, h1]
  · rw [set_mode_oam_search_if ppu mem h]
    refine ⟨?_, ?_, ?_⟩
    · rw [testBit_or_if_02]; simp
    · rw [testBit_or_if_02]; simp
    · intro j hj
      rw [testBit_or_if_02]
      have h1 : ¬ j = 1 := by omega
      simp [h1]

/-- Witness of C21: with STAT = 0x50 (bit 4 set, bit 5 clear) and IF = 0x00,
entering VBlank from OAM_Search leaves IF = 0x03 and entering OAM_Search from
Pixel_Transfer leaves IF = 0x00. -/
theorem set_mode_vblank_oam_search_requests_witness :
    (set_mode Ppu.power_on .mode_vblank stat_50_memory).2.get_memory_byte IF_ADDRESS = 0x03
      ∧ ((set_mode Ppu.power_on .mode_vblank stat_50_memory).2.get_memory_byte
          IF_ADDRESS).testBit 0 = true
      ∧ (set_mode ppu_pixel_transfer .mode_oam_search stat_50_memory).2.get_memory_byte
          IF_ADDRESS = 0x00 := by
  have h := set_mode_vblank_oam_search_requests Ppu.power_on stat_50_memory
  exact ⟨by decide, (h.1 (by decide)).1, by decide⟩

/-! ## C22: the request raised on entering HBlank -/

/-- C22, the code with STAT = 0x07 (coincidence bit 2 set, bit 3 clear) and
IF = 0x00: changing the mode from Pixel_Transfer to HBlank sets IF bit 1,
although STAT bit 3 is clear. -/
theorem set_mode_hblank_stat_07_raises_request :
    ppu_pixel_transfer.current_mode = .mode_pixel_transfer
      ∧ stat_07_memory.get_memory_byte STAT_ADDRESS = 0x07
      ∧ (stat_07_memory.get_memory_byte STAT_ADDRESS).testBit 3 = false
      ∧ (stat_07_memory.get_memory_byte IF_ADDRESS).testBit 1 = false
      ∧ (set_mode ppu_pixel_transfer .mode_hblank stat_07_memory).1.current_mode = .mode_hblank
      ∧ (set_mode ppu_pixel_transfer .mode_hblank stat_07_memory).2.get_memory_byte IF_ADDRESS
          = 0x02
      ∧ ((set_mode ppu_pixel_transfer .mode_hblank stat_07_memory).2.get_memory_byte
          IF_ADDRESS).testBit 1 = true := by
  have h := set_mode_hblank_if ppu_pixel_transfer stat_07_memory (by decide)
  have hs : stat_07_memory.get_memory_byte STAT_ADDRESS = 0x07 := by decide
  have hi : stat_07_memory.get_memory_byte IF_ADDRESS = 0x00 := by decide
  rw [hs, hi] at h
  have h2 : (set_mode ppu_pixel_transfer .mode_hblank stat_07_memory).2.get_memory_byte
      IF_ADDRESS = 0x02 := by rw [h]; decide
  refine ⟨rfl, hs, by rw [hs]; decide, by rw [hi]; decide, set_mode_current_mode _ _ _, h2, ?_⟩
  rw [h2]; decide

/-! ## C23: the coincidence flag -/

/-- C23: after `update_lyc`, STAT bit 2 is set exactly when LY (0xFF44) equals
LYC (0xFF45), all other STAT bits are unchanged, and IF bit 1 is raised when
LY == LYC and STAT bit 6 is set; otherwise IF is unchanged. -/
theorem update_lyc_coincidence (mem : Memory) :
    let ly := mem.get_memory_byte LY_ADDRESS
    let lyc := mem.get_memory_byte LYC_ADDRESS
    let stat := mem.get_memory_byte STAT_ADDRESS
    ((update_lyc mem).get_memory_byte STAT_ADDRESS).testBit 2 = decide (ly = lyc)
    ∧ (∀ j, j ≠ 2 → ((update_lyc mem).get_memory_byte STAT_ADDRESS).testBit j = stat.testBit j)
    ∧ (update_lyc mem).get_memory_byte IF_ADDRESS
        = if ly = lyc ∧ stat.testBit 6 = true then mem.get_memory_byte IF_ADDRESS ||| 0x02
          else mem.get_memory_byte IF_ADDRESS := by
  intro ly lyc stat
  have hs : mem.get_memory_byte STAT_ADDRESS < 256 := get_memory_byte_lt mem STAT_ADDRESS
  have hi : mem.get_memory_byte IF_ADDRESS < 256 := get_memory_byte_lt mem IF_ADDRESS
  have hhigh : ∀ j, 8 ≤ j → (mem.get_memory_byte STAT_ADDRESS).testBit j = false := by
    intro j hj
    exact Nat.testBit_lt_two_pow
      (lt_of_lt_of_le (show _ < 2 ^ 8 from hs) (Nat.pow_le_pow_right (by norm_num) hj))
  have h40 := stat_test_40 _ hs
  unfold update_lyc
  by_cases h : mem.get_memory_byte LY_ADDRESS = mem.get_memory_byte LYC_ADDRESS
  · simp only [h, if_true]
    have hstat : (mem.get_memory_byte STAT_ADDRESS ||| 0x04) % 256
        = mem.get_memory_byte STAT_ADDRESS ||| (1 <<< 2) :=
      or_byte_mod _ _ hs (by norm_num)
    refine ⟨?_, ?_, ?_⟩
    · rw [get_memory_byte_set_memory_byte, if_pos rfl, hstat, testBit_set_bit]
      simp [ly, lyc, h]
    · intro j hj
      rw [get_memory_byte_set_memory_byte, if_pos rfl, hstat, testBit_set_bit]
      have : ¬ 2 = j := fun e => hj e.symm
      simp [this, stat]
    · rw [get_memory_byte_set_memory_byte, if_neg (by decide)]
      by_cases hb : (mem.get_memory_byte STAT_ADDRESS).testBit 6 = true
      · have hc : (mem.get_memory_byte STAT_ADDRESS ||| 0x04) &&& 0x40 ≠ 0 := by
          rw [hb] at h40; exact of_decide_eq_true h40
        rw [if_pos hc, get_memory_byte_set_memory_byte, if_pos rfl]
        simp only [ly, lyc, stat, h, hb, and_self, if_true]
        exact or_byte_mod _ _ hi (by norm_num)
      · have hc : ¬ (mem.get_memory_byte STAT_ADDRESS ||| 0x04) &&& 0x40 ≠ 0 := by
          rw [Bool.not_eq_true] at hb
          rw [hb] at h40; exact of_decide_eq_false h40
        rw [if_neg hc]
        simp [ly, lyc, stat, hb]
  · simp only [h, if_false]
    have hstat : (mem.get_memory_byte STAT_ADDRESS &&& 0xFB) % 256
        = mem.get_memory_byte STAT_ADDRESS &&& (0xFF ^^^ (1 <<< 2)) :=
      Nat.mod_eq_of_lt (lt_of_le_of_lt Nat.and_le_left hs)
    refine ⟨?_, ?_, ?_⟩
    · rw [get_memory_byte_set_memory_byte, if_pos rfl, hstat, testBit_clear_bit _ _ _ (by norm_num)]
      simp [ly, lyc, h]
    · intro j hj
      rw [get_memory_byte_set_memory_byte, if_pos rfl, hstat,
        testBit_clear_bit _ _ _ (by norm_num)]
      have h2 : ¬ 2 = j := fun e => hj e.symm
      by_cases h8 : j < 8
      · simp [h2, h8, stat]
      · simp [h2, h8, stat, hhigh j (by omega)]
    · rw [get_memory_byte_set_memory_byte, if_neg (by decide)]
      simp [ly, lyc, h]

/-! ## The OAM DMA copy of `pixel_transfer` -/

/-- From the counter value `bytes` on, the DMA loop writes only into
0xFE00+bytes..0xFEA0. -/
theorem pixel_transfer_loop_get_memory_byte_below (dma_byte : Nat) (a : Nat) :
    ∀ (fuel bytes : Nat) (mem : Memory), bytes ≤ 0xA1 →
      (a % 65536 < 0xFE00 + bytes ∨ 0xFEA0 < a % 65536) →
      (pixel_transfer_loop dma_byte fuel bytes mem).get_memory_byte a = mem.get_memory_byte a := by
  intro fuel
  induction fuel with
  | zero => intro bytes mem _ _; rfl
  | succ k ih =>
    intro bytes mem hb ha
    unfold pixel_transfer_loop
    by_cases hle : bytes ≤ 0xA0
    · simp only [hle, if_true]
      have hnext : (bytes + 1) % 256 = bytes + 1 := Nat.mod_eq_of_lt (by omega)
      rw [hnext, ih (bytes + 1) _ (by omega) (by omega), get_memory_byte_set_memory_byte,
        if_neg]
      unfold OAM_TABLE_INITIAL_ADDDRESS
      omega
    · simp only [hle, if_false]

/-- Run to its end, the DMA loop leaves at 0xFE00+i, for every i from the
counter value up to 0xA0, the byte that was at `dma_byte * 0x100 + i`. -/
theorem pixel_transfer_loop_copies (dma_byte : Nat) (hd : dma_byte < 256) :
    ∀ (fuel bytes : Nat) (mem : Memory), bytes ≤ 0xA1 → 0xA1 ≤ bytes + fuel →
      ∀ i, bytes ≤ i → i ≤ 0xA0 →
        (pixel_transfer_loop dma_byte fuel bytes mem).get_memory_byte (0xFE00 + i)
          = mem.get_memory_byte (dma_byte * 0x100 + i) := by
  intro fuel
  induction fuel with
  | zero => intro bytes mem hb hf i hi1 hi2; omega
  | succ k ih =>
    intro bytes mem hb hf i hi1 hi2
    unfold pixel_transfer_loop
    have hle : bytes ≤ 0xA0 := by omega
    simp only [hle, if_true]
    have hnext : (bytes + 1) % 256 = bytes + 1 := Nat.mod_eq_of_lt (by omega)
    have hsrc : ∀ n, n ≤ 0xA0 → (dma_byte * 0x100 + n) % 65536 = dma_byte * 0x100 + n :=
      fun n hn => Nat.mod_eq_of_lt (by omega)
    rw [hnext]
    by_cases he : i = bytes
    · subst he
      rw [pixel_transfer_loop_get_memory_byte_below dma_byte _ k (i + 1) _ (by omega)
        (Or.inl (by omega)), get_memory_byte_set_memory_byte, if_pos, hsrc i hle]
      · exact Nat.mod_eq_of_lt (get_memory_byte_lt _ _)
      · unfold OAM_TABLE_INITIAL_ADDDRESS
        omega
    · rw [ih (bytes + 1) _ (by omega) (by omega) i (by omega) hi2,
        get_memory_byte_set_memory_byte, if_neg]
      unfold OAM_TABLE_INITIAL_ADDDRESS
      rw [hsrc i hi2]
      omega

/-- The DMA loop does not run out of fuel: more than the 161 iterations it makes
changes nothing. -/
theorem pixel_transfer_loop_fuel (dma_byte : Nat) :
    ∀ (fuel bytes extra : Nat) (mem : Memory), bytes ≤ 0xA1 → 0xA1 ≤ bytes + fuel →
      pixel_transfer_loop dma_byte (fuel + extra) bytes mem
        = pixel_transfer_loop dma_byte fuel bytes mem := by
  intro fuel
  induction fuel with
  | zero =>
    intro bytes extra mem hb hf
    have hbe : bytes = 0xA1 := by omega
    subst hbe
    cases extra with
    | zero => rfl
    | succ e =>
      rw [Nat.zero_add]
      unfold pixel_transfer_loop
      simp
  | succ k ih =>
    intro bytes extra mem hb hf
    rw [Nat.add_right_comm]
    unfold pixel_transfer_loop
    by_cases hle : bytes ≤ 0xA0
    · simp only [hle, if_true]
      have hnext : (bytes + 1) % 256 = bytes + 1 := Nat.mod_eq_of_lt (by omega)
      rw [hnext]
      exact ih (bytes + 1) extra _ (by omega) (by omega)
    · simp only [hle, if_false]

/-- After `pixel_transfer` every byte 0xFE00+i with i <= 0xA0 holds the byte
that was at D*0x100+i, D being the DMA register. -/
theorem pixel_transfer_copies (mem : Memory) (i : Nat) (hi : i ≤ 0xA0) :
    (pixel_transfer mem).get_memory_byte (0xFE00 + i)
      = mem.get_memory_byte (mem.get_memory_byte DMA_ADDRESS * 0x100 + i) := by
  unfold pixel_transfer
  exact pixel_transfer_loop_copies _ (get_memory_byte_lt _ _) 256 0 mem (by norm_num)
    (by norm_num) i (Nat.zero_le _) hi

/-! ## C24: OAM after the DMA copy -/

/-- C24: for every value D of the DMA register (0xFF46) and every memory image,
after `pixel_transfer` each OAM byte 0xFE00+i with 0 <= i < 0xA0 equals the byte
that was at D*0x100+i before the copy; so with D = 0xC0 and 0xC000..0xC09F
filled with 0x7E, 0xFE00..0xFE9F all read 0x7E. -/
theorem pixel_transfer_oam_matches_source (mem : Memory) :
    (∀ i, i < 0xA0 →
      (pixel_transfer mem).get_memory_byte (0xFE00 + i)
        = mem.get_memory_byte (mem.get_memory_byte DMA_ADDRESS * 0x100 + i))
    ∧ (mem.get_memory_byte DMA_ADDRESS = 0xC0 →
        (∀ i, i < 0xA0 → mem.get_memory_byte (0xC000 + i) = 0x7E) →
        ∀ i, i < 0xA0 → (pixel_transfer mem).get_memory_byte (0xFE00 + i) = 0x7E) := by
  refine ⟨fun i hi => pixel_transfer_copies mem i (by omega), fun hd hfill i hi => ?_⟩
  rw [pixel_transfer_copies mem i (by omega), hd]
  exact hfill i hi

/-- Witness of C24: in the DMA scenario memory the first and the last OAM byte
read 0x7E after the copy. -/
theorem pixel_transfer_oam_matches_source_witness :
    (pixel_transfer dma_c0_memory).get_memory_byte 0xFE00 = 0x7E
      ∧ (pixel_transfer dma_c0_memory).get_memory_byte 0xFE9F = 0x7E := by
  have hfill : ∀ i, i < 0xA0 → dma_c0_memory.get_memory_byte (0xC000 + i) = 0x7E := by
    intro i hi
    unfold dma_c0_memory Memory.get_memory_byte
    have h1 : (0xC000 + i) % 65536 = 0xC000 + i := Nat.mod_eq_of_lt (by omega)
    simp only [h1]
    rw [if_neg (by omega), if_pos (by omega)]
  have h := (pixel_transfer_oam_matches_source dma_c0_memory).2 (by decide) hfill
  exact ⟨h 0 (by norm_num), h 0x9F (by norm_num)⟩

/-! ## C25: the extent of the DMA copy -/

/-- C25, the code in the DMA scenario (D = 0xC0, page 0xC000 filled with 0x7E,
OAM and 0xFEA0 holding 0x00): the loop ends within its 161 iterations, and
after it 0xFEA0, which held 0x00, holds 0x7E, the byte of 0xC0A0: the copy
writes 161 bytes, 0xFE00..0xFEA0. -/
theorem pixel_transfer_writes_fea0 :
    dma_c0_memory.get_memory_byte DMA_ADDRESS = 0xC0
      ∧ dma_c0_memory.get_memory_byte 0xFEA0 = 0x00
      ∧ dma_c0_memory.get_memory_byte 0xC0A0 = 0x7E
      ∧ pixel_transfer_loop 0xC0 161 0 dma_c0_memory = pixel_transfer dma_c0_memory
      ∧ (pixel_transfer dma_c0_memory).get_memory_byte 0xFEA0 = 0x7E := by
  have hd : dma_c0_memory.get_memory_byte DMA_ADDRESS = 0xC0 := by decide
  have hfuel := pixel_transfer_loop_fuel 0xC0 161 0 95 dma_c0_memory (by norm_num) (by norm_num)
  have hcopy := pixel_transfer_copies dma_c0_memory 0xA0 (le_refl _)
  rw [hd] at hcopy
  refine ⟨hd, by decide, by decide, ?_, ?_⟩
  · unfold pixel_transfer
    rw [hd]
    exact hfuel.symm
  · rw [hcopy]
    decide

/-! ## Colour mixing and the background scenario -/

/-- The colour `mix_tile_colors` returns: twice the bit of the first byte plus
the bit of the second byte. -/
theorem mix_tile_colors_eq (bit one two : Nat) :
    mix_tile_colors bit one two = 2 * ((one >>> bit) % 2) + (two >>> bit) % 2 := by
  unfold mix_tile_colors
  rw [Nat.and_one_is_mod, Nat.and_one_is_mod]
  have h1 : (one >>> bit) % 2 < 2 := Nat.mod_lt _ (by norm_num)
  have h2 : (two >>> bit) % 2 < 2 := Nat.mod_lt _ (by norm_num)
  generalize (one >>> bit) % 2 = a at h1
  generalize (two >>> bit) % 2 = b at h2
  interval_cases a <;> interval_cases b <;> rfl

set_option maxRecDepth 1000000 in
theorem draw_line_background_scenario :
    draw_line 0 background_scenario_memory = (List.range 160).map (fun i => (i, 0, 2)) := by
  decide

/-! ## C26: colour index of a background pixel -/

/-- C26, the code at the scenario of the claim: for the row bytes (0xFF, 0x00)
`mix_tile_colors` returns 2, where 2*bit(byte2) + bit(byte1) is 1, and with LCDC
= 0x91, BGP = 0xE4, SCX = SCY = 0, a tile map of zeros and tile 0 row bytes
(0xFF, 0x00), `draw_line` for scanline 0 makes 160 calls whose colour is 2. -/
theorem mix_tile_colors_ff_00_is_2 :
    mix_tile_colors 7 0xFF 0x00 = 2
      ∧ 2 * ((0x00 >>> 7) % 2) + (0xFF >>> 7) % 2 = 1
      ∧ (draw_line 0 background_scenario_memory).length = 160
      ∧ ∀ c ∈ draw_line 0 background_scenario_memory, c.2.2 = 2 ∧ c.2.2 ≠ 1 := by
  refine ⟨by decide, by decide, ?_, ?_⟩
  · rw [draw_line_background_scenario]
    simp
  · intro c hc
    rw [draw_line_background_scenario] at hc
    obtain ⟨i, -, rfl⟩ := List.mem_map.mp hc
    exact ⟨rfl, by show (2 : Nat) ≠ 1; decide⟩

/-- C26 as amended: for every bit position and tile-row bytes byte1 (first) and
byte2 (second), `mix_tile_colors` yields the colour index 2*bit(byte1) +
bit(byte2); consequently with LCDC = 0x91, BGP = 0xE4, SCX = SCY = 0, a tile map
of zeros and tile 0 row bytes (0xFF, 0x00), `draw_line` for scanline 0 emits the
160 pixels (i, 0) for i = 0..159, each with colour index 2. -/
theorem mix_tile_colors_first_byte_is_high_bit :
    (∀ bit byte1 byte2 : Nat,
      mix_tile_colors bit byte1 byte2 = 2 * ((byte1 >>> bit) % 2) + (byte2 >>> bit) % 2)
    ∧ draw_line 0 background_scenario_memory = (List.range 160).map (fun i => (i, 0, 2)) :=
  ⟨mix_tile_colors_eq, draw_line_background_scenario⟩

/-! ## C27: the first line of the window -/

/-- The window pass draws nothing on a line that is not below WY. -/
theorem window_pixels_eq_nil (lcdc_byte line_number_y : Nat) (mem : Memory)
    (h : line_number_y ≤ mem.get_memory_byte WY_ADDRESS) :
    window_pixels lcdc_byte line_number_y mem = [] := by
  unfold window_pixels
  have hn : ¬ ((line_number_y : Int) - (mem.get_memory_byte WY_ADDRESS : Nat) > 0) := by omega
  simp only [hn, if_false]

set_option maxRecDepth 1000000 in
theorem draw_line_window_scenario :
    (draw_line 0 window_scenario_memory).length = 160
      ∧ (window_pixels 0xB1 1 window_scenario_memory).length = 160
      ∧ (draw_line 1 window_scenario_memory).length = 320 := by
  decide

/-- C27, the code on the line LY = WY: with LCDC = 0xB1 (bits 0 and 5 set), WY =
0 and WX = 7, the window pass makes no call on line 0, so `draw_line` makes only
the 160 calls of the background there; on line 1 the window pass makes 160 calls
and `draw_line` 320. -/
theorem window_not_drawn_on_line_wy :
    window_scenario_memory.get_memory_byte LCDC_ADDRESS = 0xB1
      ∧ window_scenario_memory.get_memory_byte WY_ADDRESS = 0
      ∧ window_scenario_memory.get_memory_byte WX_ADDRESS = 7
      ∧ window_pixels 0xB1 0 window_scenario_memory = []
      ∧ (draw_line 0 window_scenario_memory).length = 160
      ∧ (window_pixels 0xB1 1 window_scenario_memory).length = 160
      ∧ (draw_line 1 window_scenario_memory).length = 320 := by
  have h := draw_line_window_scenario
  exact ⟨by decide, by decide, by decide,
    window_pixels_eq_nil 0xB1 0 window_scenario_memory (Nat.zero_le _), h.1, h.2.1, h.2.2⟩

/-! ## C28: the line test of a sprite -/

set_option maxRecDepth 1000000 in
theorem sprite_height_eq : ∀ lcdc_byte < 256,
    sprite_height lcdc_byte = if lcdc_byte.testBit 2 then 16 else 8 := by
  decide

theorem sprite_line_test_iff (line_number_y y_position height : Nat)
    (hl : line_number_y < 144) (hy : y_position < 256) :
    sprite_line_test line_number_y y_position height = true
      ↔ 0 ≤ (line_number_y : Int) - ((y_position : Int) - 16)
        ∧ (line_number_y : Int) - ((y_position : Int) - 16) < height := by
  unfold sprite_line_test
  simp only [Bool.not_eq_true', Bool.or_eq_false_iff, decide_eq_false_iff_not]
  constructor
  · rintro ⟨h1, h2⟩
    omega
  · rintro ⟨h1, h2⟩
    constructor <;> omega

/-- C28: for every OAM entry with Y byte `y` and every visible line LY, with
height = 8 when LCDC bit 2 is clear and 16 when set, the line test of
`draw_line` lets the sprite through exactly when 0 <= LY - (y - 16) < height; a
sprite failing the test emits no pixel on that line. -/
theorem sprite_line_test_range (lcdc_byte line_number_y : Nat) (mem : Memory)
    (sprite_id : Nat) (hlcdc : lcdc_byte < 256) (hl : line_number_y < 144) :
    let y := mem.get_memory_byte ((OAM_TABLE_INITIAL_ADDDRESS + sprite_id * 4) % 65536)
    let height : Nat := if lcdc_byte.testBit 2 then 16 else 8
    sprite_height lcdc_byte = height
    ∧ (sprite_line_test line_number_y y (sprite_height lcdc_byte) = true
        ↔ 0 ≤ (line_number_y : Int) - ((y : Int) - 16)
          ∧ (line_number_y : Int) - ((y : Int) - 16) < height)
    ∧ (¬ (0 ≤ (line_number_y : Int) - ((y : Int) - 16)
          ∧ (line_number_y : Int) - ((y : Int) - 16) < height) →
        sprite_pixels lcdc_byte line_number_y mem sprite_id = []) := by
  intro y height
  have hh : sprite_height lcdc_byte = height := sprite_height_eq lcdc_byte hlcdc
  have hiff := sprite_line_test_iff line_number_y y (sprite_height lcdc_byte) hl
    (get_memory_byte_lt _ _)
  rw [hh] at hiff
  refine ⟨hh, by rw [hh]; exact hiff, fun hfail => ?_⟩
  have htest : sprite_line_test line_number_y y height = false := by
    rw [← Bool.not_eq_true]
    exact fun ht => hfail (hiff.mp ht)
  unfold sprite_pixels
  simp only [hh]
  by_cases hz : (mem.get_memory_byte ((OAM_TABLE_INITIAL_ADDDRESS + sprite_id * 4) % 65536)
      ||| mem.get_memory_byte ((OAM_TABLE_INITIAL_ADDDRESS + sprite_id * 4) % 65536 + 1)) = 0
  · rw [if_pos hz]
  · rw [if_neg hz]
    have ht2 : (!sprite_line_test line_number_y
        (mem.get_memory_byte ((OAM_TABLE_INITIAL_ADDDRESS + sprite_id * 4) % 65536)) height)
        = true := by
      show (!sprite_line_test line_number_y y height) = true
      rw [htest]; rfl
    rw [if_pos ht2]

/-- Witness of C28: the sprite of OAM entry 0 in the two-sprite memory (Y = 16,
8 lines high) passes the test on line 7 and emits nothing on line 8. -/
theorem sprite_line_test_range_witness :
    sprite_line_test 7 16 (sprite_height 0x82) = true
      ∧ sprite_pixels 0x82 8 two_sprites_memory 0 = [] := by
  have h7 := sprite_line_test_range 0x82 7 two_sprites_memory 0 (by norm_num) (by norm_num)
  have h8 := sprite_line_test_range 0x82 8 two_sprites_memory 0 (by norm_num) (by norm_num)
  have hy : two_sprites_memory.get_memory_byte ((OAM_TABLE_INITIAL_ADDDRESS + 0 * 4) % 65536)
      = 16 := by decide
  simp only [hy] at h7 h8
  exact ⟨h7.2.1.mpr (by decide), h8.2.2 (by decide)⟩

/-! ## The picture left by a sequence of calls -/

theorem frame_after_cons (c : PixelCall) (cs : List PixelCall) (frame : Nat → Nat → Nat) :
    frame_after (c :: cs) frame = frame_after cs (set_pixel_color frame c) := rfl

theorem frame_after_append (a b : List PixelCall) (frame : Nat → Nat → Nat) :
    frame_after (a ++ b) frame = frame_after b (frame_after a frame) := by
  unfold frame_after
  rw [List.foldl_append]

/-- Calls that do not name a position leave it as it is. -/
theorem frame_after_untouched (calls : List PixelCall) (px py : Nat) :
    ∀ frame : Nat → Nat → Nat, (∀ c ∈ calls, ¬ (c.1 = px ∧ c.2.1 = py)) →
      frame_after calls frame px py = frame px py := by
  induction calls with
  | nil => intro frame _; rfl
  | cons c cs ih =>
    intro frame h
    rw [frame_after_cons, ih _ (fun d hd => h d (List.mem_cons_of_mem _ hd))]
    have hc := h c (List.mem_cons_self _ _)
    unfold set_pixel_color
    rw [if_neg (fun e => hc ⟨e.1.symm, e.2.symm⟩)]

/-- Calls that name a position leave there the colour of one of them. -/
theorem frame_after_touched (calls : List PixelCall) (px py : Nat) :
    ∀ frame : Nat → Nat → Nat, (∃ c ∈ calls, c.1 = px ∧ c.2.1 = py) →
      ∃ c ∈ calls, c.1 = px ∧ c.2.1 = py ∧ frame_after calls frame px py = c.2.2 := by
  induction calls with
  | nil => intro frame h; obtain ⟨c, hc, -⟩ := h; exact absurd hc (List.not_mem_nil c)
  | cons c cs ih =>
    intro frame h
    by_cases hcs : ∃ d ∈ cs, d.1 = px ∧ d.2.1 = py
    · obtain ⟨d, hd, h1, h2, h3⟩ := ih (set_pixel_color frame c) hcs
      exact ⟨d, List.mem_cons_of_mem _ hd, h1, h2, by rw [frame_after_cons]; exact h3⟩
    · have hun : ∀ d ∈ cs, ¬ (d.1 = px ∧ d.2.1 = py) := fun d hd hh => hcs ⟨d, hd, hh⟩
      obtain ⟨d, hd, h1, h2⟩ := h
      have hdc : d = c := by
        rcases List.mem_cons.mp hd with e | e
        · exact e
        · exact absurd ⟨h1, h2⟩ (hun d e)
      subst hdc
      refine ⟨d, List.mem_cons_self _ _, h1, h2, ?_⟩
      rw [frame_after_cons, frame_after_untouched cs px py _ hun]
      unfold set_pixel_color
      rw [if_pos ⟨h1.symm, h2.symm⟩]

/-! ## What a sprite draws -/

theorem mem_sprite_column (sprite_x : Int) (line_number_y : Nat) (flip_x flip_y : Bool)
    (one two x : Nat) (c : PixelCall)
    (h : c ∈ sprite_column sprite_x line_number_y flip_x flip_y one two x) :
    0 ≤ sprite_x + x
      ∧ c = ((sprite_x + x).toNat, line_number_y,
          mix_tile_colors (sprite_pixel_bit flip_x flip_y x) one two)
      ∧ c.2.2 ≠ 0 := by
  unfold sprite_column at h
  by_cases hr : sprite_x + x < 0 ∨ sprite_x + x ≥ SCREEN_WIDTH
  · rw [if_pos hr] at h; exact absurd h (List.not_mem_nil c)
  · rw [if_neg hr] at h
    by_cases h0 : mix_tile_colors (sprite_pixel_bit flip_x flip_y x) one two = 0
    · simp only [h0, if_true] at h; exact absurd h (List.not_mem_nil c)
    · simp only [h0, if_false] at h
      have hc := List.mem_singleton.mp h
      refine ⟨by omega, hc, ?_⟩
      rw [hc]; exact h0

/-- The calls of one sprite are those of its eight columns, or none. -/
theorem sprite_pixels_cases (lcdc_byte line_number_y : Nat) (mem : Memory) (sprite_id : Nat) :
    sprite_pixels lcdc_byte line_number_y mem sprite_id = []
      ∨ ∃ (sprite_x : Int) (flip_x flip_y : Bool) (one two : Nat),
          sprite_pixels lcdc_byte line_number_y mem sprite_id
            = (List.range PIXELS_PER_TILELINE).flatMap
                (sprite_column sprite_x line_number_y flip_x flip_y one two) := by
  unfold sprite_pixels
  simp only
  split_ifs
  · exact Or.inl rfl
  · exact Or.inl rfl
  · exact Or.inl rfl
  · exact Or.inr ⟨_, _, _, _, _, rfl⟩

/-- Every call of a sprite is on the line drawn and has a non-zero colour, and a
sprite makes at most one call for a screen column. -/
theorem sprite_pixels_calls (lcdc_byte line_number_y : Nat) (mem : Memory) (sprite_id : Nat) :
    (∀ c ∈ sprite_pixels lcdc_byte line_number_y mem sprite_id,
        c.2.1 = line_number_y ∧ c.2.2 ≠ 0)
    ∧ ∀ c ∈ sprite_pixels lcdc_byte line_number_y mem sprite_id,
        ∀ d ∈ sprite_pixels lcdc_byte line_number_y mem sprite_id, c.1 = d.1 → c = d := by
  rcases sprite_pixels_cases lcdc_byte line_number_y mem sprite_id with h | ⟨sx, fx, fy, o, t, h⟩
  · rw [h]
    exact ⟨fun c hc => absurd hc (List.not_mem_nil c), fun c hc => absurd hc (List.not_mem_nil c)⟩
  · rw [h]
    refine ⟨fun c hc => ?_, fun c hc d hd hcd => ?_⟩
    · obtain ⟨x, -, hx⟩ := List.mem_flatMap.mp hc
      obtain ⟨-, h2, h3⟩ := mem_sprite_column _ _ _ _ _ _ _ _ hx
      exact ⟨by rw [h2], h3⟩
    · obtain ⟨x, -, hx⟩ := List.mem_flatMap.mp hc
      obtain ⟨y, -, hy⟩ := List.mem_flatMap.mp hd
      obtain ⟨hx1, hx2, -⟩ := mem_sprite_column _ _ _ _ _ _ _ _ hx
      obtain ⟨hy1, hy2, -⟩ := mem_sprite_column _ _ _ _ _ _ _ _ hy
      have hxy : x = y := by
        rw [hx2, hy2] at hcd
        have : (sx + (x : Int)).toNat = (sx + (y : Int)).toNat := hcd
        omega
      rw [hx2, hy2, hxy]

/-- Drawing the sprites n-1, ..., 0 in this order leaves at a position the
colour drawn there by the lowest-numbered sprite that draws there. -/
theorem frame_after_sprites (draws : Nat → List PixelCall) (px py : Nat) (k : Nat)
    (hbelow : ∀ j, j < k → ∀ c ∈ draws j, ¬ (c.1 = px ∧ c.2.1 = py))
    (hk : ∃ c ∈ draws k, c.1 = px ∧ c.2.1 = py) :
    ∀ (n : Nat) (frame : Nat → Nat → Nat), k < n →
      ∃ c ∈ draws k, c.1 = px ∧ c.2.1 = py
        ∧ frame_after ((List.range n).reverse.flatMap draws) frame px py = c.2.2 := by
  intro n
  induction n with
  | zero => intro frame h; omega
  | succ m ih =>
    intro frame h
    have hlist : (List.range (m + 1)).reverse.flatMap draws
        = draws m ++ (List.range m).reverse.flatMap draws := by
      rw [List.range_succ, List.reverse_append]
      simp
    rw [hlist, frame_after_append]
    by_cases hkm : k < m
    · exact ih _ hkm
    · have hkeq : k = m := by omega
      subst hkeq
      have hrest : ∀ c ∈ (List.range k).reverse.flatMap draws, ¬ (c.1 = px ∧ c.2.1 = py) := by
        intro c hc
        obtain ⟨j, hj, hcj⟩ := List.mem_flatMap.mp hc
        have hjk : j < k := List.mem_range.mp (List.mem_reverse.mp hj)
        exact hbelow j hjk c hcj
      rw [frame_after_untouched _ px py _ hrest]
      exact frame_after_touched (draws k) px py frame hk

theorem frame_after_no_sprite (draws : Nat → List PixelCall) (px py : Nat) (n : Nat)
    (frame : Nat → Nat → Nat)
    (hnone : ∀ j, j < n → ∀ c ∈ draws j, ¬ (c.1 = px ∧ c.2.1 = py)) :
    frame_after ((List.range n).reverse.flatMap draws) frame px py = frame px py := by
  apply frame_after_untouched
  intro c hc
  obtain ⟨j, hj, hcj⟩ := List.mem_flatMap.mp hc
  exact hnone j (List.mem_range.mp (List.mem_reverse.mp hj)) c hcj

/-! ## C29: sprite priority -/

/-- C29: for every OAM content and line, the sprite pass of `draw_line` leaves at
each screen pixel the colour of the lowest-index sprite that covers the pixel
with a non-zero colour index (a sprite draws only non-zero colours, and at most
one per screen column); where no sprite covers the pixel with a non-zero colour,
the pixel is left as the background and window passes drew it. -/
theorem sprite_pass_lowest_index_wins (lcdc_byte line_number_y : Nat) (mem : Memory)
    (frame : Nat → Nat → Nat) (px : Nat) :
    (∀ k, k < 40 →
      (∀ j, j < k → ∀ c ∈ sprite_pixels lcdc_byte line_number_y mem j,
          ¬ (c.1 = px ∧ c.2.1 = line_number_y)) →
      (∃ c ∈ sprite_pixels lcdc_byte line_number_y mem k, c.1 = px ∧ c.2.1 = line_number_y) →
      ∃ c ∈ sprite_pixels lcdc_byte line_number_y mem k,
        c.1 = px ∧ c.2.1 = line_number_y ∧ c.2.2 ≠ 0
        ∧ (∀ d ∈ sprite_pixels lcdc_byte line_number_y mem k, d.1 = px → d = c)
        ∧ frame_after (sprite_pass lcdc_byte line_number_y mem) frame px line_number_y = c.2.2)
    ∧ ((∀ k, k < 40 → ∀ c ∈ sprite_pixels lcdc_byte line_number_y mem k,
          ¬ (c.1 = px ∧ c.2.1 = line_number_y)) →
        frame_after (sprite_pass lcdc_byte line_number_y mem) frame px line_number_y
          = frame px line_number_y) := by
  refine ⟨fun k hk hbelow htouch => ?_, fun hnone => ?_⟩
  · obtain ⟨c, hc, h1, h2, h3⟩ := frame_after_sprites
      (sprite_pixels lcdc_byte line_number_y mem) px line_number_y k hbelow htouch 40 frame hk
    have hcalls := sprite_pixels_calls lcdc_byte line_number_y mem k
    exact ⟨c, hc, h1, h2, (hcalls.1 c hc).2,
      fun d hd hdx => hcalls.2 d hd c hc (hdx.trans h1.symm), h3⟩
  · exact frame_after_no_sprite _ px line_number_y 40 frame hnone

set_option maxRecDepth 1000000 in
theorem sprite_pixels_two_sprites_memory :
    sprite_pixels 0x82 0 two_sprites_memory 0
        = [(0, 0, 2), (1, 0, 2), (2, 0, 2), (3, 0, 2), (4, 0, 2), (5, 0, 2), (6, 0, 2), (7, 0, 2)]
      ∧ sprite_pixels 0x82 0 two_sprites_memory 1
        = [(0, 0, 1), (1, 0, 1), (2, 0, 1), (3, 0, 1), (4, 0, 1), (5, 0, 1), (6, 0, 1), (7, 0, 1)]
      ∧ two_sprites_memory.get_memory_byte LCDC_ADDRESS = 0x82 := by
  decide

/-- Two sprites on the same eight pixels, OAM entry 0 of colour 2 and OAM entry 1
of colour 1: the pixel at (0, 0) is left with colour 2, the colour of entry 0. -/
theorem sprite_pass_lowest_index_wins_witness :
    (∃ c ∈ sprite_pixels 0x82 0 two_sprites_memory 1, c.1 = 0 ∧ c.2.1 = 0 ∧ c.2.2 = 1)
      ∧ frame_after (sprite_pass 0x82 0 two_sprites_memory) (fun _ _ => 0) 0 0 = 2 := by
  have h0 := sprite_pixels_two_sprites_memory.1
  have h1 := sprite_pixels_two_sprites_memory.2.1
  have hmem : ((0, 0, 2) : PixelCall) ∈ sprite_pixels 0x82 0 two_sprites_memory 0 := by
    rw [h0]; exact List.mem_cons_self _ _
  refine ⟨⟨(0, 0, 1), by rw [h1]; exact List.mem_cons_self _ _, rfl, rfl, rfl⟩, ?_⟩
  obtain ⟨c, -, -, -, -, huniq, hframe⟩ :=
    (sprite_pass_lowest_index_wins 0x82 0 two_sprites_memory (fun _ _ => 0) 0).1 0 (by decide)
      (fun j hj => absurd hj (Nat.not_lt_zero j)) ⟨(0, 0, 2), hmem, rfl, rfl⟩
  have hc : ((0, 0, 2) : PixelCall) = c := huniq (0, 0, 2) hmem rfl
  rw [hframe, ← hc]

/-! ## C30: horizontal mirroring of a sprite row -/

theorem sprite_pixel_bit_eq (flip_x flip_y : Bool) (x : Nat) (hx : x < 8) :
    sprite_pixel_bit flip_x flip_y x = if flip_x || flip_y then x else 7 - x := by
  unfold sprite_pixel_bit PIXELS_PER_TILELINE
  simp only [Nat.mod_eq_of_lt hx]
  split_ifs <;> omega

set_option maxRecDepth 1000000 in
theorem draw_line_y_flip_sprite :
    y_flip_sprite_memory.get_memory_byte 0xFE03 = 0x40
      ∧ y_flip_sprite_memory.get_memory_byte 0x802E = 0x80
      ∧ y_flip_sprite_memory.get_memory_byte 0x802F = 0x00
      ∧ sprite_row 0x82 0 16 true = 15
      ∧ sprite_pixels 0x82 0 y_flip_sprite_memory 0 = [(7, 0, 2)]
      ∧ draw_line 0 y_flip_sprite_memory = [(7, 0, 2)] := by
  decide

/-- C30, the code with attribute bit 5 clear and bit 6 set (`flip_x = false`,
`flip_y = true`): sprite column x takes its colour from bit x of the two tile-row
bytes, not from bit 7-x as it does when both bits are clear.  For the sprite of
`y_flip_sprite_memory` (attribute byte 0x40, row bytes (0x80, 0x00), so only
bit 7 of the row is coloured), line 0 is drawn with the one coloured pixel in
screen column 7, not in column 0. -/
theorem sprite_y_flip_mirrors_row :
    (0x40 &&& 0x20 = 0)
      ∧ (∀ x, x < 8 → sprite_pixel_bit false true x = x)
      ∧ (∀ x, x < 8 → sprite_pixel_bit false false x = 7 - x)
      ∧ sprite_pixel_bit false true 0 ≠ 7 - 0
      ∧ y_flip_sprite_memory.get_memory_byte 0xFE03 = 0x40
      ∧ mix_tile_colors 7 0x80 0x00 = 2
      ∧ sprite_pixels 0x82 0 y_flip_sprite_memory 0 = [(7, 0, 2)]
      ∧ draw_line 0 y_flip_sprite_memory = [(7, 0, 2)] := by
  refine ⟨by decide, fun x hx => ?_, fun x hx => ?_, by decide, draw_line_y_flip_sprite.1,
    by decide, draw_line_y_flip_sprite.2.2.2.2.1, draw_line_y_flip_sprite.2.2.2.2.2⟩
  · rw [sprite_pixel_bit_eq false true x hx]; rfl
  · rw [sprite_pixel_bit_eq false false x hx]; rfl

/-! ## C33: RR -/

/-- C33, the code at two inputs.  `alu_rr` computes what `alu_rrc` computes, for
every register file and byte.  With the carry flag set (the power-on flags
F = 0xB0) and n = 0x00 it returns 0x00 and clears the carry, where
(n >> 1) | (c << 7) is 0x80; with the carry flag clear and n = 0x01 it returns
0x80, where (n >> 1) | (c << 7) is 0x00. -/
theorem alu_rr_ignores_carry_in :
    (∀ (reg : Register) (n : Nat), alu_rr reg n = alu_rrc reg n)
      ∧ Register.power_on.get_flag .f_c = true
      ∧ (alu_rr Register.power_on 0x00).1 = 0x00
      ∧ (alu_rr Register.power_on 0x00).2.get_flag .f_c = false
      ∧ ((0x00 >>> 1) ||| (bool_to_int true <<< 7)) = 0x80
      ∧ (Register.power_on.set_flag .f_c false).get_flag .f_c = false
      ∧ (alu_rr (Register.power_on.set_flag .f_c false) 0x01).1 = 0x80
      ∧ ((0x01 >>> 1) ||| (bool_to_int false <<< 7)) = 0x00 := by
  refine ⟨fun _ _ => rfl, by decide, by decide, by decide, by decide, by decide, by decide,
    by decide⟩

/-! ## IF after the PPU routines -/

/-- IF after a call of `set_mode` that changes the mode: bit 0 is raised on
entering VBlank, bit 1 may be raised, nothing else changes. -/
theorem set_mode_if (ppu : Ppu) (mode : PpuMode) (mem : Memory)
    (h : ppu.current_mode ≠ mode) :
    ∃ c : Bool, (set_mode ppu mode mem).2.get_memory_byte IF_ADDRESS
      = (mem.get_memory_byte IF_ADDRESS ||| (if mode = .mode_vblank then 0x01 else 0x00))
          ||| (if c then 0x02 else 0x00) := by
  have hi := get_memory_byte_lt mem IF_ADDRESS
  unfold set_mode
  simp only [h, if_false]
  rw [get_memory_byte_set_memory_byte, if_neg (by decide), get_memory_byte_set_memory_byte,
    if_pos rfl]
  by_cases hc : (mode = .mode_hblank
        ∧ (mem.get_memory_byte STAT_ADDRESS &&& 0xFC ||| mode.value &&& 0x03) &&& 0x0F ≠ 0)
      ∨ (mode = .mode_vblank
        ∧ (mem.get_memory_byte STAT_ADDRESS &&& 0xFC ||| mode.value &&& 0x03) &&& 0x10 ≠ 0)
      ∨ (mode = .mode_oam_search
        ∧ (mem.get_memory_byte STAT_ADDRESS &&& 0xFC ||| mode.value &&& 0x03) &&& 0x20 ≠ 0)
  · refine ⟨true, ?_⟩
    rw [if_pos hc]
    by_cases hv : mode = .mode_vblank
    · simp only [hv, if_true]
      exact or_byte_mod _ _ (Nat.or_lt_two_pow (n := 8) hi (by norm_num)) (by norm_num)
    · simp only [hv, if_false, if_true, Nat.or_zero]
      exact or_byte_mod _ _ hi (by norm_num)
  · refine ⟨false, ?_⟩
    rw [if_neg hc]
    by_cases hv : mode = .mode_vblank
    · simp only [hv, if_true, Bool.false_eq_true, if_false, Nat.or_zero]
      exact Nat.mod_eq_of_lt (Nat.or_lt_two_pow (n := 8) hi (by norm_num))
    · simp only [hv, if_false, Bool.false_eq_true, Nat.or_zero]
      exact Nat.mod_eq_of_lt hi

/-- IF after `update_lyc`: bit 1 may be raised, nothing else changes. -/
theorem update_lyc_if (mem : Memory) :
    ∃ c : Bool, (update_lyc mem).get_memory_byte IF_ADDRESS
      = mem.get_memory_byte IF_ADDRESS ||| (if c then 0x02 else 0x00) := by
  have hi := get_memory_byte_lt mem IF_ADDRESS
  unfold update_lyc
  by_cases h : mem.get_memory_byte LY_ADDRESS = mem.get_memory_byte LYC_ADDRESS
  · simp only [h, if_true]
    rw [get_memory_byte_set_memory_byte, if_neg (by decide)]
    by_cases h40 : (mem.get_memory_byte STAT_ADDRESS ||| 0x04) &&& 0x40 ≠ 0
    · refine ⟨true, ?_⟩
      rw [if_pos h40, get_memory_byte_set_memory_byte, if_pos rfl]
      exact or_byte_mod _ _ hi (by norm_num)
    · refine ⟨false, ?_⟩
      rw [if_neg h40]
      simp
  · refine ⟨false, ?_⟩
    simp only [h, if_false]
    rw [get_memory_byte_set_memory_byte, if_neg (by decide)]
    simp

theorem reset_interrupt_registers_if (mem : Memory) :
    (reset_interrupt_registers mem).get_memory_byte IF_ADDRESS
      = mem.get_memory_byte IF_ADDRESS &&& 0xFC := by
  unfold reset_interrupt_registers
  rw [get_memory_byte_set_memory_byte, if_pos rfl]
  exact Nat.mod_eq_of_lt (lt_of_le_of_lt Nat.and_le_left (get_memory_byte_lt mem IF_ADDRESS))


/-- IF after `ppu_main`: bits 0 and 1 are cleared first; bit 0 is then raised
when the call enters VBlank (which it does from HBlank only), bit 1 may be
raised, and nothing else changes. -/
theorem ppu_main_if (ppu : Ppu) (clocks speed_hack : Nat) (mem : Memory) :
    ∃ c : Bool, (ppu_main ppu clocks speed_hack mem).2.get_memory_byte IF_ADDRESS
      = ((mem.get_memory_byte IF_ADDRESS &&& 0xFC)
          ||| (if ppu.current_mode = .mode_hblank
                ∧ (ppu_main ppu clocks speed_hack mem).1.current_mode = .mode_vblank
              then 0x01 else 0x00))
        ||| (if c then 0x02 else 0x00) := by
  have hri := reset_interrupt_registers_if mem
  have hpt : ∀ m : Memory, (pixel_transfer m).get_memory_byte IF_ADDRESS
      = m.get_memory_byte IF_ADDRESS :=
    fun m => pixel_transfer_get_memory_byte m _ (by decide)
  have hhb : ∀ m : Memory, (h_blank m).get_memory_byte IF_ADDRESS
      = m.get_memory_byte IF_ADDRESS :=
    fun m => h_blank_get_memory_byte m _ (by decide)
  have hvb : ∀ (p : Ppu) (m : Memory), (v_blank p m).get_memory_byte IF_ADDRESS
      = m.get_memory_byte IF_ADDRESS :=
    fun p m => v_blank_get_memory_byte p m _ (by decide)
  have hset : ∀ (m : Memory) (v : Nat), (m.set_memory_byte LY_ADDRESS v).get_memory_byte
      IF_ADDRESS = m.get_memory_byte IF_ADDRESS := by
    intro m v
    rw [get_memory_byte_set_memory_byte, if_neg (by decide)]
  -- the two requests of bit 1 combine into one
  have hcomb : ∀ (a : Nat) (c d : Bool),
      (a ||| (if c then 0x02 else 0x00)) ||| (if d then 0x02 else 0x00)
        = a ||| (if (c || d) then 0x02 else 0x00) := by
    intro a c d
    cases c <;> cases d <;> simp [Nat.or_assoc]
  have hfinal : ∀ (p : Ppu) (m : Memory) (v : Nat),
      (∃ c : Bool, m.get_memory_byte IF_ADDRESS = v ||| (if c then 0x02 else 0x00)) →
      ∃ c : Bool, (update_lyc m).get_memory_byte IF_ADDRESS
        = v ||| (if c then 0x02 else 0x00) := by
    intro p m v hm
    obtain ⟨c, hc⟩ := hm
    obtain ⟨d, hd⟩ := update_lyc_if m
    exact ⟨c || d, by rw [hd, hc, hcomb]⟩
  unfold ppu_main Ppu.add_time
  dsimp only
  generalize to_int32 (ppu.ppu_inner_clock + ((clocks * speed_hack : Nat) : Int)) = clk
  cases hm : ppu.current_mode
  · -- HBlank
    by_cases hc : clk ≥ 205
    · by_cases hl : (h_blank (reset_interrupt_registers mem)).get_memory_byte LY_ADDRESS
          ≥ SCREEN_HEIGHT
      · simp only [hc, hl, reduceCtorEq, if_false, if_true, set_mode_current_mode, true_and]
        apply hfinal ppu
        obtain ⟨c, hc⟩ := set_mode_if
          { current_mode := .mode_hblank,
            ppu_inner_clock := clk - 205,
            ready_to_refresh := ppu.ready_to_refresh } .mode_vblank
          (h_blank (reset_interrupt_registers mem)) (by simp)
        refine ⟨c, ?_⟩
        rw [hc, hhb, hri]
        simp
      · simp only [hc, hl, reduceCtorEq, if_false, if_true, set_mode_current_mode, true_and]
        apply hfinal ppu
        obtain ⟨c, hc⟩ := set_mode_if
          { current_mode := .mode_hblank,
            ppu_inner_clock := clk - 205,
            ready_to_refresh := ppu.ready_to_refresh } .mode_oam_search
          (h_blank (reset_interrupt_registers mem)) (by simp)
        refine ⟨c, ?_⟩
        rw [hc, hhb, hri]
        simp
    · simp only [hc, reduceCtorEq, if_false, if_true, true_and]
      apply hfinal ppu
      exact ⟨false, by rw [hri]; simp⟩
  · -- VBlank
    by_cases hc : clk ≥ 4560
    · have hlt : ¬ clk < 4560 := by omega
      rw [if_neg hlt, if_pos hc]
      simp only [reduceCtorEq, false_and]
      simp only [if_false]
      simp only [if_true]
      apply hfinal ppu
      obtain ⟨c, hc⟩ := set_mode_if
        { current_mode := .mode_vblank,
          ppu_inner_clock := clk,
          ready_to_refresh := ppu.ready_to_refresh } .mode_oam_search
        (reset_interrupt_registers mem) (by simp)
      refine ⟨c, ?_⟩
      rw [hset, hc, hri]
      simp
    · have hlt : clk < 4560 := by omega
      simp only [hc, hlt, reduceCtorEq, if_false, if_true, false_and]
      apply hfinal ppu
      exact ⟨false, by rw [hvb, hri]; simp⟩
  · -- OAM search
    by_cases hc : clk ≥ 79
    · simp only [hc, reduceCtorEq, if_false, if_true, false_and]
      apply hfinal ppu
      obtain ⟨c, hc⟩ := set_mode_if
        { current_mode := .mode_oam_search,
          ppu_inner_clock := clk - 79,
          ready_to_refresh := ppu.ready_to_refresh } .mode_pixel_transfer
        (reset_interrupt_registers mem) (by simp)
      refine ⟨c, ?_⟩
      rw [hc, hri]
      simp
    · simp only [hc, reduceCtorEq, if_false, if_true, false_and]
      apply hfinal ppu
      exact ⟨false, by rw [hri]; simp⟩
  · -- pixel transfer
    by_cases hc : clk ≥ 172
    · simp only [hc, reduceCtorEq, if_false, if_true, false_and]
      apply hfinal ppu
      obtain ⟨c, hc⟩ := set_mode_if
        { current_mode := .mode_pixel_transfer,
          ppu_inner_clock := clk - 172,
          ready_to_refresh := ppu.ready_to_refresh } .mode_hblank
        (reset_interrupt_registers mem) (by simp)
      refine ⟨c, ?_⟩
      rw [hpt, hc, hri]
      simp
    · simp only [hc, reduceCtorEq, if_false, if_true, false_and]
      apply hfinal ppu
      exact ⟨false, by rw [hri]; simp⟩

/-! ## C40: IF after a call of `ppu_main` -/

theorem testBit_fc (j : Nat) : (0xFC : Nat).testBit j = decide (2 ≤ j ∧ j < 8) := by
  by_cases hj : j < 8
  · interval_cases j <;> decide
  · rw [Nat.testBit_lt_two_pow (lt_of_lt_of_le (by norm_num : (0xFC : Nat) < 2 ^ 8)
      (Nat.pow_le_pow_right (by norm_num) (by omega)))]
    simp [hj]

theorem reset_interrupt_registers_idem (mem : Memory) :
    reset_interrupt_registers (reset_interrupt_registers mem) = reset_interrupt_registers mem := by
  have h := reset_interrupt_registers_if mem
  unfold reset_interrupt_registers at h ⊢
  rw [h]
  unfold Memory.set_memory_byte
  simp only [Memory.mk.injEq]
  funext a
  by_cases ha : a = IF_ADDRESS % 65536
  · simp only [ha, if_true]
    congr 1
    rw [Nat.and_assoc, Nat.and_self]
  · simp only [ha, if_false]

/-- C40: every `ppu_main` call begins by clearing IF bits 0 and 1, so that its
result is the one it gives on the memory with these two bits cleared; for every
prior IF value, after the call IF bit 0 is set exactly when that call made the
HBlank-to-VBlank transition, and IF bits 2-7 are unchanged.  A VBlank or STAT
request still pending when `ppu_main` is called is therefore discarded. -/
theorem ppu_main_discards_pending_requests (ppu : Ppu) (clocks speed_hack : Nat)
    (mem : Memory) :
    (reset_interrupt_registers mem).get_memory_byte IF_ADDRESS
        = mem.get_memory_byte IF_ADDRESS &&& 0xFC
      ∧ ppu_main ppu clocks speed_hack mem
        = ppu_main ppu clocks speed_hack (reset_interrupt_registers mem)
      ∧ ((ppu_main ppu clocks speed_hack mem).2.get_memory_byte IF_ADDRESS).testBit 0
        = decide (ppu.current_mode = .mode_hblank
            ∧ (ppu_main ppu clocks speed_hack mem).1.current_mode = .mode_vblank)
      ∧ ∀ j, 2 ≤ j →
          ((ppu_main ppu clocks speed_hack mem).2.get_memory_byte IF_ADDRESS).testBit j
            = (mem.get_memory_byte IF_ADDRESS).testBit j := by
  obtain ⟨c, hc⟩ := ppu_main_if ppu clocks speed_hack mem
  refine ⟨reset_interrupt_registers_if mem, ?_, ?_, ?_⟩
  · unfold ppu_main
    rw [reset_interrupt_registers_idem]
  · rw [hc, testBit_or_if_02, Nat.testBit_or, Nat.testBit_and, testBit_fc]
    by_cases ht : ppu.current_mode = .mode_hblank
        ∧ (ppu_main ppu clocks speed_hack mem).1.current_mode = .mode_vblank
    · simp [ht]
    · simp [ht]
  · intro j hj
    rw [hc, testBit_or_if_02, Nat.testBit_or, Nat.testBit_and, testBit_fc]
    have h1 : (if ppu.current_mode = .mode_hblank
        ∧ (ppu_main ppu clocks speed_hack mem).1.current_mode = .mode_vblank
        then (0x01 : Nat) else 0x00).testBit j = false := by
      split_ifs
      · exact Nat.testBit_lt_two_pow (lt_of_lt_of_le (by norm_num : (1 : Nat) < 2 ^ 2)
          (Nat.pow_le_pow_right (by norm_num) hj))
      · exact Nat.zero_testBit j
    rw [h1]
    by_cases h8 : j < 8
    · have hj1 : j ≠ 1 := by omega
      simp [hj, h8, hj1]
    · have : (mem.get_memory_byte IF_ADDRESS).testBit j = false :=
        Nat.testBit_lt_two_pow (lt_of_lt_of_le (get_memory_byte_lt mem IF_ADDRESS)
          (Nat.pow_le_pow_right (by norm_num : 0 < 2) (by omega : 8 ≤ j)))
      have hj1 : j ≠ 1 := by omega
      simp [this, hj1]

/-! ## C34: ADC followed by DAA on packed BCD -/

/-- Effect of `alu_daa` on A and on the carry flag after an addition (N clear). -/
theorem alu_daa_after_addition (reg : Register) (hn : reg.get_flag .f_n = false) :
    let a := reg.get_register_byte .r_a
    let low := reg.get_flag .f_h || decide (a % 16 > 9)
    let high := reg.get_flag .f_c || decide (a > 0x99)
    (alu_daa reg).get_register_byte .r_a
        = (a + ((if low then 0x06 else 0) + (if high then 0x60 else 0))) % 256
      ∧ (alu_daa reg).get_flag .f_c = high := by
  intro a low high
  have ha : reg.get_register_byte .r_a < 256 := get_register_byte_lt reg .r_a
  unfold alu_daa
  simp only [low, high, a, and_f_eq_mod]
  by_cases hc : reg.get_flag .f_c = true <;> by_cases hh : reg.get_flag .f_h = true <;>
    by_cases h9 : reg.get_register_byte .r_a % 16 > 0x09 <;>
    by_cases h99 : reg.get_register_byte .r_a > 0x99 <;>
    simp [get_flag_set_flag, get_register_byte_set_register_byte, get_flag_set_register_byte,
      hc, hh, hn, h9, h99]

/-- ADC followed by DAA, as arithmetic on the bytes. -/
theorem alu_adc_alu_daa_effect (reg : Register) (b : Nat) (hb : b < 256) :
    let a := reg.get_register_byte .r_a
    let c := bool_to_int (reg.get_flag .f_c)
    let sum := (a + b + c) % 256
    let low := decide (a % 16 + b % 16 + c > 0xF) || decide (sum % 16 > 9)
    let high := decide (a + b + c > 0xFF) || decide (sum > 0x99)
    (alu_daa (alu_adc reg b)).get_register_byte .r_a
        = (sum + ((if low then 0x06 else 0) + (if high then 0x60 else 0))) % 256
      ∧ (alu_daa (alu_adc reg b)).get_flag .f_c = high := by
  intro a c sum low high
  obtain ⟨h1, -, h3, h4, h5⟩ := alu_adc_effect reg b hb
  have h := alu_daa_after_addition (alu_adc reg b) h3
  simp only [h1, h4, h5, and_f_eq_mod] at h
  exact h

set_option maxRecDepth 1000000 in
/-- The decimal adjustment on the sum of the high nibbles `hs` and the sum `l`
of the low nibbles and the carry, for all values these sums take. -/
theorem bcd_adjust_table : ∀ hs < 19, ∀ l < 20,
    ((16 * hs + l) % 256
        + ((if (decide (l > 0xF) || decide ((16 * hs + l) % 256 % 16 > 9)) then 0x06 else 0)
          + (if (decide (16 * hs + l > 0xFF) || decide ((16 * hs + l) % 256 > 0x99))
              then 0x60 else 0))) % 256
        = 16 * ((10 * hs + l) % 100 / 10) + (10 * hs + l) % 100 % 10
      ∧ (decide (16 * hs + l > 0xFF) || decide ((16 * hs + l) % 256 > 0x99))
        = decide (10 * hs + l ≥ 100) := by
  decide

/-- The decimal adjustment, as arithmetic: for packed-BCD bytes a and b and a
carry c, adding 0x06 and 0x60 under the two tests of `alu_daa` turns the binary
sum into the packed BCD of the decimal sum. -/
theorem bcd_adjust_arith (a b c : Nat) (ha : is_packed_bcd a) (hb : is_packed_bcd b)
    (hc : c ≤ 1) :
    ((a + b + c) % 256
        + ((if (decide (a % 16 + b % 16 + c > 0xF) || decide ((a + b + c) % 256 % 16 > 9))
              then 0x06 else 0)
          + (if (decide (a + b + c > 0xFF) || decide ((a + b + c) % 256 > 0x99))
              then 0x60 else 0))) % 256
        = bcd_encode ((bcd_value a + bcd_value b + c) % 100)
      ∧ (decide (a + b + c > 0xFF) || decide ((a + b + c) % 256 > 0x99))
        = decide (bcd_value a + bcd_value b + c ≥ 100) := by
  unfold is_packed_bcd at ha hb
  have h := bcd_adjust_table (a / 16 + b / 16) (by omega) (a % 16 + b % 16 + c) (by omega)
  have e1 : a + b + c = 16 * (a / 16 + b / 16) + (a % 16 + b % 16 + c) := by omega
  have e2 : bcd_value a + bcd_value b + c
      = 10 * (a / 16 + b / 16) + (a % 16 + b % 16 + c) := by
    unfold bcd_value
    omega
  unfold bcd_encode
  rw [e2]
  generalize a % 16 + b % 16 + c = l at h e1 ⊢
  rw [e1]
  exact h

/-- C34: for all packed-BCD bytes a (in A) and b (each nibble at most 9) and
every carry-in c, `alu_adc b` followed by `alu_daa` leaves A equal to the
packed-BCD encoding of (dec(a) + dec(b) + c) mod 100 and C set exactly when
dec(a) + dec(b) + c >= 100. -/
theorem alu_adc_then_alu_daa_adds_bcd (reg : Register) (b : Nat)
    (ha : is_packed_bcd (reg.get_register_byte .r_a)) (hb : is_packed_bcd b) :
    let total := bcd_value (reg.get_register_byte .r_a) + bcd_value b
      + bool_to_int (reg.get_flag .f_c)
    (alu_daa (alu_adc reg b)).get_register_byte .r_a = bcd_encode (total % 100)
      ∧ (alu_daa (alu_adc reg b)).get_flag .f_c = decide (total ≥ 100) := by
  intro total
  have hb256 : b < 256 := by
    unfold is_packed_bcd at hb
    omega
  obtain ⟨h1, h2⟩ := alu_adc_alu_daa_effect reg b hb256
  obtain ⟨h3, h4⟩ := bcd_adjust_arith _ b _ ha hb (bool_to_int_le (reg.get_flag .f_c))
  exact ⟨h1.trans h3, h2.trans h4⟩

/-- The DAA scenario: A = 0x27 with the carry set, ADC 0x15 and DAA give
A = 0x43 (the BCD of 27 + 15 + 1) with the carry clear. -/
theorem alu_adc_then_alu_daa_adds_bcd_witness :
    let reg := (Register.power_on.set_register_byte .r_a 0x27).set_flag .f_c true
    (alu_daa (alu_adc reg 0x15)).get_register_byte .r_a = 0x43
      ∧ (alu_daa (alu_adc reg 0x15)).get_flag .f_c = false :=
  alu_adc_then_alu_daa_adds_bcd
    ((Register.power_on.set_register_byte .r_a 0x27).set_flag .f_c true) 0x15
    (by decide) (by decide)

/-! ## The background pass, pixel by pixel -/

theorem get_memory_byte_mod (mem : Memory) (a : Nat) :
    mem.get_memory_byte (a % 65536) = mem.get_memory_byte a := by
  unfold Memory.get_memory_byte
  rw [Nat.mod_mod]

theorem get_memory_byte_congr (mem : Memory) (a b : Nat) (h : a % 65536 = b % 65536) :
    mem.get_memory_byte a = mem.get_memory_byte b := by
  unfold Memory.get_memory_byte
  rw [h]

theorem and_two_pow_ne_zero (n i : Nat) : (n &&& 2 ^ i ≠ 0) ↔ n.testBit i = true := by
  rw [Nat.and_two_pow]
  have hp : 0 < 2 ^ i := Nat.pos_pow_of_pos i (by norm_num)
  cases h : n.testBit i
  · simp
  · simp only [Bool.toNat_true, Nat.one_mul, ne_eq, iff_true]
    omega

/-- The tile fetch reads the bytes at the addresses of `fetch_tile_row_addresses`. -/
theorem fetch_tile_row_eq (mem : Memory) (map data : Nat) (flag : Bool)
    (tile_x tile_y pixel_y : Nat) :
    fetch_tile_row mem map data flag tile_x tile_y pixel_y
      = (mem.get_memory_byte (fetch_tile_row_addresses mem map data flag tile_x tile_y
            pixel_y).2.1,
          mem.get_memory_byte (fetch_tile_row_addresses mem map data flag tile_x tile_y
            pixel_y).2.2) := by
  unfold fetch_tile_row fetch_tile_row_addresses
  simp only [get_memory_byte_mod]

/-- The cache of the background loop: as long as the cached bytes are those of
the tile column `last_tile_x`, every pixel gets the colour a fresh fetch would
give it. -/
theorem background_loop_eq_map (mem : Memory) (map data : Nat) (flag : Bool)
    (scx y line_number_y : Nat) :
    ∀ (columns : List Nat) (last_tile_x : Int) (one two : Nat),
      (∀ t : Nat, (t : Int) = last_tile_x →
        (one, two) = fetch_tile_row mem map data flag t (y / 8) (y % 8)) →
      background_loop mem map data flag scx y line_number_y columns last_tile_x one two
        = columns.map (fun i =>
            (i, line_number_y,
              mix_tile_colors (8 - (i + scx) % 256 % 8 - 1)
                (fetch_tile_row mem map data flag ((i + scx) % 256 / 8) (y / 8) (y % 8)).1
                (fetch_tile_row mem map data flag ((i + scx) % 256 / 8) (y / 8) (y % 8)).2)) := by
  intro columns
  induction columns with
  | nil => intro _ _ _ _; rfl
  | cons i rest ih =>
    intro last_tile_x one two hinv
    unfold background_loop
    simp only [List.map_cons]
    by_cases hne : (((i + scx) % 256 / 8 : Nat) : Int) ≠ last_tile_x
    · simp only [hne, ne_eq, not_false_eq_true, if_true]
      rw [ih]
      intro t ht
      have : t = (i + scx) % 256 / 8 := by exact_mod_cast ht
      rw [this]
    · have heq : (((i + scx) % 256 / 8 : Nat) : Int) = last_tile_x := not_not.mp hne
      have hc := hinv _ heq
      simp only [heq, ne_eq, not_true_eq_false, if_false]
      rw [ih _ _ _ hinv, ← hc]

/-- The addresses of one tile fetch, for a tile map at 0x9800 or 0x9C00 and a
tile inside the 32 x 32 map: the map entry, and the row bytes at
data_base + 16 * id + 2 * pixel_y and the byte after it; all of them in VRAM. -/
theorem fetch_tile_row_addresses_spec (mem : Memory) (map : Nat) (flag : Bool)
    (tile_x tile_y pixel_y : Nat) (hm : map = 0x9800 ∨ map = 0x9C00)
    (hx : tile_x < 32) (hy : tile_y < 32) (hp : pixel_y < 8) :
    let data : Nat := if flag then 0x8000 else 0x9000
    let byte := mem.get_memory_byte (map + tile_y * 32 + tile_x)
    let id : Int := if flag then (byte : Int) else if byte < 128 then (byte : Int) else byte - 256
    let r := fetch_tile_row_addresses mem map data flag tile_x tile_y pixel_y
    r.1 = map + tile_y * 32 + tile_x
      ∧ r.2.1 = ((data : Int) + 16 * id + 2 * (pixel_y : Int)).toNat
      ∧ r.2.2 = r.2.1 + 1
      ∧ 0x9800 ≤ r.1 ∧ r.1 ≤ 0x9FFF ∧ 0x8000 ≤ r.2.1 ∧ r.2.2 ≤ 0x97FF := by
  intro data byte id r
  have hb : byte < 256 := get_memory_byte_lt mem _
  have hmod : (map + tile_y * 32 + tile_x) % 65536 = map + tile_y * 32 + tile_x :=
    Nat.mod_eq_of_lt (by omega)
  have hr : r = ((map + tile_y * 32 + tile_x) % 65536,
      ((((data : Nat) : Int) + (if !flag then to_int8 byte else (byte : Int)) * 16
          + ((pixel_y * 2 : Nat) : Int)) % 65536).toNat,
      ((((data : Nat) : Int) + (if !flag then to_int8 byte else (byte : Int)) * 16
          + ((pixel_y * 2 : Nat) : Int) + 1) % 65536).toNat) := by
    simp only [r, byte, fetch_tile_row_addresses, get_memory_byte_mod]
  rw [hr]
  simp only [hmod]
  cases flag
  · have h8 : to_int8 byte = if byte < 128 then (byte : Int) else byte - 256 := by
      unfold to_int8
      rw [Nat.mod_eq_of_lt hb]
    simp only [data, id, Bool.not_false, if_true, Bool.false_eq_true, if_false, h8]
    split_ifs <;> (push_cast; refine ⟨trivial, ?_, ?_, ?_, ?_, ?_, ?_⟩ <;> omega)
  · simp only [data, id, Bool.not_true, Bool.false_eq_true, if_false, if_true]
    push_cast
    refine ⟨trivial, ?_, ?_, ?_, ?_, ?_, ?_⟩ <;> omega

/-- The colour the cached loop gives column `i` is the colour of a fetch per
pixel. -/
theorem fetch_tile_row_colour (lcdc_byte line_number_y : Nat) (mem : Memory) (i : Nat) :
    let flag := decide (lcdc_byte &&& 0x10 ≠ 0)
    let data : Nat := if flag then 0x8000 else 0x9000
    let map : Nat := if lcdc_byte &&& 0x08 ≠ 0 then 0x9C00 else 0x9800
    let scx := mem.get_memory_byte SCX_ADDRESS
    let y := (line_number_y + mem.get_memory_byte SCY_ADDRESS) % 256
    mix_tile_colors (8 - (i + scx) % 256 % 8 - 1)
        (fetch_tile_row mem map data flag ((i + scx) % 256 / 8) (y / 8) (y % 8)).1
        (fetch_tile_row mem map data flag ((i + scx) % 256 / 8) (y / 8) (y % 8)).2
      = background_colour_per_pixel lcdc_byte line_number_y mem i := by
  intro flag data map scx y
  have hmap : map = 0x9800 ∨ map = 0x9C00 := by
    simp only [map]
    split_ifs
    · exact Or.inr rfl
    · exact Or.inl rfl
  have h3 : (lcdc_byte &&& 0x08 ≠ 0) ↔ lcdc_byte.testBit 3 = true := and_two_pow_ne_zero _ 3
  have h4 : (lcdc_byte &&& 0x10 ≠ 0) ↔ lcdc_byte.testBit 4 = true := and_two_pow_ne_zero _ 4
  have hflag : flag = lcdc_byte.testBit 4 := by
    simp only [flag]
    cases hb : lcdc_byte.testBit 4
    · rw [decide_eq_false_iff_not, h4, hb]; decide
    · rw [decide_eq_true_iff, h4, hb]
  have hmap2 : map = if lcdc_byte.testBit 3 then 0x9C00 else 0x9800 := by
    simp only [map]
    cases hb : lcdc_byte.testBit 3
    · rw [if_neg (by rw [h3, hb]; decide)]; rfl
    · rw [if_pos (by rw [h3, hb])]; rfl
  obtain ⟨-, e2, e3, -⟩ := fetch_tile_row_addresses_spec mem map flag ((i + scx) % 256 / 8)
    (y / 8) (y % 8) hmap (by omega) (by omega) (by omega)
  rw [fetch_tile_row_eq]
  simp only [data]
  rw [e3, e2]
  unfold background_colour_per_pixel
  simp only [← hflag, ← hmap2]
  have hbit : 8 - (i + scx) % 256 % 8 - 1 = 7 - (i + scx) % 256 % 8 := by omega
  rw [hbit]
  cases flag <;> rfl

/-! ## C35: the per-tile cache of the background pass -/

/-- The background pass emits, for the columns 0..159 in this order, the colours
of `background_colour_per_pixel`. -/
theorem background_pixels_eq_map (lcdc_byte line_number_y : Nat) (mem : Memory) :
    background_pixels lcdc_byte line_number_y mem
      = (List.range 160).map (fun x =>
          (x, line_number_y, background_colour_per_pixel lcdc_byte line_number_y mem x)) := by
  unfold background_pixels
  simp only
  rw [background_loop_eq_map]
  · apply List.map_congr_left
    intro i _
    have h := fetch_tile_row_colour lcdc_byte line_number_y mem i
    simp only at h
    rw [h]
  · intro t ht
    omega

/-- C35: the per-tile fetch cache of the background pass is equivalent to
fetching per pixel: for every memory content (any LCDC with bit 0 set, SCX, SCY)
and visible LY, the background pass of `draw_line` emits for each screen column
x in 0..159 the colour of `background_colour_per_pixel`, and these 160 calls are
the first calls `draw_line` makes. -/
theorem draw_line_background_per_pixel (line_number_y : Nat) (mem : Memory)
    (hly : line_number_y < 144)
    (hbg : (mem.get_memory_byte LCDC_ADDRESS).testBit 0 = true) :
    background_pixels (mem.get_memory_byte LCDC_ADDRESS) line_number_y mem
        = (List.range 160).map (fun x => (x, line_number_y,
            background_colour_per_pixel (mem.get_memory_byte LCDC_ADDRESS) line_number_y mem x))
      ∧ ∃ rest, draw_line line_number_y mem
        = (List.range 160).map (fun x => (x, line_number_y,
            background_colour_per_pixel (mem.get_memory_byte LCDC_ADDRESS) line_number_y mem x))
          ++ rest := by
  refine ⟨background_pixels_eq_map _ _ _, ?_⟩
  have h0 : mem.get_memory_byte LCDC_ADDRESS &&& 0x01 ≠ 0 :=
    (and_two_pow_ne_zero _ 0).mpr hbg
  unfold draw_line
  rw [if_neg (by unfold SCREEN_HEIGHT; omega)]
  simp only [h0, ne_eq, not_false_eq_true, decide_True, if_true, Bool.true_and]
  rw [background_pixels_eq_map, List.append_assoc]
  exact ⟨_, rfl⟩

/-- The background scenario (LCDC = 0x91, scanline 0): the 160 calls of the
background pass are those of a fetch per pixel. -/
theorem draw_line_background_per_pixel_witness :
    (background_scenario_memory.get_memory_byte LCDC_ADDRESS).testBit 0 = true
      ∧ background_pixels (background_scenario_memory.get_memory_byte LCDC_ADDRESS) 0
          background_scenario_memory
        = (List.range 160).map (fun x => (x, 0,
            background_colour_per_pixel (background_scenario_memory.get_memory_byte LCDC_ADDRESS)
              0 background_scenario_memory x)) :=
  ⟨by decide,
    (draw_line_background_per_pixel 0 background_scenario_memory (by decide) (by decide)).1⟩

/-! ## C38: the addresses read by the background and window passes -/

theorem background_reads_loop_in_vram (mem : Memory) (map : Nat) (flag : Bool) (scx y : Nat)
    (hm : map = 0x9800 ∨ map = 0x9C00) (hy : y < 256) :
    ∀ (columns : List Nat) (last_tile_x : Int),
      ∀ r ∈ background_reads_loop mem map (if flag then 0x8000 else 0x9000) flag scx y columns
        last_tile_x, tile_read_in_vram r := by
  intro columns
  induction columns with
  | nil => intro _ r hr; exact absurd hr (List.not_mem_nil r)
  | cons i rest ih =>
    intro last_tile_x r hr
    unfold background_reads_loop at hr
    by_cases hne : (((i + scx) % 256 / 8 : Nat) : Int) ≠ last_tile_x
    · simp only [hne, ne_eq, not_false_eq_true, if_true, List.mem_cons] at hr
      rcases hr with hr | hr
      · obtain ⟨-, -, e3, h1, h2, h3, h4⟩ := fetch_tile_row_addresses_spec mem map flag
          ((i + scx) % 256 / 8) (y / 8) (y % 8) hm (by omega) (by omega) (by omega)
        rw [hr]
        unfold tile_read_in_vram
        omega
      · exact ih _ r hr
    · simp only [hne, if_false] at hr
      exact ih _ r hr

theorem window_reads_loop_in_vram (mem : Memory) (map : Nat) (flag : Bool)
    (absolute_WX y : Nat) (hm : map = 0x9800 ∨ map = 0x9C00) (hy : y < 256) :
    ∀ (columns : List Nat) (last_tile_x : Int), (∀ i ∈ columns, i < 256) →
      ∀ r ∈ window_reads_loop mem map (if flag then 0x8000 else 0x9000) flag absolute_WX y
        columns last_tile_x, tile_read_in_vram r := by
  intro columns
  induction columns with
  | nil => intro _ _ r hr; exact absurd hr (List.not_mem_nil r)
  | cons i rest ih =>
    intro last_tile_x hcols r hr
    have hi : i < 256 := hcols i (List.mem_cons_self _ _)
    have hrest : ∀ j ∈ rest, j < 256 := fun j hj => hcols j (List.mem_cons_of_mem _ hj)
    unfold window_reads_loop at hr
    by_cases hskip : i < absolute_WX
    · simp only [hskip, if_true] at hr
      exact ih _ hrest r hr
    · simp only [hskip, if_false] at hr
      by_cases hne : (((i - absolute_WX) / 8 : Nat) : Int) ≠ last_tile_x
      · simp only [hne, ne_eq, not_false_eq_true, if_true, List.mem_cons] at hr
        rcases hr with hr | hr
        · obtain ⟨-, -, e3, h1, h2, h3, h4⟩ := fetch_tile_row_addresses_spec mem map flag
            ((i - absolute_WX) / 8) (y / 8) (y % 8) hm (by omega) (by omega) (by omega)
          rw [hr]
          unfold tile_read_in_vram
          omega
        · exact ih _ hrest r hr
      · simp only [hne, if_false] at hr
        exact ih _ hrest r hr

theorem background_reads_in_vram (lcdc_byte line_number_y : Nat) (mem : Memory) :
    ∀ r ∈ background_reads lcdc_byte line_number_y mem, tile_read_in_vram r := by
  unfold background_reads
  refine background_reads_loop_in_vram mem _ _ _ _ ?_
    (Nat.mod_lt _ (by norm_num)) _ _
  by_cases h : lcdc_byte &&& 0x08 ≠ 0
  · rw [if_pos h]; exact Or.inr rfl
  · rw [if_neg h]; exact Or.inl rfl

theorem window_reads_in_vram (lcdc_byte line_number_y : Nat) (mem : Memory)
    (hly : line_number_y < 144) :
    ∀ r ∈ window_reads lcdc_byte line_number_y mem, tile_read_in_vram r := by
  unfold window_reads
  by_cases hpos : (line_number_y : Int) - mem.get_memory_byte WY_ADDRESS > 0
  · simp only [hpos, if_true]
    refine window_reads_loop_in_vram mem _ _ _ _ ?_ (by omega) _ _ ?_
    · by_cases h : lcdc_byte &&& 0x40 ≠ 0
      · rw [if_pos h]; exact Or.inr rfl
      · rw [if_neg h]; exact Or.inl rfl
    · intro i hi
      have := List.mem_range.mp hi
      unfold SCREEN_WIDTH at this
      omega
  · simp only [hpos, if_false]
    intro r hr
    exact absurd hr (List.not_mem_nil r)

/-- C38: for every memory content (LCDC, SCX, SCY, WX, WY, tile maps) and every
line number, each tile fetch `draw_line` makes in its background and window
passes stays inside VRAM: the tile-map read falls in 0x9800..0x9FFF and both
tile-row byte reads fall in 0x8000..0x97FF, for signed as well as unsigned tile
ids. -/
theorem draw_line_tile_reads_in_vram (line_number_y : Nat) (mem : Memory) :
    ∀ r ∈ draw_line_tile_reads line_number_y mem, tile_read_in_vram r := by
  intro r hr
  unfold draw_line_tile_reads at hr
  by_cases hly : line_number_y ≥ SCREEN_HEIGHT
  · rw [if_pos hly] at hr
    exact absurd hr (List.not_mem_nil r)
  · rw [if_neg hly] at hr
    unfold SCREEN_HEIGHT at hly
    rcases List.mem_append.mp hr with hb | hw
    · by_cases h0 : decide (mem.get_memory_byte LCDC_ADDRESS &&& 0x01 ≠ 0) = true
      · rw [if_pos h0] at hb
        exact background_reads_in_vram _ _ _ r hb
      · rw [if_neg h0] at hb
        exact absurd hb (List.not_mem_nil r)
    · by_cases h5 : (decide (mem.get_memory_byte LCDC_ADDRESS &&& 0x01 ≠ 0)
          && decide (mem.get_memory_byte LCDC_ADDRESS &&& 0x20 ≠ 0)) = true
      · rw [if_pos h5] at hw
        exact window_reads_in_vram _ _ _ (by omega) r hw
      · rw [if_neg h5] at hw
        exact absurd hw (List.not_mem_nil r)

/-- The tile fetches on line 1 of the window scenario: 20 of the background and
20 of the window, all inside VRAM. -/
theorem draw_line_tile_reads_in_vram_witness :
    (draw_line_tile_reads 1 window_scenario_memory).length = 40
      ∧ ∀ r ∈ draw_line_tile_reads 1 window_scenario_memory, tile_read_in_vram r :=
  ⟨by decide, draw_line_tile_reads_in_vram 1 window_scenario_memory⟩

/-! ## C39: the calls of `set_pixel_color` -/

theorem mix_tile_colors_lt (bit one two : Nat) : mix_tile_colors bit one two < 4 := by
  rw [mix_tile_colors_eq]
  omega

theorem mem_background_loop (mem : Memory) (map data : Nat) (flag : Bool)
    (scx y line_number_y : Nat) :
    ∀ (columns : List Nat) (last_tile_x : Int) (one two : Nat),
      ∀ c ∈ background_loop mem map data flag scx y line_number_y columns last_tile_x one two,
        c.1 ∈ columns ∧ c.2.1 = line_number_y ∧ c.2.2 < 4 := by
  intro columns
  induction columns with
  | nil => intro _ _ _ c hc; exact absurd hc (List.not_mem_nil c)
  | cons i rest ih =>
    intro last_tile_x one two c hc
    unfold background_loop at hc
    rcases List.mem_cons.mp hc with h | h
    · rw [h]
      exact ⟨List.mem_cons_self _ _, rfl, mix_tile_colors_lt _ _ _⟩
    · obtain ⟨h1, h2, h3⟩ := ih _ _ _ c h
      exact ⟨List.mem_cons_of_mem _ h1, h2, h3⟩

theorem mem_window_loop (mem : Memory) (map data : Nat) (flag : Bool)
    (absolute_WX y line_number_y : Nat) :
    ∀ (columns : List Nat) (last_tile_x : Int) (one two : Nat),
      ∀ c ∈ window_loop mem map data flag absolute_WX y line_number_y columns last_tile_x one
        two, c.1 ∈ columns ∧ c.2.1 = line_number_y ∧ c.2.2 < 4 := by
  intro columns
  induction columns with
  | nil => intro _ _ _ c hc; exact absurd hc (List.not_mem_nil c)
  | cons i rest ih =>
    intro last_tile_x one two c hc
    unfold window_loop at hc
    by_cases hskip : i < absolute_WX
    · rw [if_pos hskip] at hc
      obtain ⟨h1, h2, h3⟩ := ih _ _ _ c hc
      exact ⟨List.mem_cons_of_mem _ h1, h2, h3⟩
    · rw [if_neg hskip] at hc
      rcases List.mem_cons.mp hc with h | h
      · rw [h]
        exact ⟨List.mem_cons_self _ _, rfl, mix_tile_colors_lt _ _ _⟩
      · obtain ⟨h1, h2, h3⟩ := ih _ _ _ c h
        exact ⟨List.mem_cons_of_mem _ h1, h2, h3⟩

theorem mem_background_pixels (lcdc_byte line_number_y : Nat) (mem : Memory) :
    ∀ c ∈ background_pixels lcdc_byte line_number_y mem,
      c.1 < 160 ∧ c.2.1 = line_number_y ∧ c.2.2 < 4 := by
  intro c hc
  unfold background_pixels at hc
  obtain ⟨h1, h2, h3⟩ := mem_background_loop _ _ _ _ _ _ _ _ _ _ _ c hc
  exact ⟨List.mem_range.mp h1, h2, h3⟩

theorem mem_window_pixels (lcdc_byte line_number_y : Nat) (mem : Memory) :
    ∀ c ∈ window_pixels lcdc_byte line_number_y mem,
      c.1 < 160 ∧ c.2.1 = line_number_y ∧ c.2.2 < 4 := by
  intro c hc
  unfold window_pixels at hc
  by_cases hpos : (line_number_y : Int) - mem.get_memory_byte WY_ADDRESS > 0
  · simp only [hpos, if_true] at hc
    obtain ⟨h1, h2, h3⟩ := mem_window_loop _ _ _ _ _ _ _ _ _ _ _ c hc
    exact ⟨List.mem_range.mp h1, h2, h3⟩
  · simp only [hpos, if_false] at hc
    exact absurd hc (List.not_mem_nil c)

theorem mem_sprite_pixels (lcdc_byte line_number_y : Nat) (mem : Memory) (sprite_id : Nat) :
    ∀ c ∈ sprite_pixels lcdc_byte line_number_y mem sprite_id,
      c.1 < 160 ∧ c.2.1 = line_number_y ∧ c.2.2 < 4 := by
  intro c hc
  rcases sprite_pixels_cases lcdc_byte line_number_y mem sprite_id with h | ⟨sx, fx, fy, o, t, h⟩
  · rw [h] at hc
    exact absurd hc (List.not_mem_nil c)
  · rw [h] at hc
    obtain ⟨x, -, hx⟩ := List.mem_flatMap.mp hc
    unfold sprite_column at hx
    by_cases hr : sx + x < 0 ∨ sx + x ≥ SCREEN_WIDTH
    · rw [if_pos hr] at hx
      exact absurd hx (List.not_mem_nil c)
    · rw [if_neg hr] at hx
      by_cases h0 : mix_tile_colors (sprite_pixel_bit fx fy x) o t = 0
      · simp only [h0, if_true] at hx
        exact absurd hx (List.not_mem_nil c)
      · simp only [h0, if_false] at hx
        rw [List.mem_singleton.mp hx]
        unfold SCREEN_WIDTH at hr
        refine ⟨?_, rfl, mix_tile_colors_lt _ _ _⟩
        show (sx + (x : Int)).toNat < 160
        omega

theorem mem_draw_line (line_number_y : Nat) (mem : Memory) :
    ∀ c ∈ draw_line line_number_y mem, c.1 < 160 ∧ c.2.1 < 144 ∧ c.2.2 < 4 := by
  intro c hc
  unfold draw_line at hc
  by_cases hly : line_number_y ≥ SCREEN_HEIGHT
  · rw [if_pos hly] at hc
    exact absurd hc (List.not_mem_nil c)
  · rw [if_neg hly] at hc
    unfold SCREEN_HEIGHT at hly
    have key : c.1 < 160 ∧ c.2.1 = line_number_y ∧ c.2.2 < 4 := by
      rcases List.mem_append.mp hc with hbw | hs
      · rcases List.mem_append.mp hbw with hb | hw
        · by_cases h0 : decide (mem.get_memory_byte LCDC_ADDRESS &&& 0x01 ≠ 0) = true
          · rw [if_pos h0] at hb
            exact mem_background_pixels _ _ _ c hb
          · rw [if_neg h0] at hb
            exact absurd hb (List.not_mem_nil c)
        · by_cases h5 : (decide (mem.get_memory_byte LCDC_ADDRESS &&& 0x01 ≠ 0)
              && decide (mem.get_memory_byte LCDC_ADDRESS &&& 0x20 ≠ 0)) = true
          · rw [if_pos h5] at hw
            exact mem_window_pixels _ _ _ c hw
          · rw [if_neg h5] at hw
            exact absurd hw (List.not_mem_nil c)
      · by_cases h1 : decide (mem.get_memory_byte LCDC_ADDRESS &&& 0x02 ≠ 0) = true
        · rw [if_pos h1] at hs
          unfold sprite_pass at hs
          obtain ⟨k, -, hk⟩ := List.mem_flatMap.mp hs
          exact mem_sprite_pixels _ _ _ k c hk
        · rw [if_neg h1] at hs
          exact absurd hs (List.not_mem_nil c)
    exact ⟨key.1, by omega, key.2.2⟩

/-- The positions `set_pixel_color` writes for a pixel of the 160 x 144 screen
lie inside a buffer of (160 * scale) * (144 * scale) pixels. -/
theorem set_pixel_color_indices_lt (pos_x pos_y scale : Nat) (hx : pos_x < 160)
    (hy : pos_y < 144) :
    ∀ index ∈ set_pixel_color_indices pos_x pos_y scale,
      index < (160 * scale) * (144 * scale) := by
  intro index hi
  unfold set_pixel_color_indices SCREEN_WIDTH at hi
  obtain ⟨scale_x, hsx, hi⟩ := List.mem_flatMap.mp hi
  obtain ⟨scale_y, hsy, rfl⟩ := List.mem_map.mp hi
  have hsx := List.mem_range.mp hsx
  have hsy := List.mem_range.mp hsy
  have h1 : pos_y * scale + scale_y + 1 ≤ 144 * scale := by
    have : (pos_y + 1) * scale ≤ 144 * scale := Nat.mul_le_mul_right _ (by omega)
    rw [Nat.add_mul] at this
    omega
  have h2 : pos_x * scale + scale_x + 1 ≤ 160 * scale := by
    have : (pos_x + 1) * scale ≤ 160 * scale := Nat.mul_le_mul_right _ (by omega)
    rw [Nat.add_mul] at this
    omega
  have h3 : (pos_y * scale + scale_y + 1) * (160 * scale) ≤ (144 * scale) * (160 * scale) :=
    Nat.mul_le_mul_right _ h1
  rw [Nat.add_mul, Nat.one_mul] at h3
  rw [Nat.mul_comm (160 * scale) (144 * scale)]
  omega

/-- C39: every `set_pixel_color` call made by `draw_line`, for any memory
content, has pos_x in 0..159, pos_y in 0..143 and colour in 0..3, so for every
scale >= 1 each pixel index it writes is below (160*scale)*(144*scale) and the
colour indexes a palette of four entries; `draw_line` called with a line number
>= 144 makes no call at all. -/
theorem draw_line_calls_in_range (line_number_y : Nat) (mem : Memory) :
    (∀ c ∈ draw_line line_number_y mem,
        c.1 < 160 ∧ c.2.1 < 144 ∧ c.2.2 < 4
          ∧ ∀ scale, 1 ≤ scale → ∀ index ∈ set_pixel_color_indices c.1 c.2.1 scale,
              index < (160 * scale) * (144 * scale))
      ∧ (line_number_y ≥ 144 → draw_line line_number_y mem = []) := by
  refine ⟨fun c hc => ?_, fun h => ?_⟩
  · obtain ⟨h1, h2, h3⟩ := mem_draw_line line_number_y mem c hc
    exact ⟨h1, h2, h3, fun scale _ => set_pixel_color_indices_lt _ _ scale h1 h2⟩
  · unfold draw_line SCREEN_HEIGHT
    rw [if_pos h]

set_option maxRecDepth 1000000 in
theorem draw_line_scenario_lengths :
    (draw_line 1 window_scenario_memory).length = 320
      ∧ draw_line 144 window_scenario_memory = []
      ∧ set_pixel_color_indices 159 143 2 = [91838, 92158, 91839, 92159] := by
  decide

/-- Line 1 of the window scenario: `draw_line` makes 320 calls, all in range;
on line 144 it makes none; the last pixel at scale 2 is written at the four
positions up to 92159 = 320 * 288 - 1. -/
theorem draw_line_calls_in_range_witness :
    (draw_line 1 window_scenario_memory).length = 320
      ∧ (∀ c ∈ draw_line 1 window_scenario_memory, c.1 < 160 ∧ c.2.1 < 144 ∧ c.2.2 < 4
          ∧ ∀ scale, 1 ≤ scale → ∀ index ∈ set_pixel_color_indices c.1 c.2.1 scale,
              index < (160 * scale) * (144 * scale))
      ∧ draw_line 144 window_scenario_memory = []
      ∧ set_pixel_color_indices 159 143 2 = [91838, 92158, 91839, 92159] :=
  ⟨draw_line_scenario_lengths.1, (draw_line_calls_in_range 1 window_scenario_memory).1,
    draw_line_scenario_lengths.2.1, draw_line_scenario_lengths.2.2⟩

/-! ## The tile row read for a sprite -/

/-- A sprite that passes the tests of lines 374-388 is drawn from the two bytes
at `sprite_tile_location` and the address after it. -/
theorem sprite_pixels_reads_tile_location (lcdc_byte line_number_y : Nat) (mem : Memory)
    (sprite_id : Nat) :
    let oam := (OAM_TABLE_INITIAL_ADDDRESS + sprite_id * 4) % 65536
    let y_position := mem.get_memory_byte oam
    let x_position := mem.get_memory_byte (oam + 1)
    let tile_index := mem.get_memory_byte (oam + 2)
    let attributes := mem.get_memory_byte (oam + 3)
    let location := sprite_tile_location lcdc_byte line_number_y y_position tile_index
      (decide (attributes &&& 0x40 ≠ 0))
    (y_position ||| x_position) ≠ 0 →
    sprite_line_test line_number_y y_position (sprite_height lcdc_byte) = true →
    ¬ ((x_position : Int) - 8 < -7 ∨ (x_position : Int) - 8 ≥ SCREEN_WIDTH) →
    sprite_pixels lcdc_byte line_number_y mem sprite_id
      = (List.range PIXELS_PER_TILELINE).flatMap
          (sprite_column ((x_position : Int) - 8) line_number_y
            (decide (attributes &&& 0x20 ≠ 0)) (decide (attributes &&& 0x40 ≠ 0))
            (mem.get_memory_byte location) (mem.get_memory_byte (location + 1))) := by
  intro oam y_position x_position tile_index attributes location h0 htest hx
  unfold sprite_pixels
  simp only [oam, y_position, x_position] at h0 htest hx
  simp only [h0, htest, hx, if_false, Bool.not_true, Bool.false_eq_true]
  rfl

/-- Without y-flip and for a tile id below 255, the increment of the tile id and
the subtraction of 8 from the row cancel: the row bytes of row r of tile t are
read. -/
theorem sprite_tile_location_no_flip (lcdc_byte line_number_y y_position t r : Nat)
    (ht : t ≤ 254) (hr : (line_number_y : Int) - ((y_position : Int) - 16) = r) (hr16 : r < 16) :
    sprite_tile_location lcdc_byte line_number_y y_position t false
      = 0x8000 + 16 * t + 2 * r := by
  unfold sprite_tile_location sprite_row
  simp only [Bool.false_eq_true, if_false]
  omega

/-- Without y-flip and for the tile id 255, the increment wraps to 0 and the
address falls 0x1000 below the row bytes of tile 255. -/
theorem sprite_tile_location_tile_255 (lcdc_byte line_number_y y_position r : Nat)
    (hr : (line_number_y : Int) - ((y_position : Int) - 16) = r) (hr16 : r < 16) :
    sprite_tile_location lcdc_byte line_number_y y_position 255 false = 0x7FF0 + 2 * r := by
  unfold sprite_tile_location sprite_row
  simp only [Bool.false_eq_true, if_false]
  omega

/-- With y-flip and for a tile id below 255, the address read is 32 bytes (two
tiles) after the mirrored row of tile t. -/
theorem sprite_tile_location_flip (lcdc_byte line_number_y y_position t r : Nat)
    (hl : lcdc_byte < 256) (ht : t ≤ 254)
    (hr : (line_number_y : Int) - ((y_position : Int) - 16) = r)
    (hrh : r < sprite_height lcdc_byte) :
    sprite_tile_location lcdc_byte line_number_y y_position t true
      = 0x8000 + 16 * t + 2 * (sprite_height lcdc_byte - 1 - r) + 32 := by
  have hh : sprite_height lcdc_byte = 8 ∨ sprite_height lcdc_byte = 16 := by
    rw [sprite_height_eq lcdc_byte hl]
    split_ifs
    · exact Or.inr rfl
    · exact Or.inl rfl
  unfold sprite_tile_location sprite_row
  simp only [if_true]
  generalize sprite_height lcdc_byte = h at hh hrh ⊢
  omega

/-! ## C36: the tile row of a sprite with y-flip -/

/-- C36, the code for a sprite with attribute bit 6 set.  For every tile id
t <= 254 and every row r = LY - (Y - 16) below the sprite height, the first row
byte is read at 0x8000 + 16*t + 2*(height - 1 - r) + 32, two tiles after the
mirrored row of tile t.  For the sprite of `y_flip_sprite_memory` (Y = 16,
tile 0, height 8) on line 0 the address is 0x802E, where the mirrored row of
tile 0 is at 0x800E; that row is empty (0x00, 0x00) and the pixel drawn comes
from the byte 0x80 at 0x802E. -/
theorem sprite_y_flip_reads_two_tiles_further :
    (∀ lcdc_byte line_number_y y_position t r : Nat, lcdc_byte < 256 → t ≤ 254 →
        (line_number_y : Int) - ((y_position : Int) - 16) = r → r < sprite_height lcdc_byte →
        sprite_tile_location lcdc_byte line_number_y y_position t true
          = 0x8000 + 16 * t + 2 * (sprite_height lcdc_byte - 1 - r) + 32)
      ∧ sprite_height 0x82 = 8
      ∧ sprite_tile_location 0x82 0 16 0 true = 0x802E
      ∧ 0x8000 + 16 * 0 + 2 * (8 - 1 - 0) = 0x800E
      ∧ y_flip_sprite_memory.get_memory_byte 0x800E = 0x00
      ∧ y_flip_sprite_memory.get_memory_byte 0x800F = 0x00
      ∧ y_flip_sprite_memory.get_memory_byte 0x802E = 0x80
      ∧ draw_line 0 y_flip_sprite_memory = [(7, 0, 2)] := by
  refine ⟨fun lcdc_byte line_number_y y_position t r hl ht hr hrh =>
      sprite_tile_location_flip lcdc_byte line_number_y y_position t r hl ht hr hrh,
    by decide, by decide, by decide, by decide, by decide, draw_line_y_flip_sprite.2.1,
    draw_line_y_flip_sprite.2.2.2.2.2⟩

/-! ## C37: the tile row of a sprite without y-flip -/

set_option maxRecDepth 1000000 in
theorem draw_line_tile_255_sprite :
    tile_255_sprite_memory.get_memory_byte 0xFE02 = 255
      ∧ tile_255_sprite_memory.get_memory_byte 0x8FF0 = 0x00
      ∧ tile_255_sprite_memory.get_memory_byte 0x8FF1 = 0x00
      ∧ tile_255_sprite_memory.get_memory_byte 0x7FF0 = 0xFF
      ∧ sprite_tile_location 0x82 0 16 255 false = 0x7FF0
      ∧ draw_line 0 tile_255_sprite_memory
        = [(0, 0, 2), (1, 0, 2), (2, 0, 2), (3, 0, 2), (4, 0, 2), (5, 0, 2), (6, 0, 2),
            (7, 0, 2)] := by
  decide

/-- C37, the code at tile id 255.  For every tile id t <= 254 (and every row
r = LY - (Y - 16) below 16) the increment of the tile id and the subtraction of
8 from the row cancel and the first row byte is read at 0x8000 + 16*t + 2*r.
For t = 255 the increment wraps to 0 in the `uint8_t` and the byte is read at
0x7FF0 + 2*r, not at 0x8FF0 + 2*r: the sprite of `tile_255_sprite_memory`
(Y = 16, tile 255, no flip, row bytes of tile 255 all 0x00) is drawn on line 0
with eight pixels of colour 2, from the byte 0xFF at 0x7FF0. -/
theorem sprite_tile_255_reads_below_vram :
    (∀ lcdc_byte line_number_y y_position t r : Nat, t ≤ 254 →
        (line_number_y : Int) - ((y_position : Int) - 16) = r → r < 16 →
        sprite_tile_location lcdc_byte line_number_y y_position t false
          = 0x8000 + 16 * t + 2 * r)
      ∧ (∀ lcdc_byte line_number_y y_position r : Nat,
        (line_number_y : Int) - ((y_position : Int) - 16) = r → r < 16 →
        sprite_tile_location lcdc_byte line_number_y y_position 255 false = 0x7FF0 + 2 * r)
      ∧ sprite_tile_location 0x82 0 16 255 false = 0x7FF0
      ∧ 0x8000 + 16 * 255 + 2 * 0 = 0x8FF0
      ∧ tile_255_sprite_memory.get_memory_byte 0xFE02 = 255
      ∧ tile_255_sprite_memory.get_memory_byte 0x8FF0 = 0x00
      ∧ tile_255_sprite_memory.get_memory_byte 0x8FF1 = 0x00
      ∧ tile_255_sprite_memory.get_memory_byte 0x7FF0 = 0xFF
      ∧ draw_line 0 tile_255_sprite_memory
        = [(0, 0, 2), (1, 0, 2), (2, 0, 2), (3, 0, 2), (4, 0, 2), (5, 0, 2), (6, 0, 2),
            (7, 0, 2)] := by
  have h := draw_line_tile_255_sprite
  exact ⟨fun lcdc_byte line_number_y y_position t r ht hr hr16 =>
      sprite_tile_location_no_flip lcdc_byte line_number_y y_position t r ht hr hr16,
    fun lcdc_byte line_number_y y_position r hr hr16 =>
      sprite_tile_location_tile_255 lcdc_byte line_number_y y_position r hr hr16,
    h.2.2.2.2.1, by decide, h.1, h.2.1, h.2.2.1, h.2.2.2.1, h.2.2.2.2.2⟩

/-! ## The tick loop -/

/-- The speed after a tick that goes on: 32 when the poll left the fast-forward
flag set, `original_speed` otherwise; the flag is clear afterwards.  The tick
goes through when no load is requested, or the save file exists or is written
in this tick. -/
theorem loop_tick_running_speed (host : HostRoutines) (events : List HostEvent)
    (joypad : Joypad) (mb : Motherboard)
    (hgo : (get_joypad_input host events joypad mb.mem).1 = true)
    (hload : (get_joypad_input host events joypad mb.mem).2.1.load_flag = true →
      (get_joypad_input host events joypad mb.mem).2.1.save_flag = true
        ∨ mb.save_file.isSome = true) :
    ∃ joypad_after mb_after,
      loop_tick host events joypad mb = some (true, joypad_after, mb_after)
        ∧ mb_after.running_speed
          = (if (get_joypad_input host events joypad mb.mem).2.1.fast_forward_flag
              then 32 else mb.original_speed)
        ∧ mb_after.original_speed = mb.original_speed
        ∧ joypad_after.fast_forward_flag = false := by
  unfold loop_tick
  generalize get_joypad_input host events joypad mb.mem = polled at hgo hload
  obtain ⟨go_on, joypad1, mem1⟩ := polled
  simp only at hgo hload
  subst hgo
  simp only [if_true]
  have hff : ∀ b : Bool, ¬ b = true → b = false := fun b h => by simpa using h
  by_cases hl : joypad1.load_flag = true
  · by_cases hs : joypad1.save_flag = true
    · by_cases hf : joypad1.fast_forward_flag = true
      · simp only [hs, hf, hl, if_true, Option.map_some', Motherboard.save, Motherboard.load]
        exact ⟨_, _, rfl, rfl, rfl, rfl⟩
      · simp only [hs, hf, hl, if_true, Bool.false_eq_true, if_false, Option.map_some',
          Motherboard.save, Motherboard.load]
        exact ⟨_, _, rfl, rfl, rfl, rfl⟩
    · have hfile := (hload hl).resolve_left hs
      obtain ⟨image, himage⟩ := Option.isSome_iff_exists.mp hfile
      by_cases hf : joypad1.fast_forward_flag = true
      · simp only [hs, hf, hl, if_true, Bool.false_eq_true, if_false, Option.map_some',
          Motherboard.load, himage]
        exact ⟨_, _, rfl, rfl, rfl, rfl⟩
      · simp only [hs, hf, hl, if_true, Bool.false_eq_true, if_false, Option.map_some',
          Motherboard.load, himage]
        exact ⟨_, _, rfl, rfl, rfl, rfl⟩
  · by_cases hs : joypad1.save_flag = true <;> by_cases hf : joypad1.fast_forward_flag = true
    · simp only [hs, hf, hl, if_true, Bool.false_eq_true, if_false, Option.map_some']
      exact ⟨_, _, rfl, rfl, rfl, rfl⟩
    · simp only [hs, hf, hl, if_true, Bool.false_eq_true, if_false, Option.map_some']
      exact ⟨_, _, rfl, rfl, rfl, rfl⟩
    · simp only [hs, hf, hl, if_true, Bool.false_eq_true, if_false, Option.map_some']
      exact ⟨_, _, rfl, rfl, rfl, rfl⟩
    · simp only [hs, hf, hl, if_true, Bool.false_eq_true, if_false, Option.map_some']
      exact ⟨_, _, rfl, rfl, rfl, hff _ hf⟩

set_option maxRecDepth 1000000 in
/-- Two ticks from the idle state with `original_speed` = 1: L is pressed in the
first, nothing is pressed in the second. -/
theorem loop_ticks_fast_forward_scenario :
    (loop_ticks plain_host [[.SDL_KEYDOWN .SDLK_l]] idle_joypad idle_motherboard).map
        (fun r => (r.1, r.2.1.fast_forward_flag, r.2.2.running_speed, r.2.2.original_speed))
        = some (true, false, 32, 1)
      ∧ (loop_ticks plain_host [[.SDL_KEYDOWN .SDLK_l], []] idle_joypad idle_motherboard).map
        (fun r => (r.1, r.2.1.fast_forward_flag, r.2.2.running_speed, r.2.2.original_speed))
        = some (true, false, 1, 1) := by
  decide

/-! ## C31: fast-forward -/

/-- C31, the code on two ticks from the idle state with `original_speed` = 1.
After the tick in which L is pressed `running_speed` is 32 and the fast-forward
flag is clear again; after the following tick, in which nothing is pressed,
`running_speed` is 1 and not 32. -/
theorem fast_forward_reverts_after_one_tick :
    (loop_ticks plain_host [[.SDL_KEYDOWN .SDLK_l]] idle_joypad idle_motherboard).map
        (fun r => (r.1, r.2.1.fast_forward_flag, r.2.2.running_speed, r.2.2.original_speed))
        = some (true, false, 32, 1)
      ∧ (loop_ticks plain_host [[.SDL_KEYDOWN .SDLK_l], []] idle_joypad idle_motherboard).map
        (fun r => (r.1, r.2.1.fast_forward_flag, r.2.2.running_speed, r.2.2.original_speed))
        = some (true, false, 1, 1) :=
  loop_ticks_fast_forward_scenario

/-- C31 as amended: fast-forward lasts one tick per request.  In every tick of
`Motherboard::loop` that goes on (a requested load finding its file),
`running_speed` is 32 afterwards when the poll of this tick left the
fast-forward flag set, and `original_speed` when it left the flag clear; the
flag is clear after the tick, so the speed is back to `original_speed` after the
next tick unless the flag is set again. -/
theorem loop_tick_speed_follows_fast_forward_flag (host : HostRoutines)
    (events : List HostEvent) (joypad : Joypad) (mb : Motherboard)
    (hgo : (get_joypad_input host events joypad mb.mem).1 = true)
    (hload : (get_joypad_input host events joypad mb.mem).2.1.load_flag = true →
      (get_joypad_input host events joypad mb.mem).2.1.save_flag = true
        ∨ mb.save_file.isSome = true) :
    ∃ joypad_after mb_after,
      loop_tick host events joypad mb = some (true, joypad_after, mb_after)
        ∧ mb_after.running_speed
          = (if (get_joypad_input host events joypad mb.mem).2.1.fast_forward_flag
              then 32 else mb.original_speed)
        ∧ mb_after.original_speed = mb.original_speed
        ∧ joypad_after.fast_forward_flag = false :=
  loop_tick_running_speed host events joypad mb hgo hload

set_option maxRecDepth 1000000 in
theorem get_joypad_input_l_key :
    (get_joypad_input plain_host [.SDL_KEYDOWN .SDLK_l] idle_joypad idle_motherboard.mem).1 = true
      ∧ (get_joypad_input plain_host [.SDL_KEYDOWN .SDLK_l] idle_joypad
          idle_motherboard.mem).2.1.load_flag = false
      ∧ (get_joypad_input plain_host [.SDL_KEYDOWN .SDLK_l] idle_joypad
          idle_motherboard.mem).2.1.fast_forward_flag = true := by
  decide

/-- The tick in which L is pressed, from the idle state: the poll sets the
fast-forward flag, and the tick ends with `running_speed` = 32 and the flag
clear. -/
theorem loop_tick_speed_follows_fast_forward_flag_witness :
    (get_joypad_input plain_host [.SDL_KEYDOWN .SDLK_l] idle_joypad
        idle_motherboard.mem).2.1.fast_forward_flag = true
      ∧ ∃ joypad_after mb_after,
        loop_tick plain_host [.SDL_KEYDOWN .SDLK_l] idle_joypad idle_motherboard
            = some (true, joypad_after, mb_after)
          ∧ mb_after.running_speed = 32
          ∧ mb_after.original_speed = 1
          ∧ joypad_after.fast_forward_flag = false := by
  obtain ⟨joypad_after, mb_after, h1, h2, h3, h4⟩ :=
    loop_tick_speed_follows_fast_forward_flag plain_host [.SDL_KEYDOWN .SDLK_l] idle_joypad
      idle_motherboard get_joypad_input_l_key.1
      (fun h => absurd (get_joypad_input_l_key.2.1 ▸ h) (by decide))
  rw [get_joypad_input_l_key.2.2] at h2
  exact ⟨get_joypad_input_l_key.2.2, joypad_after, mb_after, h1, h2, h3, h4⟩

/-! ## C32: quitting with P -/

set_option maxRecDepth 1000000 in
theorem loop_tick_quit_scenarios :
    idle_joypad.save_flag = false
      ∧ idle_motherboard.save_file.isSome = false
      ∧ (loop_tick plain_host [.SDL_KEYDOWN .SDLK_p] idle_joypad idle_motherboard).map
        (fun r => (r.1, r.2.1.save_flag, r.2.2.save_file.isSome)) = some (false, false, false)
      ∧ (loop_tick plain_host [.SDL_KEYDOWN .SDLK_ESCAPE] idle_joypad idle_motherboard).map
        (fun r => (r.1, r.2.1.save_flag, r.2.2.save_file.isSome)) = some (false, false, false)
      ∧ (loop_tick plain_host [.SDL_KEYDOWN .SDLK_q, .SDL_KEYDOWN .SDLK_p] idle_joypad
          idle_motherboard).map
        (fun r => (r.1, r.2.1.save_flag, r.2.2.save_file.isSome)) = some (false, false, true)
      ∧ (loop_tick plain_host [.SDL_KEYDOWN .SDLK_q, .SDL_KEYDOWN .SDLK_ESCAPE] idle_joypad
          idle_motherboard).map
        (fun r => (r.1, r.2.1.save_flag, r.2.2.save_file.isSome)) = some (false, false, true) := by
  decide

/-- C32, the code when a key-down event for P is polled.  For every joypad
state, memory and rest of the queue `get_joypad_input` returns false and leaves
`save_flag` as it was, exactly as it does for Esc.  From the idle state (no
quick-save pending, no save file) the tick that polls P ends the loop with no
save file written; a save file is written only when Q was polled before, and
then for Esc as well as for P. -/
theorem quit_with_p_does_not_request_save :
    (∀ (host : HostRoutines) (queue : List HostEvent) (joypad : Joypad) (mem : Memory),
        (get_joypad_input host (.SDL_KEYDOWN .SDLK_p :: queue) joypad mem).1 = false
          ∧ (get_joypad_input host (.SDL_KEYDOWN .SDLK_p :: queue) joypad mem).2.1.save_flag
            = joypad.save_flag
          ∧ get_joypad_input host (.SDL_KEYDOWN .SDLK_p :: queue) joypad mem
            = get_joypad_input host (.SDL_KEYDOWN .SDLK_ESCAPE :: queue) joypad mem)
      ∧ idle_joypad.save_flag = false
      ∧ idle_motherboard.save_file.isSome = false
      ∧ (loop_tick plain_host [.SDL_KEYDOWN .SDLK_p] idle_joypad idle_motherboard).map
        (fun r => (r.1, r.2.1.save_flag, r.2.2.save_file.isSome)) = some (false, false, false)
      ∧ (loop_tick plain_host [.SDL_KEYDOWN .SDLK_ESCAPE] idle_joypad idle_motherboard).map
        (fun r => (r.1, r.2.1.save_flag, r.2.2.save_file.isSome)) = some (false, false, false)
      ∧ (loop_tick plain_host [.SDL_KEYDOWN .SDLK_q, .SDL_KEYDOWN .SDLK_p] idle_joypad
          idle_motherboard).map
        (fun r => (r.1, r.2.1.save_flag, r.2.2.save_file.isSome)) = some (false, false, true)
      ∧ (loop_tick plain_host [.SDL_KEYDOWN .SDLK_q, .SDL_KEYDOWN .SDLK_ESCAPE] idle_joypad
          idle_motherboard).map
        (fun r => (r.1, r.2.1.save_flag, r.2.2.save_file.isSome)) = some (false, false, true) :=
  ⟨fun _ _ _ _ => ⟨rfl, rfl, rfl⟩, loop_tick_quit_scenarios⟩

end gameboy
